import Mathlib

/-!
# SimulIDE simulation kernel: IoPin, UartRx and TwiModule

A shallow embedding of `src/gui/circuitwidget/iopin.cpp`,
`src/microsim/modules/usart/usartrx.cpp` and
`src/mcusim/modules/twi/twimodule.cpp`.

Conventions of the embedding.

* Every C++ member function `T::f(args)` is a Lean function
  `T.f args (self : T) : T` (or `R × T` when it returns a value, `Option _`
  when it can dereference a null pointer).
* `double` values are rationals: every operation of the source is a field
  operation or a comparison, and the theorems below are about the exact
  values.  Division by zero, which the source never guards, is `0` here.
  Where the question is whether the source divides by zero, the arithmetic
  of `iopin.cpp` is embedded a second time over `Dbl`, which has the
  infinities and NaN of a `double` and overflows as a `double` does
  (section "IoPin over doubles").
* Calls into objects whose code is not part of these files (the circuit
  node behind a pin, the simulator's event queue, the usart that owns a
  receiver, the interrupt) are recorded, in call order, in a log that is
  part of the state.
* Values read from the outside (the node voltage, the level of a pin) are
  arguments of the function that reads them.
-/

namespace SimulIDE

/-! ## IoPin -/

/-- The enumeration `pinMode_t` of `iopin.h`; the source names these five
modes. -/
inductive pinMode_t where
  | undef_mode
  | input
  | output
  | open_col
  | source
  deriving DecidableEq, Repr

/-- The values of `pinState_t` (`pin.h`) that `iopin.cpp` passes to
`setPinState`; they only select the colour of the pin. -/
inductive pinState_t where
  | out_low
  | out_high
  | out_open
  | input_low
  | input_high
  deriving DecidableEq, Repr

/-- Declarations that `iopin.cpp` uses and that live in headers outside
these files: the constants `cero_doub` and `high_imp`, the numeric value of
each `pinMode_t` enumerator (the source compares `m_pinMode >= output`),
and the default value of the second argument of `setOutState`. -/
structure IoDecl where
  cero_doub : ℚ
  high_imp : ℚ
  modeVal : pinMode_t → Nat
  stDefault : Bool

/-- Calls that an IoPin makes into its circuit node and its graphics item. -/
inductive PinCall where
  | stampAdmitance (admittance : ℚ)
  | setVolt (volt : ℚ)
  | stampCurrent (current : ℚ)
  | setEnodeComp
  | update
  deriving DecidableEq, Repr

/-- The data members of `IoPin` (with `m_inverted` and the pin state of its
base class `Pin`), and the log of the calls it has made. -/
structure IoPin where
  m_pinMode : pinMode_t
  m_oldPinMode : pinMode_t
  m_pinState : pinState_t
  m_inpState : Bool
  m_outState : Bool
  m_stateZ : Bool
  m_inverted : Bool
  m_outCtrl : Bool
  m_dirCtrl : Bool
  m_inpHighV : ℚ
  m_inpLowV : ℚ
  m_outHighV : ℚ
  m_outLowV : ℚ
  m_outVolt : ℚ
  m_vddAdmit : ℚ
  m_gndAdmit : ℚ
  m_vddAdmEx : ℚ
  m_gndAdmEx : ℚ
  m_inputImp : ℚ
  m_openImp : ℚ
  m_outputImp : ℚ
  m_imp : ℚ
  m_admit : ℚ
  calls : List PinCall
  deriving DecidableEq, Repr

namespace IoPin

/-- Method `Pin::setPinState`. -/
def setPinState (st : pinState_t) (p : IoPin) : IoPin :=
  { p with m_pinState := st }

/-- Record one call in the log. -/
def call (c : PinCall) (p : IoPin) : IoPin :=
  { p with calls := p.calls ++ [c] }

/-- Method `IoPin::stampOutput`. -/
def stampOutput (p : IoPin) : IoPin :=
  (p.call (.setVolt p.m_outVolt)).call (.stampCurrent (p.m_outVolt / p.m_imp))

/-- Method `IoPin::stampAll`. -/
def stampAll (p : IoPin) : IoPin :=
  (p.call (.stampAdmitance p.m_admit)).stampOutput

/-- Method `IoPin::stamp`. -/
def stamp (p : IoPin) : IoPin :=
  p.stampAll

/-- Method `IoPin::setImp`. -/
def setImp (imp : ℚ) (p : IoPin) : IoPin :=
  let p := { p with m_imp := imp }
  let p := { p with m_admit := 1 / p.m_imp }
  p.stampAll

/-- Method `IoPin::updtState`. -/
def updtState (p : IoPin) : IoPin :=
  let vddAdmit := p.m_vddAdmit + p.m_vddAdmEx
  let gndAdmit := p.m_gndAdmit + p.m_gndAdmEx
  let Rth := 1 / (vddAdmit + gndAdmit)
  let p := { p with m_outVolt := p.m_outHighV * vddAdmit * Rth }
  p.setImp Rth

/-- Method `IoPin::getInpState`; `volt` is the value that `getVolt()` returns. -/
def getInpState (volt : ℚ) (p : IoPin) : Bool × IoPin :=
  let p :=
    if volt > p.m_inpHighV then { p with m_inpState := true }
    else if volt < p.m_inpLowV then { p with m_inpState := false }
    else p
  let p := p.setPinState (if p.m_inpState then .input_high else .input_low)
  (if p.m_inverted then !p.m_inpState else p.m_inpState, p)

/-- Method `IoPin::setOutState( bool out, bool st )`. -/
def setOutState (out st : Bool) (p : IoPin) : IoPin :=
  let p := { p with m_outState := out }
  let out := if p.m_inverted then !out else out
  if p.m_stateZ then p
  else if p.m_pinMode = .open_col then
    let p := { p with m_gndAdmit := if out then 1 / p.m_openImp else 1 / p.m_outputImp }
    let p := if st then p.updtState else p
    p.setPinState (if out then .out_open else .out_low)
  else
    let p := { p with m_outVolt := if out then p.m_outHighV else p.m_outLowV }
    let p := if st then p.stampOutput else p
    p.setPinState (if out then .out_high else .out_low)

/-- Method `IoPin::setPinMode`. -/
def setPinMode (D : IoDecl) (mode : pinMode_t) (p : IoPin) : IoPin :=
  if p.m_pinMode = mode then p
  else
    let p := { p with m_pinMode := mode }
    let p :=
      if mode = .source then
        let p := { p with m_vddAdmit := 1 / D.cero_doub }
        let p := { p with m_gndAdmit := D.cero_doub }
        p.setPinState .out_high
      else if mode = .input then
        let p := { p with m_vddAdmit := 0 }
        let p := { p with m_gndAdmit := 1 / p.m_inputImp }
        p.setPinState .input_low
      else if mode = .output then
        let p := { p with m_vddAdmit := 1 / p.m_outputImp }
        { p with m_gndAdmit := D.cero_doub }
      else if mode = .open_col then
        { p with m_vddAdmit := 0 }
      else p
    let p := p.updtState
    let p :=
      if D.modeVal p.m_pinMode ≥ D.modeVal .output then p.setOutState p.m_outState D.stDefault
      else p
    p.call .update

/-- Method `IoPin::setStateZ`. -/
def setStateZ (D : IoDecl) (z : Bool) (p : IoPin) : IoPin :=
  let p := { p with m_stateZ := z }
  if z then
    let p := { p with m_outVolt := p.m_outLowV }
    let p := p.setImp p.m_openImp
    p.setPinState .out_open
  else
    let pm := p.m_pinMode
    let p := { p with m_pinMode := .undef_mode }
    p.setPinMode D pm

/-- Method `IoPin::setInverted`. -/
def setInverted (D : IoDecl) (inverted : Bool) (p : IoPin) : IoPin :=
  if inverted = p.m_inverted then p
  else
    let p := { p with m_inverted := inverted }
    let p :=
      if D.modeVal p.m_pinMode ≥ D.modeVal .output then p.setOutState p.m_outState D.stDefault
      else p
    p.call .update

/-- Method `IoPin::controlPin`: both tests of `dirCtrl` are against `dirCtrl`
itself, as in the source. -/
def controlPin (D : IoDecl) (outCtrl dirCtrl : Bool) (p : IoPin) : IoPin :=
  let p := { p with m_outCtrl := outCtrl }
  let p :=
    if dirCtrl && !dirCtrl then { p with m_oldPinMode := p.m_pinMode }
    else if !dirCtrl && dirCtrl then p.setPinMode D p.m_oldPinMode
    else p
  { p with m_dirCtrl := dirCtrl }

/-- The member function `initialize()` of IoPin (the name is reserved in
Lean). -/
def initialise (D : IoDecl) (p : IoPin) : IoPin :=
  let p := { p with m_outCtrl := false }
  let p := { p with m_dirCtrl := false }
  let p := { p with m_inpState := false }
  let p := { p with m_outState := false }
  let p := p.call .setEnodeComp
  p.setPinMode D p.m_pinMode

/-- The constructor `IoPin::IoPin(..., mode)`.  It assigns the members
listed here; `raw` supplies the ones it leaves to the base classes or
unassigned (`m_inverted`, `m_pinState`, `m_inpState`, `m_outCtrl`,
`m_dirCtrl`, `m_oldPinMode`). -/
def construct (D : IoDecl) (mode : pinMode_t) (raw : IoPin) : IoPin :=
  let p : IoPin :=
    { raw with
      m_outState := false
      m_stateZ := false
      m_inpHighV := 5 / 2
      m_inpLowV := 5 / 2
      m_outHighV := D.cero_doub
      m_outLowV := D.cero_doub
      m_outVolt := D.cero_doub
      m_vddAdmit := 0
      m_gndAdmit := D.cero_doub
      m_vddAdmEx := 0
      m_gndAdmEx := 0
      m_inputImp := D.high_imp
      m_openImp := 10 ^ 28
      m_outputImp := 40
      m_imp := D.cero_doub
      calls := [] }
  let p := { p with m_admit := 1 / p.m_imp }
  let p := { p with m_pinMode := .undef_mode }
  p.setPinMode D mode

/-- The pin before the `n`-th of a series of `getInpState()` calls, the
`k`-th call reading the voltage `volt k`. -/
def beforeRead (volt : Nat → ℚ) (p : IoPin) : Nat → IoPin
  | 0 => p
  | n + 1 => (getInpState (volt n) (beforeRead volt p n)).2

/-- What the `n`-th of a series of `getInpState()` calls returns. -/
def readResult (volt : Nat → ℚ) (p : IoPin) (n : Nat) : Bool :=
  (getInpState (volt n) (beforeRead volt p n)).1

/-- The calls that the tri-state claim ranges over. -/
inductive DriveOp where
  | setOutState (out st : Bool)
  | setInverted (inverted : Bool)
  | setPinMode (mode : pinMode_t)
  deriving DecidableEq, Repr

/-- Run one `DriveOp`. -/
def drive (D : IoDecl) (p : IoPin) : DriveOp → IoPin
  | .setOutState out st => p.setOutState out st
  | .setInverted inverted => p.setInverted D inverted
  | .setPinMode mode => p.setPinMode D mode

/-- Run a sequence of `DriveOp`s, first to last. -/
def driveAll (D : IoDecl) (p : IoPin) (ops : List DriveOp) : IoPin :=
  ops.foldl (drive D) p

/-- A `DriveOp` that is not a `setPinMode` to a mode other than `m`. -/
def DriveOp.keepsMode (m : pinMode_t) : DriveOp → Bool
  | .setPinMode mode => decide (mode = m)
  | _ => true

/-- Sample values for the declarations of the headers: `cero_doub = 1e-14`,
`high_imp = 1e14`, the enumerators of `pinMode_t` numbered in the order
`undef_mode, input, output, open_col, source`, and `st = true`. -/
def sampleDecl : IoDecl where
  cero_doub := 1 / 10 ^ 14
  high_imp := 10 ^ 14
  modeVal
    | .undef_mode => 0
    | .input => 1
    | .output => 2
    | .open_col => 3
    | .source => 4
  stDefault := true

/-- A pin as `IoPin::IoPin` leaves it when constructed in `output` mode with
the sample declarations, then given 5 V / 0 V output levels and input
thresholds 1 V and 3 V. -/
def samplePin : IoPin :=
  { construct sampleDecl .output
      { m_pinMode := .undef_mode, m_oldPinMode := .undef_mode, m_pinState := .out_low,
        m_inpState := false, m_outState := false, m_stateZ := false, m_inverted := false,
        m_outCtrl := false, m_dirCtrl := false, m_inpHighV := 0, m_inpLowV := 0,
        m_outHighV := 0, m_outLowV := 0, m_outVolt := 0, m_vddAdmit := 0, m_gndAdmit := 0,
        m_vddAdmEx := 0, m_gndAdmEx := 0, m_inputImp := 0, m_openImp := 0,
        m_outputImp := 0, m_imp := 0, m_admit := 0, calls := [] } with
    m_outHighV := 5
    m_outLowV := 0
    m_inpHighV := 3
    m_inpLowV := 1 }

/-- What the calls of a tri-stated pin leave alone when the mode stays `m`. -/
def ZFrame (m : pinMode_t) (imp volt openImp lowV : ℚ) (q : IoPin) : Prop :=
  q.m_stateZ = true ∧ q.m_pinMode = m ∧ q.m_imp = imp ∧ q.m_outVolt = volt ∧
    q.m_openImp = openImp ∧ q.m_outLowV = lowV

/-- The total admittance that `updtState` inverts. -/
def totalAdmit (p : IoPin) : ℚ :=
  p.m_vddAdmit + p.m_vddAdmEx + (p.m_gndAdmit + p.m_gndAdmEx)

/-- A series of node voltages: 5, 2, 3, 0, then 2 for ever. -/
def sampleVolts : Nat → ℚ
  | 0 => 5
  | 1 => 2
  | 2 => 3
  | 3 => 0
  | _ => 2

end IoPin

/-! ## IoPin over doubles

The arithmetic of `iopin.cpp` once more, over values that overflow: a finite
value, an infinity or NaN.  Sums, products and quotients follow the rules of
a `double` for the infinities and NaN (`1/inf = 0`, `inf * 0 = NaN`,
`inf - inf = NaN`), and a result beyond the largest finite `double` is the
infinity of its sign.  Rounding is left out: a finite result is the exact
one.  A divisor of the source is a constant, an impedance passed in, a sum of
admittances or the reciprocal of such a sum; the reciprocal of a finite
`double` is at least `1/maxDouble`, which is above the least positive
`double`, so that rounding makes none of them zero.  Zero has no sign here.
Every function that divides returns an `Option`: a division whose divisor is
zero, negative or NaN gives `none`, and so does the function. -/

/-- The largest finite `double`, `(2 - 2^-52) * 2^1023`. -/
def maxDouble : ℚ := (2 ^ 53 - 1) * 2 ^ 971

/-- A `double`: a finite value, plus or minus infinity, or NaN. -/
inductive Dbl where
  | fin (q : ℚ)
  | pinf
  | ninf
  | nan
  deriving DecidableEq, Repr

namespace Dbl

/-- The `double` for an exact result: the infinity of its sign when it is
beyond `maxDouble`. -/
def ofRat (q : ℚ) : Dbl :=
  if maxDouble < q then .pinf else if q < -maxDouble then .ninf else .fin q

/-- The sum `x + y` of two doubles. -/
def add : Dbl → Dbl → Dbl
  | .fin a, .fin b => ofRat (a + b)
  | .fin _, y => y
  | x, .fin _ => x
  | .pinf, .pinf => .pinf
  | .ninf, .ninf => .ninf
  | _, _ => .nan

/-- The product of an infinity of sign `pos` and the finite value `a`. -/
def infTimes (pos : Bool) (a : ℚ) : Dbl :=
  if a = 0 then .nan else if (0 < a) = pos then .pinf else .ninf

/-- The product `x * y` of two doubles. -/
def mul : Dbl → Dbl → Dbl
  | .fin a, .fin b => ofRat (a * b)
  | .nan, _ => .nan
  | _, .nan => .nan
  | .fin a, .pinf => infTimes true a
  | .fin a, .ninf => infTimes false a
  | .pinf, .fin b => infTimes true b
  | .ninf, .fin b => infTimes false b
  | .pinf, .pinf => .pinf
  | .ninf, .ninf => .pinf
  | .pinf, .ninf => .ninf
  | .ninf, .pinf => .ninf

/-- The quotient `x / y` of two doubles, for a strictly positive divisor;
`none` when the divisor is zero, negative or NaN. -/
def divPos (x y : Dbl) : Option Dbl :=
  match y with
  | .fin b =>
    if 0 < b then
      some (match x with
        | .fin a => ofRat (a / b)
        | other => other)
    else none
  | .pinf =>
    some (match x with
      | .fin _ => .fin 0
      | _ => .nan)
  | _ => none

end Dbl

/-- The constants `cero_doub` and `high_imp`, the numeric value of each
`pinMode_t` enumerator and the default of the second argument of
`setOutState`, as in `IoDecl`, the constants being doubles. -/
structure DblDecl where
  cero_doub : Dbl
  high_imp : Dbl
  modeVal : pinMode_t → Nat
  stDefault : Bool

/-- Calls that an IoPin makes into its circuit node and its graphics item,
with the doubles it passes. -/
inductive DblCall where
  | stampAdmitance (admittance : Dbl)
  | setVolt (volt : Dbl)
  | stampCurrent (current : Dbl)
  | update
  deriving DecidableEq, Repr

/-- The data members of `IoPin` that its constructor assigns, with
`m_inverted` and the pin state of its base class, the `double` members being
doubles, and the log of calls. -/
structure DblPin where
  m_pinMode : pinMode_t
  m_pinState : pinState_t
  m_outState : Bool
  m_stateZ : Bool
  m_inverted : Bool
  m_inpHighV : Dbl
  m_inpLowV : Dbl
  m_outHighV : Dbl
  m_outLowV : Dbl
  m_outVolt : Dbl
  m_vddAdmit : Dbl
  m_gndAdmit : Dbl
  m_vddAdmEx : Dbl
  m_gndAdmEx : Dbl
  m_inputImp : Dbl
  m_openImp : Dbl
  m_outputImp : Dbl
  m_imp : Dbl
  m_admit : Dbl
  calls : List DblCall
  deriving DecidableEq, Repr

namespace DblPin

/-- Method `Pin::setPinState`. -/
def setPinState (st : pinState_t) (p : DblPin) : DblPin :=
  { p with m_pinState := st }

/-- Record one call in the log. -/
def call (c : DblCall) (p : DblPin) : DblPin :=
  { p with calls := p.calls ++ [c] }

/-- Method `IoPin::stampOutput`. -/
def stampOutput (p : DblPin) : Option DblPin :=
  (Dbl.divPos p.m_outVolt p.m_imp).bind fun current =>
    some ((p.call (.setVolt p.m_outVolt)).call (.stampCurrent current))

/-- Method `IoPin::stampAll`. -/
def stampAll (p : DblPin) : Option DblPin :=
  (p.call (.stampAdmitance p.m_admit)).stampOutput

/-- Method `IoPin::setImp`. -/
def setImp (imp : Dbl) (p : DblPin) : Option DblPin :=
  let p := { p with m_imp := imp }
  (Dbl.divPos (.fin 1) p.m_imp).bind fun a =>
    let p := { p with m_admit := a }
    p.stampAll

/-- Method `IoPin::updtState`. -/
def updtState (p : DblPin) : Option DblPin :=
  let vddAdmit := p.m_vddAdmit.add p.m_vddAdmEx
  let gndAdmit := p.m_gndAdmit.add p.m_gndAdmEx
  (Dbl.divPos (.fin 1) (vddAdmit.add gndAdmit)).bind fun Rth =>
    let p := { p with m_outVolt := (p.m_outHighV.mul vddAdmit).mul Rth }
    p.setImp Rth

/-- Method `IoPin::setOutState( bool out, bool st )`. -/
def setOutState (out st : Bool) (p : DblPin) : Option DblPin :=
  let p := { p with m_outState := out }
  let out := if p.m_inverted then !out else out
  if p.m_stateZ then some p
  else if p.m_pinMode = .open_col then
    (if out then Dbl.divPos (.fin 1) p.m_openImp
      else Dbl.divPos (.fin 1) p.m_outputImp).bind fun g =>
      let p := { p with m_gndAdmit := g }
      (if st then p.updtState else some p).bind fun p =>
        some (p.setPinState (if out then .out_open else .out_low))
  else
    let p := { p with m_outVolt := if out then p.m_outHighV else p.m_outLowV }
    (if st then p.stampOutput else some p).bind fun p =>
      some (p.setPinState (if out then .out_high else .out_low))

/-- The assignments of `IoPin::setPinMode` that depend on the mode. -/
def modeAdmit (D : DblDecl) (mode : pinMode_t) (p : DblPin) : Option DblPin :=
  if mode = .source then
    (Dbl.divPos (.fin 1) D.cero_doub).bind fun v =>
      let p := { p with m_vddAdmit := v }
      let p := { p with m_gndAdmit := D.cero_doub }
      some (p.setPinState .out_high)
  else if mode = .input then
    let p := { p with m_vddAdmit := .fin 0 }
    (Dbl.divPos (.fin 1) p.m_inputImp).bind fun g =>
      let p := { p with m_gndAdmit := g }
      some (p.setPinState .input_low)
  else if mode = .output then
    (Dbl.divPos (.fin 1) p.m_outputImp).bind fun v =>
      let p := { p with m_vddAdmit := v }
      some { p with m_gndAdmit := D.cero_doub }
  else if mode = .open_col then
    some { p with m_vddAdmit := .fin 0 }
  else some p

/-- Method `IoPin::setPinMode`. -/
def setPinMode (D : DblDecl) (mode : pinMode_t) (p : DblPin) : Option DblPin :=
  if p.m_pinMode = mode then some p
  else
    let p := { p with m_pinMode := mode }
    (p.modeAdmit D mode).bind fun p =>
      p.updtState.bind fun p =>
        (if D.modeVal p.m_pinMode ≥ D.modeVal .output then
            p.setOutState p.m_outState D.stDefault
          else some p).bind fun p =>
          some (p.call .update)

/-- Method `IoPin::setStateZ`. -/
def setStateZ (D : DblDecl) (z : Bool) (p : DblPin) : Option DblPin :=
  let p := { p with m_stateZ := z }
  if z then
    let p := { p with m_outVolt := p.m_outLowV }
    (p.setImp p.m_openImp).bind fun p =>
      some (p.setPinState .out_open)
  else
    let pm := p.m_pinMode
    let p := { p with m_pinMode := .undef_mode }
    p.setPinMode D pm

/-- Method `IoPin::setInverted`. -/
def setInverted (D : DblDecl) (inverted : Bool) (p : DblPin) : Option DblPin :=
  if inverted = p.m_inverted then some p
  else
    let p := { p with m_inverted := inverted }
    (if D.modeVal p.m_pinMode ≥ D.modeVal .output then
        p.setOutState p.m_outState D.stDefault
      else some p).bind fun p =>
      some (p.call .update)

/-- The constructor `IoPin::IoPin(..., mode)`; `raw` supplies `m_inverted`
and `m_pinState`, which it leaves to the base class. -/
def construct (D : DblDecl) (mode : pinMode_t) (raw : DblPin) : Option DblPin :=
  let p : DblPin :=
    { raw with
      m_outState := false
      m_stateZ := false
      m_inpHighV := .fin (5 / 2)
      m_inpLowV := .fin (5 / 2)
      m_outHighV := D.cero_doub
      m_outLowV := D.cero_doub
      m_outVolt := D.cero_doub
      m_vddAdmit := .fin 0
      m_gndAdmit := D.cero_doub
      m_vddAdmEx := .fin 0
      m_gndAdmEx := .fin 0
      m_inputImp := D.high_imp
      m_openImp := .fin (10 ^ 28)
      m_outputImp := .fin 40
      m_imp := D.cero_doub
      calls := [] }
  (Dbl.divPos (.fin 1) p.m_imp).bind fun a =>
    let p := { p with m_admit := a }
    let p := { p with m_pinMode := .undef_mode }
    p.setPinMode D mode

/-- The total admittance that `updtState` divides by. -/
def totalAdmit (p : DblPin) : Dbl :=
  (p.m_vddAdmit.add p.m_vddAdmEx).add (p.m_gndAdmit.add p.m_gndAdmEx)

/-- Sample declarations: `cero_doub = 1e-14`, `high_imp = 1e14`, the
enumerators of `pinMode_t` numbered in the order `undef_mode, input, output,
open_col, source`, and `st = true`. -/
def sampleDecl : DblDecl where
  cero_doub := .fin (1 / 10 ^ 14)
  high_imp := .fin (10 ^ 14)
  modeVal
    | .undef_mode => 0
    | .input => 1
    | .output => 2
    | .open_col => 3
    | .source => 4
  stDefault := true

end DblPin

/-! ## UartRx

Integer members whose declarations are in headers outside these files are
natural numbers.  Where the source itself fixes a width (the `uint16_t frame`
of `byteReceived` and `getData`, the `uint8_t` arguments and results) the
value is reduced modulo `2 ^ w` at that point.  `1 << n` is `1 <<< n`, that
is `2 ^ n`; the source's `int` shifts agree with it for `n < 31`. -/

/-- Declarations that `usartrx.cpp` uses and that live in headers outside
these files: the enumerator `parNONE` of `parity_t`, the flags `frameError`
and `parityError` of the receive-error enumeration, and the member function
`getParity` of the base class `UartTR`, which reads the usart's data-bit and
parity settings and the frame. -/
structure UsartDecl where
  parNONE : Nat
  frameError : Nat
  parityError : Nat
  getParity : (dataBits parity frame : Nat) → Bool

/-- The values of the receiver's `m_state` that `usartrx.cpp` names. -/
inductive rxState_t where
  | usartSTOPPED
  | usartRECEIVE
  | usartRXEND
  deriving DecidableEq, Repr

/-- Calls that a UartRx makes into its usart, its interrupt, its pin and the
simulator. -/
inductive RxCall where
  | overrunError
  | byteReceived (data : Nat)
  | setBit9Rx (bit : Nat)
  | parityError
  | frameError
  | raise
  | clearFlag
  | changeCallBack (en : Bool)
  | addEvent (time : Nat)
  | cancelEvents
  deriving DecidableEq, Repr

/-- The data members of `UartRx` that `usartrx.cpp` uses.  `mDATABITS`,
`mPARITY`, `mSTOPBITS` and `mDATAMASK` are the settings the source reads
from its usart through the macros of these names; `m_interrupt` tells
whether the interrupt pointer is non-null; `m_fifo0` and `m_fifo1` are
`m_fifo[0]` and `m_fifo[1]`; `m_inBuffer` is the queue, front first. -/
structure UartRx where
  mDATABITS : Nat
  mPARITY : Nat
  mSTOPBITS : Nat
  mDATAMASK : Nat
  m_interrupt : Bool
  m_enabled : Bool
  m_runHardware : Bool
  m_sleeping : Bool
  m_ignoreData : Bool
  m_startHigh : Bool
  m_state : rxState_t
  m_period : Nat
  m_frame : Nat
  m_framesize : Nat
  m_currentBit : Nat
  m_fifoP : Nat
  m_fifo0 : Nat
  m_fifo1 : Nat
  m_inBuffer : List Nat
  calls : List RxCall
  deriving DecidableEq, Repr

namespace UartRx

/-- Record one call in the log. -/
def call (c : RxCall) (r : UartRx) : UartRx :=
  { r with calls := r.calls ++ [c] }

/-- The assignment `m_fifo[i] = frame`; the array has two entries. -/
def setFifo (i frame : Nat) (r : UartRx) : Option UartRx :=
  if i = 0 then some { r with m_fifo0 := frame }
  else if i = 1 then some { r with m_fifo1 := frame }
  else none

/-- Method `UartRx::byteReceived( uint16_t frame )`.  The result is `none`
where the source writes outside `m_fifo` or calls `raise()` through a null
`m_interrupt`. -/
def byteReceived (D : UsartDecl) (frame : Nat) (r : UartRx) : Option UartRx :=
  let frame := frame % 2 ^ 16
  if r.m_fifoP = 0 then some (r.call .overrunError)
  else
    let frame :=
      if r.mPARITY > D.parNONE then
        let parity := D.getParity r.mDATABITS r.mPARITY frame
        let parityBit := decide (frame &&& (1 <<< r.mDATABITS) ≠ 0)
        if parity ≠ parityBit then (frame ||| D.parityError) % 2 ^ 16 else frame
      else frame
    let frame :=
      if frame &&& (1 <<< (r.mDATABITS + r.mPARITY)) = 0 then (frame ||| D.frameError) % 2 ^ 16
      else frame
    if r.mDATABITS = 9 ∧ r.m_ignoreData = true ∧ frame &&& (1 <<< 8) = 0 then some r
    else
      let r := { r with m_fifoP := r.m_fifoP - 1 }
      match r.setFifo r.m_fifoP frame with
      | none => none
      | some r =>
        if r.m_fifoP = 1 ∧ r.m_interrupt = false then none
        else
          let r := if r.m_fifoP = 1 then r.call .raise else r
          some (r.call (.byteReceived (frame &&& r.mDATAMASK)))

/-- Method `UartRx::getData()`, which returns a `uint8_t`. -/
def getData (D : UsartDecl) (r : UartRx) : Nat × UartRx :=
  if r.m_fifoP = 2 then (0, r)
  else
    let frame := r.m_fifo1 % 2 ^ 16
    let data := (frame &&& r.mDATAMASK) % 2 ^ 8
    let r := if r.mDATABITS = 9 then r.call (.setBit9Rx (frame &&& (1 <<< 8))) else r
    let r := if frame &&& D.parityError ≠ 0 then r.call .parityError else r
    let r := if frame &&& D.frameError ≠ 0 then r.call .frameError else r
    let r := { r with m_fifoP := r.m_fifoP + 1 }
    let r :=
      if r.m_fifoP = 2 ∧ r.m_interrupt = true then r.call .clearFlag
      else { r with m_fifo1 := r.m_fifo0 }
    (data, r)

/-- Method `UartRx::readBit()`; `bit` is what `m_ioPin->getInpState()`
returns. -/
def readBit (bit : Bool) (r : UartRx) : UartRx :=
  let r := if bit then { r with m_frame := r.m_frame + (1 <<< r.m_currentBit) } else r
  let r := { r with m_currentBit := r.m_currentBit + 1 }
  if r.m_currentBit = r.m_framesize then
    let r := r.call (.changeCallBack true)
    { r with m_state := .usartRXEND }
  else r

/-- Method `UartRx::rxEnd()`. -/
def rxEnd (D : UsartDecl) (r : UartRx) : Option UartRx :=
  let r := { r with m_frame := r.m_frame >>> 1 }
  match r.byteReceived D r.m_frame with
  | none => none
  | some r =>
    let r := { r with m_currentBit := 0 }
    let r := { r with m_frame := 0 }
    let r :=
      if r.m_runHardware then
        let r := { r with m_state := .usartSTOPPED }
        r.call (.changeCallBack true)
      else { r with m_state := .usartRECEIVE }
    some (if r.m_period ≠ 0 then r.call .cancelEvents else r)

/-- Method `UartRx::processData( uint8_t )`; `pinLevel` is what
`m_ioPin->getInpState()` returns. -/
def processData (pinLevel : Bool) (r : UartRx) : UartRx :=
  let r := { r with m_framesize := 1 + r.mDATABITS + r.mPARITY + r.mSTOPBITS }
  let r := { r with m_currentBit := 0 }
  let r := { r with m_fifoP := 2 }
  let r := { r with m_startHigh := false }
  if r.m_runHardware then
    let r := { r with m_startHigh := pinLevel }
    r.call (.changeCallBack true)
  else
    let r := { r with m_state := .usartRECEIVE }
    if r.m_period ≠ 0 then r.call (.addEvent (r.m_period * r.m_framesize)) else r

/-- Method `UartRx::enable( uint8_t en )`; `connected` is what
`m_ioPin->isConnected()` returns and `pinLevel` what `getInpState()`
returns. -/
def enable (en : Nat) (connected pinLevel : Bool) (r : UartRx) : UartRx :=
  let enabled := decide (en % 2 ^ 8 > 0)
  if enabled = r.m_enabled then r
  else
    let r := { r with m_enabled := enabled }
    let r := { r with m_runHardware := connected }
    let r := { r with m_inBuffer := [] }
    let r := { r with m_state := .usartSTOPPED }
    let r := if enabled then r.processData pinLevel else r
    { r with m_frame := 0 }

/-- Method `UartRx::voltChanged()`; `bit` is what `m_ioPin->getInpState()`
returns. -/
def voltChanged (D : UsartDecl) (bit : Bool) (r : UartRx) : Option UartRx :=
  if r.m_sleeping then some r
  else
    match (if r.m_state = .usartRXEND then r.rxEnd D else some r) with
    | none => none
    | some r =>
      if !r.m_startHigh && bit then some { r with m_startHigh := true }
      else if r.m_startHigh && !bit then
        let r := { r with m_state := .usartRECEIVE }
        let r := r.call (.changeCallBack false)
        some (if r.m_period ≠ 0 then r.call (.addEvent (r.m_period / 2)) else r)
      else some r

/-- Method `UartRx::runEvent()`; `bit` is what `m_ioPin->getInpState()`
returns when `readBit` is reached. -/
def runEvent (D : UsartDecl) (bit : Bool) (r : UartRx) : Option UartRx :=
  if r.m_state = .usartSTOPPED then some r
  else if r.m_state = .usartRECEIVE then
    if r.m_runHardware then
      let r := r.readBit bit
      if r.m_state = .usartRXEND then r.rxEnd D
      else some (if r.m_period ≠ 0 then r.call (.addEvent r.m_period) else r)
    else
      let next :=
        match r.m_inBuffer with
        | [] => some r
        | front :: rest =>
          match r.byteReceived D front with
          | none => none
          | some r => some { r with m_inBuffer := rest }
      match next with
      | none => none
      | some r =>
        some (if r.m_period ≠ 0 then r.call (.addEvent (r.m_period * r.m_framesize)) else r)
  else if r.m_state = .usartRXEND then r.rxEnd D
  else some r

/-- Method `UartRx::queueData( uint8_t data )`. -/
def queueData (data : Nat) (r : UartRx) : UartRx :=
  if !r.m_enabled then r
  else
    let r :=
      if r.m_runHardware then
        let r := { r with m_runHardware := false }
        let r := r.call .cancelEvents
        let r := r.call (.addEvent (r.m_period * (r.m_framesize + 2)))
        { r with m_state := .usartRECEIVE }
      else r
    if r.m_inBuffer.length > 1000 then r
    else { r with m_inBuffer := r.m_inBuffer ++ [data % 2 ^ 8] }

/-- The frame as `byteReceived` tags it before it stores it: the parity check
and the stop-bit check of `byteReceived`, on the `uint16_t` argument. -/
def tagFrame (D : UsartDecl) (r : UartRx) (frame : Nat) : Nat :=
  let frame := frame % 2 ^ 16
  let frame :=
    if r.mPARITY > D.parNONE then
      let parity := D.getParity r.mDATABITS r.mPARITY frame
      let parityBit := decide (frame &&& (1 <<< r.mDATABITS) ≠ 0)
      if parity ≠ parityBit then (frame ||| D.parityError) % 2 ^ 16 else frame
    else frame
  if frame &&& (1 <<< (r.mDATABITS + r.mPARITY)) = 0 then (frame ||| D.frameError) % 2 ^ 16
  else frame

/-- The test of `byteReceived` that discards a frame of 9 data bits whose
bit 8 is clear while `m_ignoreData` is set (multi-processor mode). -/
def filtered (D : UsartDecl) (r : UartRx) (frame : Nat) : Bool :=
  decide (r.mDATABITS = 9 ∧ r.m_ignoreData = true ∧ tagFrame D r frame &&& (1 <<< 8) = 0)

/-- The entry `m_fifo[i]`. -/
def fifoAt (i : Nat) (r : UartRx) : Nat :=
  if i = 0 then r.m_fifo0 else r.m_fifo1

/-- The frames that the FIFO holds, oldest first: none when `m_fifoP` is 2,
`m_fifo[1]` when it is 1, `m_fifo[1]` then `m_fifo[0]` when it is 0. -/
def pending (r : UartRx) : List Nat :=
  if r.m_fifoP = 0 then [r.m_fifo1, r.m_fifo0]
  else if r.m_fifoP = 1 then [r.m_fifo1]
  else []

/-- The error flags of `D` can tag the frames of a receiver set as `r`: they
are non-zero, lie within the 16-bit frame word, and share no bit with each
other, with the data mask or with the stop-bit position. -/
def FlagsApart (D : UsartDecl) (r : UartRx) : Prop :=
  D.frameError ≠ 0 ∧ D.parityError ≠ 0 ∧ D.frameError < 2 ^ 16 ∧ D.parityError < 2 ^ 16 ∧
  D.frameError &&& D.parityError = 0 ∧
  D.frameError &&& r.mDATAMASK = 0 ∧ D.parityError &&& r.mDATAMASK = 0 ∧
  D.parityError &&& (1 <<< (r.mDATABITS + r.mPARITY)) = 0

/-- The value of a series of sampled bits, first sample least significant. -/
def bitsVal : List Bool → Nat
  | [] => 0
  | b :: bs => b.toNat + 2 * bitsVal bs

/-- The `n` low bits of `d`, least significant first. -/
def lsbFirst (n d : Nat) : List Bool :=
  (List.range n).map (fun i => d.testBit i)

/-- The levels of a frame on the line: a start bit 0, `dataBits` bits of `d`
least significant first, then `rest` (parity and stop bits). -/
def frameBits (dataBits d : Nat) (rest : List Bool) : List Bool :=
  false :: (lsbFirst dataBits d ++ rest)

/-- Sample a series of levels with `readBit`, one call per level. -/
def readBits (bits : List Bool) (r : UartRx) : UartRx :=
  bits.foldl (fun r b => r.readBit b) r

/-- The pin-sampled path: `readBit` for each level, then `rxEnd`. -/
def sampleFrame (D : UsartDecl) (bits : List Bool) (r : UartRx) : Option UartRx :=
  (r.readBits bits).rxEnd D

/-- Sample values for the declarations of the headers: `parNONE = 0`,
`frameError = 1<<12`, `parityError = 1<<14`, and for `getParity` the xor of
the data bits, complemented when the parity setting is 2. -/
def sampleDecl : UsartDecl where
  parNONE := 0
  frameError := 1 <<< 12
  parityError := 1 <<< 14
  getParity dataBits parity frame :=
    ((List.range dataBits).foldl (fun acc i => xor acc (frame.testBit i)) false) != (parity == 2)

/-- A receiver set for 8 data bits, no parity, 1 stop bit, with an interrupt
attached, not enabled yet. -/
def sampleOff : UartRx where
  mDATABITS := 8
  mPARITY := 0
  mSTOPBITS := 1
  mDATAMASK := 255
  m_interrupt := true
  m_enabled := false
  m_runHardware := false
  m_sleeping := false
  m_ignoreData := false
  m_startHigh := false
  m_state := .usartSTOPPED
  m_period := 104
  m_frame := 0
  m_framesize := 0
  m_currentBit := 0
  m_fifoP := 0
  m_fifo0 := 0
  m_fifo1 := 0
  m_inBuffer := []
  calls := []

/-- The sample receiver after `enable(1)` with the pin connected and
high: hardware mode, FIFO empty. -/
def sampleRx : UartRx :=
  sampleOff.enable 1 true true

/-- The sample receiver after `enable(1)` with the pin not connected:
software-injected mode, FIFO empty. -/
def sampleSoftRx : UartRx :=
  sampleOff.enable 1 false true

/-- The calls on a receiver that the FIFO claims range over. -/
inductive FifoOp where
  | byteReceived (frame : Nat)
  | getData
  deriving DecidableEq, Repr

/-- Run a series of `FifoOp`s, first to last; the result is the list of the
values the `getData()` calls returned, in call order, and the receiver. -/
def runFifo (D : UsartDecl) : List FifoOp → UartRx → Option (List Nat × UartRx)
  | [], r => some ([], r)
  | .byteReceived frame :: ops, r =>
    match r.byteReceived D frame with
    | none => none
    | some r => runFifo D ops r
  | .getData :: ops, r =>
    match runFifo D ops (r.getData D).2 with
    | none => none
    | some (out, r') => some ((r.getData D).1 :: out, r')

/-- A series of calls: three frames (0x41, 0x42, 0x43 with their stop bits),
three reads, one more frame (0x44) and a read. -/
def sampleOps : List FifoOp :=
  [.byteReceived 0x141, .byteReceived 0x142, .byteReceived 0x143, .getData, .getData,
    .getData, .byteReceived 0x144, .getData]

/-- The receive buffer as the specification words it: a FIFO, two deep, of
the received frames; a frame that arrives while two are pending is not
stored (overrun), nor is one that the multi-processor filter `flt`
discards; `getData` delivers the data bits `data f` of the oldest pending
frame `f`, or nothing when none is pending.  `q` is the pending frames,
oldest first.  The result is what each `getData` call delivered, the frames
accepted in arrival order, and the frames left pending. -/
def fifoSpec (data : Nat → Nat) (flt : Nat → Bool) :
    List FifoOp → List Nat → List (Option Nat) × List Nat × List Nat
  | [], q => ([], [], q)
  | .byteReceived f :: ops, q =>
    if q.length < 2 ∧ flt f = false then
      ((fifoSpec data flt ops (q ++ [f])).1, f :: (fifoSpec data flt ops (q ++ [f])).2.1,
        (fifoSpec data flt ops (q ++ [f])).2.2)
    else fifoSpec data flt ops q
  | .getData :: ops, [] =>
    (none :: (fifoSpec data flt ops []).1, (fifoSpec data flt ops []).2)
  | .getData :: ops, f :: q =>
    (some (data f) :: (fifoSpec data flt ops q).1, (fifoSpec data flt ops q).2)

/-- The data bits of a frame as `getData` returns them: `frame & mDATAMASK`
in a `uint8_t`. -/
def dataByte (r : UartRx) (frame : Nat) : Nat :=
  (frame &&& r.mDATAMASK) % 2 ^ 8

/-- The calls that `getData()` makes when a frame is pending. -/
def getDataCalls (D : UsartDecl) (s : UartRx) : List RxCall :=
  (if s.mDATABITS = 9 then [RxCall.setBit9Rx (s.m_fifo1 % 2 ^ 16 &&& (1 <<< 8))] else []) ++
  (if s.m_fifo1 % 2 ^ 16 &&& D.parityError ≠ 0 then [RxCall.parityError] else []) ++
  (if s.m_fifo1 % 2 ^ 16 &&& D.frameError ≠ 0 then [RxCall.frameError] else []) ++
  (if s.m_fifoP + 1 = 2 ∧ s.m_interrupt = true then [RxCall.clearFlag] else [])

/-- The settings of `s` that decoding reads are those of `r`, and the
interrupt is attached. -/
def SameSetup (r s : UartRx) : Prop :=
  s.mDATABITS = r.mDATABITS ∧ s.mPARITY = r.mPARITY ∧ s.mDATAMASK = r.mDATAMASK ∧
    s.m_ignoreData = r.m_ignoreData ∧ s.m_interrupt = true

/-- The receiver `s` holds the frames `q` (as received, oldest first), tagged
with the settings of `r`. -/
def Holds (D : UsartDecl) (r s : UartRx) (q : List Nat) : Prop :=
  SameSetup r s ∧ s.m_fifoP + q.length = 2 ∧ s.pending = q.map (tagFrame D r)

end UartRx

/-! ## TwiModule -/

/-- The enumeration `twiMode_t`. -/
inductive twiMode_t where
  | TWI_OFF
  | TWI_MASTER
  | TWI_SLAVE
  deriving DecidableEq, Repr

/-- The protocol phases `i2cState_t`. -/
inductive i2cState_t where
  | I2C_IDLE
  | I2C_START
  | I2C_STOP
  | I2C_READ
  | I2C_WRITE
  | I2C_ACK
  | I2C_ENDACK
  | I2C_READACK
  deriving DecidableEq, Repr

/-- The status codes `twiState_t` that `twimodule.cpp` names. -/
inductive twiState_t where
  | TWI_NO_STATE
  | TWI_START
  | TWI_MTX_ADR_ACK
  | TWI_MTX_ADR_NACK
  | TWI_MTX_DATA_ACK
  | TWI_MTX_DATA_NACK
  | TWI_MRX_ADR_ACK
  | TWI_MRX_ADR_NACK
  | TWI_MRX_DATA_ACK
  | TWI_MRX_DATA_NACK
  | TWI_SRX_ADR_ACK
  | TWI_SRX_GEN_ACK
  | TWI_SRX_ADR_DATA_ACK
  | TWI_SRX_ADR_DATA_NACK
  | TWI_SRX_GEN_DATA_ACK
  | TWI_SRX_GEN_DATA_NACK
  | TWI_STX_ADR_ACK
  | TWI_STX_DATA_ACK
  | TWI_STX_DATA_NACK
  deriving DecidableEq, Repr

/-- The clock states that `eClockedDevice::updateClock()` leaves in
`m_clkState`. -/
inductive clkState_t where
  | Clock_Low
  | Clock_Rising
  | Clock_High
  | Clock_Falling
  deriving DecidableEq, Repr

/-- The delay of a scheduled event as the source writes it: `m_clockPeriod`,
`m_clockPeriod/2` or `m_clockPeriod/4`. -/
inductive twiDelay_t where
  | period
  | halfPeriod
  | quarterPeriod
  deriving DecidableEq, Repr

/-- Calls that a TwiModule makes into its pins, the simulator and its
notification hooks. -/
inductive TwiCall where
  | setSDA (st : Bool)
  | setSCL (st : Bool)
  | addEvent (delay : twiDelay_t)
  | cancelEvents
  | sclChangeCallBack (en : Bool)
  | sdaChangeCallBack (en : Bool)
  | startWrite
  | setTwiState (state : twiState_t)
  deriving DecidableEq, Repr

/-- The data members of `TwiModule` that `twimodule.cpp` uses, and the log
of the calls it has made. -/
structure TwiModule where
  m_mode : twiMode_t
  m_twiState : twiState_t
  m_nextState : twiState_t
  m_i2cState : i2cState_t
  m_lastState : i2cState_t
  m_clkState : clkState_t
  m_sheduleSDA : Bool
  m_sheduleSCL : Bool
  m_nextSDA : Bool
  m_nextSCL : Bool
  m_toggleScl : Bool
  m_genCall : Bool
  m_lastSDA : Bool
  m_sdaState : Bool
  m_sendACK : Bool
  m_addrMatch : Bool
  m_isAddr : Bool
  m_write : Bool
  m_bitPtr : Int
  m_addrBits : Int
  m_address : Nat
  m_rxReg : Nat
  m_txReg : Nat
  calls : List TwiCall
  deriving DecidableEq, Repr

/-- The virtual member functions `writeByte()` and `I2Cstop()`, which
`twimodule.cpp` calls and whose bodies are in the header outside these
files. -/
structure TwiDecl where
  writeByte : TwiModule → TwiModule
  I2Cstop : TwiModule → TwiModule

namespace TwiModule

/-- Record one call in the log. -/
def call (c : TwiCall) (t : TwiModule) : TwiModule :=
  { t with calls := t.calls ++ [c] }

/-- Modelled from the spec: `setTwiState`, whose body is in the header
outside these files, sets the "separately-tracked externally-visible
`twiState`"; the call is recorded as well. -/
def setTwiState (state : twiState_t) (t : TwiModule) : TwiModule :=
  { t with m_twiState := state }.call (.setTwiState state)

/-- The virtual hook `startWrite()` ("Notify posible child class"); the call
is recorded. -/
def startWrite (t : TwiModule) : TwiModule :=
  t.call .startWrite

/-- The member function `initialize()` of TwiModule (the name is reserved
in Lean). -/
def initialise (t : TwiModule) : TwiModule :=
  let t := { t with m_mode := .TWI_OFF }
  let t := { t with m_twiState := .TWI_NO_STATE }
  let t := { t with m_i2cState := .I2C_IDLE }
  let t := { t with m_lastState := .I2C_IDLE }
  let t := { t with m_sheduleSDA := false }
  let t := { t with m_toggleScl := false }
  let t := { t with m_genCall := false }
  { t with m_lastSDA := true }

/-- Method `TwiModule::setSCL`. -/
def setSCL (st : Bool) (t : TwiModule) : TwiModule :=
  t.call (.setSCL st)

/-- Method `TwiModule::setSDA`. -/
def setSDA (st : Bool) (t : TwiModule) : TwiModule :=
  t.call (.setSDA st)

/-- Method `TwiModule::getSdaState`; `sda` is what `m_sda->getInpState()`
returns. -/
def getSdaState (sda : Bool) (t : TwiModule) : TwiModule :=
  { t with m_sdaState := sda }

/-- The call `updateClock()` of the base class `eClockedDevice`; `clk` is
the clock state it finds. -/
def updateClock (clk : clkState_t) (t : TwiModule) : TwiModule :=
  { t with m_clkState := clk }

/-- Method `TwiModule::keepClocking`. -/
def keepClocking (t : TwiModule) : TwiModule :=
  let t := { t with m_toggleScl := true }
  t.call (.addEvent .halfPeriod)

/-- Method `TwiModule::sheduleSDA`. -/
def sheduleSDA (state : Bool) (t : TwiModule) : TwiModule :=
  let t := { t with m_sheduleSDA := true }
  let t := { t with m_nextSDA := state }
  t.call (.addEvent .quarterPeriod)

/-- Method `TwiModule::sheduleSCL`. -/
def sheduleSCL (state : Bool) (t : TwiModule) : TwiModule :=
  let t := { t with m_sheduleSCL := true }
  let t := { t with m_nextSCL := state }
  t.call (.addEvent .quarterPeriod)

/-- Method `TwiModule::readBit`. -/
def readBit (t : TwiModule) : TwiModule :=
  let t := if t.m_bitPtr > 0 then { t with m_rxReg := t.m_rxReg <<< 1 } else t
  let t := { t with m_rxReg := t.m_rxReg + t.m_sdaState.toNat }
  { t with m_bitPtr := t.m_bitPtr + 1 }

/-- Method `TwiModule::waitACK`. -/
def waitACK (t : TwiModule) : TwiModule :=
  let t := t.setSDA true
  let t := { t with m_lastState := t.m_i2cState }
  { t with m_i2cState := .I2C_READACK }

/-- Method `TwiModule::ACK`. -/
def ACK (t : TwiModule) : TwiModule :=
  let t := { t with m_lastState := t.m_i2cState }
  { t with m_i2cState := .I2C_ACK }

/-- Method `TwiModule::writeBit`. -/
def writeBit (t : TwiModule) : TwiModule :=
  if t.m_bitPtr < 0 then t.waitACK
  else
    let bit := decide (t.m_txReg >>> t.m_bitPtr.toNat &&& 1 ≠ 0)
    let t := { t with m_bitPtr := t.m_bitPtr - 1 }
    if t.m_mode = .TWI_MASTER then t.setSDA bit else t.sheduleSDA bit

/-- Method `TwiModule::readByte`. -/
def readByte (t : TwiModule) : TwiModule :=
  let t := { t with m_bitPtr := 0 }
  t.ACK

/-- Method `TwiModule::runEvent`; `clk` is the clock state that
`updateClock()` finds and `sda` what `m_sda->getInpState()` returns. -/
def runEvent (clk : clkState_t) (sda : Bool) (t : TwiModule) : TwiModule :=
  if t.m_sheduleSDA then
    let t := t.setSDA t.m_nextSDA
    { t with m_sheduleSDA := false }
  else if t.m_sheduleSCL then
    let t := t.setSCL t.m_nextSCL
    { t with m_sheduleSCL := false }
  else if t.m_mode ≠ .TWI_MASTER then t
  else
    let t := t.updateClock clk
    let clkLow := decide (t.m_clkState = .Clock_Low ∨ t.m_clkState = .Clock_Falling)
    if t.m_toggleScl then
      let t := t.setSCL clkLow
      { t with m_toggleScl := false }
    else
      let t := t.call (.addEvent .period)
      if t.m_i2cState = .I2C_IDLE then t
      else
        let t := t.getSdaState sda
        match t.m_i2cState with
        | .I2C_IDLE => t
        | .I2C_STOP =>
          if t.m_sdaState && clkLow then t.setSDA false
          else if !t.m_sdaState && clkLow then t.keepClocking
          else if !t.m_sdaState && !clkLow then t.setSDA true
          else if t.m_sdaState && !clkLow then
            let t := t.setTwiState .TWI_NO_STATE
            { t with m_i2cState := .I2C_IDLE }
          else t
        | .I2C_START =>
          if t.m_sdaState then t.setSDA false
          else if !clkLow then
            let t := t.setSCL false
            let t := t.setTwiState .TWI_START
            { t with m_i2cState := .I2C_IDLE }
          else t
        | .I2C_READ =>
          let t :=
            if !clkLow then
              let t := t.readBit
              if t.m_bitPtr = 8 then t.readByte else t
            else t
          t.keepClocking
        | .I2C_WRITE =>
          let t := if clkLow then t.writeBit else t
          t.keepClocking
        | .I2C_ACK =>
          let t :=
            if clkLow then
              let t := if t.m_sendACK then t.setSDA false else t
              { t with m_i2cState := .I2C_ENDACK }
            else t
          t.keepClocking
        | .I2C_ENDACK =>
          if clkLow then
            let t := t.setSDA true
            let twiState : twiState_t :=
              if t.m_sendACK then .TWI_MRX_DATA_ACK else .TWI_MRX_DATA_NACK
            let t := t.setTwiState twiState
            { t with m_i2cState := .I2C_IDLE }
          else t.keepClocking
        | .I2C_READACK =>
          if clkLow then
            let t := t.setTwiState t.m_nextState
            { t with m_i2cState := .I2C_IDLE }
          else
            let t :=
              if t.m_isAddr then
                if t.m_write then
                  { t with m_nextState :=
                      if t.m_sdaState then .TWI_MTX_ADR_NACK else .TWI_MTX_ADR_ACK }
                else
                  { t with m_nextState :=
                      if t.m_sdaState then .TWI_MRX_ADR_NACK else .TWI_MRX_ADR_ACK }
              else
                { t with m_nextState :=
                    if t.m_sdaState then .TWI_MTX_DATA_NACK else .TWI_MTX_DATA_ACK }
            t.keepClocking

/-- Method `TwiModule::voltChanged`; `clk` is the clock state that
`updateClock()` finds and `sda` what `m_sda->getInpState()` returns. -/
def voltChanged (D : TwiDecl) (clk : clkState_t) (sda : Bool) (t : TwiModule) : TwiModule :=
  if t.m_mode ≠ .TWI_SLAVE then t
  else
    let t := t.updateClock clk
    let t := t.getSdaState sda
    let t :=
      if t.m_clkState = .Clock_High ∧ t.m_i2cState ≠ .I2C_ACK then
        if t.m_lastSDA && !t.m_sdaState then
          let t := { t with m_bitPtr := 0 }
          let t := { t with m_rxReg := 0 }
          { t with m_i2cState := .I2C_START }
        else if !t.m_lastSDA && t.m_sdaState then D.I2Cstop t
        else t
      else if t.m_clkState = .Clock_Rising then
        if t.m_i2cState = .I2C_START then
          let t := t.readBit
          if t.m_bitPtr > t.m_addrBits then
            let rw := decide (t.m_rxReg % 2 ≠ 0)
            let t := { t with m_rxReg := t.m_rxReg >>> 1 }
            let t := { t with m_addrMatch := decide (t.m_rxReg = t.m_address) }
            let genCall := t.m_genCall && decide (t.m_rxReg = 0)
            if t.m_addrMatch || genCall then
              let t := { t with m_sendACK := true }
              let t :=
                if rw then
                  let t := { t with m_nextState := .TWI_STX_ADR_ACK }
                  let t := { t with m_i2cState := .I2C_READ }
                  D.writeByte t
                else
                  let t := { t with m_nextState :=
                    if t.m_addrMatch then .TWI_SRX_ADR_ACK else .TWI_SRX_GEN_ACK }
                  let t := { t with m_i2cState := .I2C_WRITE }
                  let t := { t with m_bitPtr := 0 }
                  t.startWrite
              t.ACK
            else
              let t := { t with m_i2cState := .I2C_STOP }
              { t with m_rxReg := 0 }
          else t
        else if t.m_i2cState = .I2C_WRITE then
          let t := t.readBit
          if t.m_bitPtr = 8 then
            let t :=
              if t.m_addrMatch then
                { t with m_nextState :=
                    if t.m_sendACK then .TWI_SRX_ADR_DATA_ACK else .TWI_SRX_ADR_DATA_NACK }
              else
                { t with m_nextState :=
                    if t.m_sendACK then .TWI_SRX_GEN_DATA_ACK else .TWI_SRX_GEN_DATA_NACK }
            t.readByte
          else t
        else if t.m_i2cState = .I2C_READACK then
          let t := t.setTwiState (if t.m_sdaState then .TWI_STX_DATA_NACK else .TWI_STX_DATA_ACK)
          if !t.m_sdaState then
            let t := { t with m_i2cState := t.m_lastState }
            D.writeByte t
          else { t with m_i2cState := .I2C_IDLE }
        else t
      else if t.m_clkState = .Clock_Falling then
        let t :=
          if t.m_i2cState = .I2C_ACK then
            let t := t.sheduleSDA (!t.m_sendACK)
            { t with m_i2cState := .I2C_ENDACK }
          else if t.m_i2cState = .I2C_ENDACK then
            let t := t.setTwiState t.m_nextState
            let t := { t with m_i2cState := t.m_lastState }
            let releaseSda :=
              if t.m_i2cState = .I2C_READ then
                decide (t.m_txReg >>> t.m_bitPtr.toNat &&& 1 ≠ 0)
              else true
            let t := t.sheduleSDA releaseSda
            { t with m_rxReg := 0 }
          else t
        if t.m_i2cState = .I2C_READ then t.writeBit else t
      else t
    { t with m_lastSDA := t.m_sdaState }

/-- Method `TwiModule::setMode`. -/
def setMode (mode : twiMode_t) (t : TwiModule) : TwiModule :=
  let t :=
    if mode = .TWI_MASTER then
      let t := t.call .cancelEvents
      t.call (.addEvent .period)
    else t
  let t := t.call (.sclChangeCallBack (decide (mode = .TWI_SLAVE)))
  let t := t.call (.sdaChangeCallBack (decide (mode = .TWI_SLAVE)))
  let t := t.sheduleSCL true
  let t := t.setSDA true
  let t := { t with m_mode := mode }
  let t := { t with m_i2cState := .I2C_IDLE }
  let t := { t with m_sheduleSDA := false }
  { t with m_toggleScl := false }

/-- Method `TwiModule::masterWrite( uint8_t data, bool isAddr, bool write )`. -/
def masterWrite (D : TwiDecl) (data : Nat) (isAddr write : Bool) (t : TwiModule) : TwiModule :=
  let t := { t with m_isAddr := isAddr }
  let t := { t with m_write := write }
  let t := { t with m_i2cState := .I2C_WRITE }
  let t := { t with m_txReg := data % 2 ^ 8 }
  D.writeByte t

/-- Method `TwiModule::masterRead`. -/
def masterRead (ack : Bool) (t : TwiModule) : TwiModule :=
  let t := { t with m_sendACK := ack }
  let t := t.setSDA true
  let t := { t with m_bitPtr := 0 }
  let t := { t with m_rxReg := 0 }
  { t with m_i2cState := .I2C_READ }

/-- The slave sees a series of rising SCL edges, one per SDA level of
`bits`. -/
def risingEdges (D : TwiDecl) (bits : List Bool) (t : TwiModule) : TwiModule :=
  bits.foldl (fun t b => t.voltChanged D .Clock_Rising b) t

/-- The `n` low bits of `a`, most significant first. -/
def msbFirst (n a : Nat) : List Bool :=
  (List.range n).reverse.map (fun i => a.testBit i)

/-- The value of a series of bits, first bit most significant, shifted into
a register that holds `acc`. -/
def msbAcc (acc : Nat) : List Bool → Nat
  | [] => acc
  | b :: bs => msbAcc (2 * acc + b.toNat) bs

/-- A sample for the two virtual functions of the header: both leave the
module as it is. -/
def sampleDecl : TwiDecl where
  writeByte t := t
  I2Cstop t := t

/-- A slave with 7-bit address `addr` that has just detected START: a module
after `initialize()` and `setMode( TWI_SLAVE )` sees SDA fall while SCL is
high. -/
def sampleSlave (addr : Nat) : TwiModule :=
  let raw : TwiModule :=
    { m_mode := .TWI_OFF, m_twiState := .TWI_NO_STATE, m_nextState := .TWI_NO_STATE,
      m_i2cState := .I2C_IDLE, m_lastState := .I2C_IDLE, m_clkState := .Clock_Low,
      m_sheduleSDA := false, m_sheduleSCL := false, m_nextSDA := false, m_nextSCL := false,
      m_toggleScl := false, m_genCall := false, m_lastSDA := false, m_sdaState := false,
      m_sendACK := false, m_addrMatch := false, m_isAddr := false, m_write := false,
      m_bitPtr := 0, m_addrBits := 7, m_address := addr, m_rxReg := 0, m_txReg := 0,
      calls := [] }
  ((raw.initialise).setMode .TWI_SLAVE).voltChanged sampleDecl .Clock_High false

/-- A module as the constructor and `initialize()` leave it, with 7-bit
address 0x50 and every member the source leaves unassigned cleared. -/
def sampleOff : TwiModule :=
  TwiModule.initialise
    { m_mode := .TWI_OFF, m_twiState := .TWI_NO_STATE, m_nextState := .TWI_NO_STATE,
      m_i2cState := .I2C_IDLE, m_lastState := .I2C_IDLE, m_clkState := .Clock_Low,
      m_sheduleSDA := false, m_sheduleSCL := false, m_nextSDA := false, m_nextSCL := false,
      m_toggleScl := false, m_genCall := false, m_lastSDA := false, m_sdaState := false,
      m_sendACK := false, m_addrMatch := false, m_isAddr := false, m_write := false,
      m_bitPtr := 0, m_addrBits := 7, m_address := 0x50, m_rxReg := 0, m_txReg := 0,
      calls := [] }

/-- The sample module after `setMode( TWI_MASTER )`. -/
def sampleMaster : TwiModule :=
  sampleOff.setMode .TWI_MASTER

/-- The sample slave at 0x50 after START, with general-call recognition
enabled by its owner. -/
def sampleGenCall : TwiModule :=
  { sampleSlave 0x50 with m_genCall := true }

/-- The calls that the module made between the states `before` and
`after`. -/
def newCalls (before after : TwiModule) : List TwiCall :=
  after.calls.drop before.calls.length

/-- Modelled from the spec: the simulator's queue, whose code is outside these
files, restricted to the events of this module and with the delay standing
for the fire time. "`addEvent(delay, target)` inserts `(now+delay, target)`;
`cancelEvents(target)` removes all pending entries for that target." The
result is the module's pending events after the calls of the list, made in
order on a queue that holds `q`. -/
def pendingEvents (q : List twiDelay_t) : List TwiCall → List twiDelay_t
  | [] => q
  | .addEvent delay :: cs => pendingEvents (q ++ [delay]) cs
  | .cancelEvents :: cs => pendingEvents [] cs
  | _ :: cs => pendingEvents q cs

/-- The events that a list of calls schedules. -/
def scheduled : List TwiCall → List twiDelay_t
  | [] => []
  | .addEvent delay :: cs => delay :: scheduled cs
  | _ :: cs => scheduled cs

/-- A call that drives a pin; a fired event of the slave makes no other. -/
def isPinDrive : TwiCall → Bool
  | .setSDA _ => true
  | .setSCL _ => true
  | _ => false

/-- The calls that the module has made, the pin drives left out: the events
it scheduled and the notifications it gave. -/
def requests (t : TwiModule) : List TwiCall :=
  t.calls.filter (fun c => !isPinDrive c)

/-- A call on the module from outside: `volt clk sda` is `voltChanged()`,
which the pins call on every change of SCL or SDA, with the clock state that
`updateClock()` finds and the SDA level; `event clk sda` is `runEvent()`. -/
inductive SlaveStep where
  | volt (clk : clkState_t) (sda : Bool)
  | event (clk : clkState_t) (sda : Bool)
  deriving DecidableEq, Repr

/-- Run one `SlaveStep`. -/
def doStep (D : TwiDecl) (t : TwiModule) : SlaveStep → TwiModule
  | .volt clk sda => t.voltChanged D clk sda
  | .event clk sda => t.runEvent clk sda

/-- Run a series of `SlaveStep`s, first to last. -/
def doSteps (D : TwiDecl) (steps : List SlaveStep) (t : TwiModule) : TwiModule :=
  steps.foldl (doStep D) t

/-- A step while SCL is low: SDA changes, or an event fires. -/
def SlaveStep.isLow : SlaveStep → Bool
  | .volt .Clock_Low _ => true
  | .event _ _ => true
  | _ => false

/-- A step that is not a change of SDA while SCL is high. -/
def SlaveStep.notHigh : SlaveStep → Bool
  | .volt .Clock_High _ => false
  | _ => true

/-- One SCL period as the slave sees it: SCL falls with SDA at `sdaAtFall`,
the steps `lows` follow while SCL is low (SDA changes, events), and SCL rises
with SDA at `bit`. -/
structure BitCell where
  sdaAtFall : Bool
  lows : List SlaveStep
  bit : Bool
  deriving DecidableEq, Repr

/-- The steps of a bit cell after its falling edge. -/
def afterFall (c : BitCell) : List SlaveStep :=
  c.lows ++ [.volt .Clock_Rising c.bit]

/-- The steps of a bit cell. -/
def bitCell (c : BitCell) : List SlaveStep :=
  .volt .Clock_Falling c.sdaAtFall :: afterFall c

/-- The steps of a series of bit cells. -/
def bitCells : List BitCell → List SlaveStep
  | [] => []
  | c :: cs => bitCell c ++ bitCells cs

/-- The SDA levels at the rising edges of a series of bit cells. -/
def cellBits (cells : List BitCell) : List Bool :=
  cells.map (fun c => c.bit)

/-- Between the edges of each cell SCL is low. -/
def cellsLow (cells : List BitCell) : Bool :=
  cells.all (fun c => c.lows.all (fun s => s.isLow))

/-- The cells of a transfer of `bits` in which SDA is set to each bit while
SCL is low. -/
def plainCells (bits : List Bool) : List BitCell :=
  bits.map (fun b => { sdaAtFall := false, lows := [.volt .Clock_Low b], bit := b })

/-- The members of `u` are those of `t`, but for the latches `m_clkState`,
`m_sdaState`, `m_lastSDA`, the pin drives in the log, and the flags
`m_sheduleSDA` and `m_sheduleSCL`, which may have been cleared. -/
structure Core (t u : TwiModule) : Prop where
  mode : u.m_mode = t.m_mode
  twiState : u.m_twiState = t.m_twiState
  nextState : u.m_nextState = t.m_nextState
  i2cState : u.m_i2cState = t.m_i2cState
  lastState : u.m_lastState = t.m_lastState
  sheduleSDA : u.m_sheduleSDA = true → t.m_sheduleSDA = true
  sheduleSCL : u.m_sheduleSCL = true → t.m_sheduleSCL = true
  nextSDA : u.m_nextSDA = t.m_nextSDA
  nextSCL : u.m_nextSCL = t.m_nextSCL
  toggleScl : u.m_toggleScl = t.m_toggleScl
  genCall : u.m_genCall = t.m_genCall
  sendACK : u.m_sendACK = t.m_sendACK
  addrMatch : u.m_addrMatch = t.m_addrMatch
  isAddr : u.m_isAddr = t.m_isAddr
  write : u.m_write = t.m_write
  bitPtr : u.m_bitPtr = t.m_bitPtr
  addrBits : u.m_addrBits = t.m_addrBits
  address : u.m_address = t.m_address
  rxReg : u.m_rxReg = t.m_rxReg
  txReg : u.m_txReg = t.m_txReg
  requests : requests u = requests t

/-- A step that the slave in phase `st` only latches: any step while SCL is
low, a falling edge outside `I2C_ACK`, `I2C_ENDACK` and `I2C_READ`, a rising
edge outside `I2C_START`, `I2C_WRITE` and `I2C_READACK`, a change of SDA with
SCL high in `I2C_ACK`. -/
def quiet (st : i2cState_t) : SlaveStep → Bool
  | .event _ _ => true
  | .volt .Clock_Low _ => true
  | .volt .Clock_Falling _ =>
    decide (st ≠ .I2C_ACK ∧ st ≠ .I2C_ENDACK ∧ st ≠ .I2C_READ)
  | .volt .Clock_Rising _ =>
    decide (st ≠ .I2C_START ∧ st ≠ .I2C_WRITE ∧ st ≠ .I2C_READACK)
  | .volt .Clock_High _ => decide (st = .I2C_ACK)

/-- The slave `u` is receiving the address byte that started at `t0` and has
read `k` bits of it, of value `acc`. -/
def AddrPhase (t0 u : TwiModule) (k : Int) (acc : Nat) : Prop :=
  u.m_mode = .TWI_SLAVE ∧ u.m_i2cState = .I2C_START ∧ u.m_bitPtr = k ∧ u.m_rxReg = acc ∧
    u.m_addrBits = t0.m_addrBits ∧ u.m_address = t0.m_address ∧
    u.m_genCall = t0.m_genCall ∧ u.m_sendACK = t0.m_sendACK ∧
    requests u = requests t0 ∧ (u.m_sheduleSDA = true → t0.m_sheduleSDA = true)

/-- The slave `u` is receiving a data byte and has read `k` bits of it; what
the byte's end reads (`m_addrMatch`, `m_sendACK`) and the requests made are
those of `u0`. -/
def DataPhase (u0 u : TwiModule) (k : Int) : Prop :=
  u.m_mode = .TWI_SLAVE ∧ u.m_i2cState = .I2C_WRITE ∧ u.m_bitPtr = k ∧
    u.m_addrMatch = u0.m_addrMatch ∧ u.m_sendACK = u0.m_sendACK ∧
    requests u = requests u0

/-- The status that the slave reports for a received data byte. -/
def dataStatus (addrMatch sendACK : Bool) : twiState_t :=
  if addrMatch then (if sendACK then .TWI_SRX_ADR_DATA_ACK else .TWI_SRX_ADR_DATA_NACK)
  else (if sendACK then .TWI_SRX_GEN_DATA_ACK else .TWI_SRX_GEN_DATA_NACK)

/-- The module after `n` successive `writeBit()` calls. -/
def writeBits : Nat → TwiModule → TwiModule
  | 0, t => t
  | n + 1, t => writeBits n t.writeBit

/-- The SDA level that the call leading from `before` to `after` commanded:
for a master the argument of its last `setSDA` call, otherwise the level
that `sheduleSDA` stored in `m_nextSDA`; `none` when it commanded none. -/
def commandedSDA (before after : TwiModule) : Option Bool :=
  if after.m_mode = .TWI_MASTER then
    match (newCalls before after).getLast? with
    | some (.setSDA st) => some st
    | _ => none
  else if after.m_sheduleSDA then some after.m_nextSDA
  else none

/-- The SDA levels that `n` successive `writeBit()` calls command, in call
order. -/
def writtenBits : Nat → TwiModule → List (Option Bool)
  | 0, _ => []
  | n + 1, t => commandedSDA t t.writeBit :: writtenBits n t.writeBit

/-- One `readBit()` call per level of `bits`, `m_sdaState` holding that
level at the call (as `getSdaState()` leaves it). -/
def readBits (bits : List Bool) (t : TwiModule) : TwiModule :=
  bits.foldl (fun t b => (t.getSdaState b).readBit) t

/-- The test `clkLow` of `runEvent`: SCL is low or falling. -/
def isLow (clk : clkState_t) : Bool :=
  decide (clk = .Clock_Low ∨ clk = .Clock_Falling)

/-- The status that the master derives from the SDA level `sda` sampled in
`I2C_READACK`: after an address byte (`isAddr`) sent for writing (`write`)
or for reading, or after a data byte. -/
def ackStatus (isAddr write sda : Bool) : twiState_t :=
  if isAddr then
    if write then (if sda then .TWI_MTX_ADR_NACK else .TWI_MTX_ADR_ACK)
    else (if sda then .TWI_MRX_ADR_NACK else .TWI_MRX_ADR_ACK)
  else (if sda then .TWI_MTX_DATA_NACK else .TWI_MTX_DATA_ACK)

end TwiModule

/-! ## Theorems -/

/-! ### IoPin -/

namespace IoPin

theorem getInpState_fst (volt : ℚ) (p : IoPin) (h : p.m_inverted = false) :
    (getInpState volt p).1 = (getInpState volt p).2.m_inpState := by
  unfold getInpState setPinState
  split_ifs <;> simp_all

theorem getInpState_inpState (volt : ℚ) (p : IoPin) :
    (getInpState volt p).2.m_inpState =
      if volt > p.m_inpHighV then true
      else if volt < p.m_inpLowV then false else p.m_inpState := by
  unfold getInpState setPinState
  split_ifs <;> simp_all

theorem getInpState_frame (volt : ℚ) (p : IoPin) :
    (getInpState volt p).2.m_inverted = p.m_inverted ∧
    (getInpState volt p).2.m_inpHighV = p.m_inpHighV ∧
    (getInpState volt p).2.m_inpLowV = p.m_inpLowV := by
  unfold getInpState setPinState
  split_ifs <;> simp_all

theorem beforeRead_frame (volt : Nat → ℚ) (p : IoPin) (n : Nat) :
    (beforeRead volt p n).m_inverted = p.m_inverted ∧
    (beforeRead volt p n).m_inpHighV = p.m_inpHighV ∧
    (beforeRead volt p n).m_inpLowV = p.m_inpLowV := by
  induction n with
  | zero => simp [beforeRead]
  | succ n ih =>
    obtain ⟨h1, h2, h3⟩ := getInpState_frame (volt n) (beforeRead volt p n)
    simp only [beforeRead]
    exact ⟨h1.trans ih.1, h2.trans ih.2.1, h3.trans ih.2.2⟩

/-- On a non-inverted pin each call returns: high above `m_inpHighV`, low
below `m_inpLowV`, the value of the call before otherwise. -/
theorem readResult_succ (volt : Nat → ℚ) (p : IoPin) (h : p.m_inverted = false) (n : Nat) :
    readResult volt p (n + 1) =
      if volt (n + 1) > p.m_inpHighV then true
      else if volt (n + 1) < p.m_inpLowV then false else readResult volt p n := by
  have hf := beforeRead_frame volt p
  have e1 : readResult volt p (n + 1) =
      (getInpState (volt (n + 1)) (beforeRead volt p (n + 1))).2.m_inpState :=
    getInpState_fst _ _ ((hf (n + 1)).1.trans h)
  have e2 : readResult volt p n = (beforeRead volt p (n + 1)).m_inpState :=
    getInpState_fst _ _ ((hf n).1.trans h)
  rw [e1, e2, getInpState_inpState, (hf (n + 1)).2.1, (hf (n + 1)).2.2]

theorem readResult_of_lt (volt : Nat → ℚ) (p : IoPin) (h : p.m_inverted = false)
    (hle : p.m_inpLowV ≤ p.m_inpHighV) (k : Nat) (hk : volt k < p.m_inpLowV) :
    readResult volt p k = false := by
  have hf := beforeRead_frame volt p k
  have e1 : readResult volt p k = (getInpState (volt k) (beforeRead volt p k)).2.m_inpState :=
    getInpState_fst _ _ (hf.1.trans h)
  rw [e1, getInpState_inpState, hf.2.1, hf.2.2]
  have : ¬ volt k > p.m_inpHighV := not_lt.mpr (le_trans hk.le hle)
  simp [this, hk]

theorem readResult_of_gt (volt : Nat → ℚ) (p : IoPin) (h : p.m_inverted = false)
    (k : Nat) (hk : p.m_inpHighV < volt k) :
    readResult volt p k = true := by
  have hf := beforeRead_frame volt p k
  have e1 : readResult volt p k = (getInpState (volt k) (beforeRead volt p k)).2.m_inpState :=
    getInpState_fst _ _ (hf.1.trans h)
  rw [e1, getInpState_inpState, hf.2.1, hf.2.2]
  simp [hk]

/-- C1. Input hysteresis of a non-inverted IoPin with `m_inpLowV ≤ m_inpHighV`,
over any series of voltages read by successive `getInpState()` calls: after a
call that returned true every later call returns true as long as no voltage
strictly below `m_inpLowV` has been read; after a call that returned false
every later call returns false as long as no voltage strictly above
`m_inpHighV` has been read; a call reading a voltage strictly below
`m_inpLowV` returns false and one reading strictly above `m_inpHighV`
returns true; a voltage equal to a threshold or between the thresholds
returns what the call before returned. -/
theorem getInpState_hysteresis (p : IoPin) (volt : Nat → ℚ)
    (hinv : p.m_inverted = false) (hle : p.m_inpLowV ≤ p.m_inpHighV) :
    (∀ i k, i ≤ k → readResult volt p i = true →
        (∀ j, i < j → j ≤ k → p.m_inpLowV ≤ volt j) → readResult volt p k = true) ∧
    (∀ i k, i ≤ k → readResult volt p i = false →
        (∀ j, i < j → j ≤ k → volt j ≤ p.m_inpHighV) → readResult volt p k = false) ∧
    (∀ k, volt k < p.m_inpLowV → readResult volt p k = false) ∧
    (∀ k, p.m_inpHighV < volt k → readResult volt p k = true) ∧
    (∀ k, p.m_inpLowV ≤ volt (k + 1) → volt (k + 1) ≤ p.m_inpHighV →
        readResult volt p (k + 1) = readResult volt p k) := by
  refine ⟨?_, ?_, readResult_of_lt volt p hinv hle, readResult_of_gt volt p hinv, ?_⟩
  · intro i k hik hi hv
    induction k, hik using Nat.le_induction with
    | base => exact hi
    | succ k hk ih =>
      rw [readResult_succ volt p hinv]
      have h1 : ¬ volt (k + 1) < p.m_inpLowV := not_lt.mpr (hv (k + 1) (by omega) le_rfl)
      have h2 := ih (fun j h1 h2 => hv j h1 (by omega))
      simp [h1, h2]
  · intro i k hik hi hv
    induction k, hik using Nat.le_induction with
    | base => exact hi
    | succ k hk ih =>
      rw [readResult_succ volt p hinv]
      have h1 : ¬ volt (k + 1) > p.m_inpHighV := not_lt.mpr (hv (k + 1) (by omega) le_rfl)
      have h2 := ih (fun j h1 h2 => hv j h1 (by omega))
      simp [h1, h2]
  · intro k h1 h2
    rw [readResult_succ volt p hinv]
    simp [not_lt.mpr h1, not_lt.mpr h2]

/-- Witness of C1 on the sample pin (thresholds 1 V and 3 V) reading 5, 2, 3,
0, 2 V: high, high, high, low, low. -/
theorem getInpState_hysteresis_witness :
    samplePin.m_inverted = false ∧ samplePin.m_inpLowV ≤ samplePin.m_inpHighV ∧
    readResult sampleVolts samplePin 0 = true ∧ readResult sampleVolts samplePin 2 = true ∧
    readResult sampleVolts samplePin 3 = false ∧ readResult sampleVolts samplePin 4 = false := by
  have h1 : samplePin.m_inverted = false := by
    simp [samplePin, construct, setPinMode, setOutState, updtState, setImp, stampAll,
      stampOutput, call, setPinState, sampleDecl]
  have h2 : samplePin.m_inpLowV ≤ samplePin.m_inpHighV := by
    norm_num [samplePin]
  have hl : samplePin.m_inpLowV = 1 := by simp [samplePin]
  have hh : samplePin.m_inpHighV = 3 := by simp [samplePin]
  have T := getInpState_hysteresis samplePin sampleVolts h1 h2
  have r0 : readResult sampleVolts samplePin 0 = true :=
    T.2.2.2.1 0 (by rw [hh]; norm_num [sampleVolts])
  have r3 : readResult sampleVolts samplePin 3 = false :=
    T.2.2.1 3 (by rw [hl]; norm_num [sampleVolts])
  refine ⟨h1, h2, r0, T.1 0 2 (by decide) r0 ?_, r3, ?_⟩
  · intro j hj1 hj2
    rw [hl]
    interval_cases j <;> norm_num [sampleVolts]
  · rw [T.2.2.2.2 3 (by rw [hl]; norm_num [sampleVolts]) (by rw [hh]; norm_num [sampleVolts])]
    exact r3

/-! #### Tri-state -/

theorem setOutState_of_stateZ (out st : Bool) (p : IoPin) (h : p.m_stateZ = true) :
    p.setOutState out st = { p with m_outState := out } := by
  simp [setOutState, h]

theorem drive_ZFrame (D : IoDecl) (m : pinMode_t) (imp volt openImp lowV : ℚ) (q : IoPin)
    (op : DriveOp) (hq : ZFrame m imp volt openImp lowV q) (hop : op.keepsMode m = true) :
    ZFrame m imp volt openImp lowV (drive D q op) := by
  obtain ⟨hz, hm, hi, hv, ho, hl⟩ := hq
  cases op with
  | setOutState out st =>
    simp only [drive, setOutState_of_stateZ out st q hz]
    exact ⟨hz, hm, hi, hv, ho, hl⟩
  | setInverted inverted =>
    simp only [drive, setInverted]
    split_ifs
    · exact ⟨hz, hm, hi, hv, ho, hl⟩
    · rw [setOutState_of_stateZ _ _ _ (by simpa using hz)]
      exact ⟨hz, hm, hi, hv, ho, hl⟩
    · exact ⟨hz, hm, hi, hv, ho, hl⟩
  | setPinMode mode =>
    have : mode = m := by simpa [DriveOp.keepsMode] using hop
    simp only [drive, setPinMode, this, hm, if_true]
    exact ⟨hz, hm, hi, hv, ho, hl⟩

theorem driveAll_ZFrame (D : IoDecl) (m : pinMode_t) (imp volt openImp lowV : ℚ)
    (ops : List DriveOp) (q : IoPin) (hq : ZFrame m imp volt openImp lowV q)
    (hops : ∀ op ∈ ops, op.keepsMode m = true) :
    ZFrame m imp volt openImp lowV (driveAll D q ops) := by
  induction ops generalizing q with
  | nil => exact hq
  | cons op ops ih =>
    simp only [driveAll, List.foldl_cons]
    exact ih (drive D q op) (drive_ZFrame D m imp volt openImp lowV q op hq
      (hops op (List.mem_cons_self _ _))) (fun o ho => hops o (List.mem_cons_of_mem _ ho))

theorem setStateZ_true_ZFrame (D : IoDecl) (p : IoPin) :
    ZFrame p.m_pinMode p.m_openImp p.m_outLowV p.m_openImp p.m_outLowV (p.setStateZ D true) := by
  simp [ZFrame, setStateZ, setImp, stampAll, stampOutput, call, setPinState]

/-- A mode-changing `setPinMode` on a tri-stated pin recomputes the Thevenin
pair from the admittances of the new mode and leaves the Z flag set. -/
theorem setPinMode_of_stateZ (D : IoDecl) (p : IoPin) (mode : pinMode_t)
    (hz : p.m_stateZ = true) (hne : p.m_pinMode ≠ mode) :
    (p.setPinMode D mode).m_stateZ = true ∧
    (p.setPinMode D mode).m_pinMode = mode ∧
    (p.setPinMode D mode).m_imp =
      1 / ((p.setPinMode D mode).m_vddAdmit + (p.setPinMode D mode).m_vddAdmEx +
        ((p.setPinMode D mode).m_gndAdmit + (p.setPinMode D mode).m_gndAdmEx)) ∧
    (p.setPinMode D mode).m_outVolt =
      (p.setPinMode D mode).m_outHighV *
        ((p.setPinMode D mode).m_vddAdmit + (p.setPinMode D mode).m_vddAdmEx) *
        (p.setPinMode D mode).m_imp := by
  unfold setPinMode
  rw [if_neg hne]
  cases mode <;>
    by_cases hv : D.modeVal .output ≤ D.modeVal .undef_mode <;>
    by_cases hv1 : D.modeVal .output ≤ D.modeVal .input <;>
    by_cases hv2 : D.modeVal .output ≤ D.modeVal .open_col <;>
    by_cases hv3 : D.modeVal .output ≤ D.modeVal .source <;>
    simp [updtState, setImp, stampAll, stampOutput, call, setPinState, setOutState, hz,
      hv, hv1, hv2, hv3]

/-- The calls that respect the Z flag. After `setStateZ(true)` the pin presents
`m_imp = m_openImp` and `m_outVolt = m_outLowV`, and after every following
sequence of `setOutState` calls, `setInverted` calls and `setPinMode` calls
that name the mode the pin is in, the Z flag is still set, `m_imp` is still
`m_openImp` and `m_outVolt` is still `m_outLowV`. A `setPinMode` call that
changes the mode of a tri-stated pin leaves the Z flag set and sets
`m_imp = 1/(Gv+Gg)` and `m_outVolt = m_outHighV * Gv * m_imp`, with
`Gv = m_vddAdmit + m_vddAdmEx` and `Gg = m_gndAdmit + m_gndAdmEx` those of
the new mode. -/
theorem setStateZ_suppresses_driving (D : IoDecl) (p : IoPin) (ops : List DriveOp)
    (hops : ∀ op ∈ ops, op.keepsMode p.m_pinMode = true) :
    (p.setStateZ D true).m_imp = p.m_openImp ∧
    (p.setStateZ D true).m_outVolt = p.m_outLowV ∧
    (driveAll D (p.setStateZ D true) ops).m_stateZ = true ∧
    (driveAll D (p.setStateZ D true) ops).m_imp = p.m_openImp ∧
    (driveAll D (p.setStateZ D true) ops).m_outVolt = p.m_outLowV ∧
    (driveAll D (p.setStateZ D true) ops).m_openImp = p.m_openImp ∧
    (driveAll D (p.setStateZ D true) ops).m_outLowV = p.m_outLowV ∧
    (∀ mode, mode ≠ p.m_pinMode →
      ((driveAll D (p.setStateZ D true) ops).setPinMode D mode).m_stateZ = true ∧
      ((driveAll D (p.setStateZ D true) ops).setPinMode D mode).m_imp =
        1 / (((driveAll D (p.setStateZ D true) ops).setPinMode D mode).m_vddAdmit +
          ((driveAll D (p.setStateZ D true) ops).setPinMode D mode).m_vddAdmEx +
          (((driveAll D (p.setStateZ D true) ops).setPinMode D mode).m_gndAdmit +
            ((driveAll D (p.setStateZ D true) ops).setPinMode D mode).m_gndAdmEx)) ∧
      ((driveAll D (p.setStateZ D true) ops).setPinMode D mode).m_outVolt =
        ((driveAll D (p.setStateZ D true) ops).setPinMode D mode).m_outHighV *
          (((driveAll D (p.setStateZ D true) ops).setPinMode D mode).m_vddAdmit +
            ((driveAll D (p.setStateZ D true) ops).setPinMode D mode).m_vddAdmEx) *
          ((driveAll D (p.setStateZ D true) ops).setPinMode D mode).m_imp) := by
  have h0 := setStateZ_true_ZFrame D p
  have h := driveAll_ZFrame D _ _ _ _ _ ops _ h0 hops
  refine ⟨h0.2.2.1, h0.2.2.2.1, h.1, h.2.2.1, h.2.2.2.1, h.2.2.2.2.1, h.2.2.2.2.2, ?_⟩
  intro mode hne
  have hm : (driveAll D (p.setStateZ D true) ops).m_pinMode ≠ mode := by
    rw [h.2.1]; exact fun e => hne e.symm
  obtain ⟨a1, _, a3, a4⟩ := setPinMode_of_stateZ D _ mode h.1 hm
  exact ⟨a1, a3, a4⟩

theorem samplePin_pinMode : samplePin.m_pinMode = .output := by
  simp [samplePin, construct, setPinMode, setOutState, updtState, setImp, stampAll,
    stampOutput, call, setPinState, sampleDecl]

/-- The sample output pin, tri-stated, then `setOutState(true)`,
`setInverted(true)`, `setPinMode(output)`: still at open impedance. -/
theorem setStateZ_suppresses_driving_witness :
    (driveAll sampleDecl (samplePin.setStateZ sampleDecl true)
      [.setOutState true true, .setInverted true, .setPinMode .output]).m_imp
        = samplePin.m_openImp ∧
    (driveAll sampleDecl (samplePin.setStateZ sampleDecl true)
      [.setOutState true true, .setInverted true, .setPinMode .output]).m_outVolt
        = samplePin.m_outLowV :=
  have h := setStateZ_suppresses_driving sampleDecl samplePin
    [.setOutState true true, .setInverted true, .setPinMode .output]
    (by rw [samplePin_pinMode]; decide)
  ⟨h.2.2.2.1, h.2.2.2.2.1⟩

/-- C6. Tri-state and `setPinMode`. The sample output pin (open impedance
1e28, low level 0 V, high level 5 V) is tri-stated and then
`setPinMode(source)` is called: the Z flag is still set, but `m_imp` is
1e14/(1e28+1) and `m_outVolt` is 5e28/(1e28+1), neither `m_openImp` nor
`m_outLowV`: the pin drives while the Z flag is set. (`setOutState`,
`setInverted` and a `setPinMode` that names the current mode do keep
`m_imp = m_openImp` and `m_outVolt = m_outLowV`: `setStateZ_suppresses_driving`.) -/
theorem setStateZ_then_setPinMode_drives :
    (driveAll sampleDecl (samplePin.setStateZ sampleDecl true) [.setPinMode .source]).m_stateZ
      = true ∧
    (driveAll sampleDecl (samplePin.setStateZ sampleDecl true) [.setPinMode .source]).m_imp
      = 10 ^ 14 / (10 ^ 28 + 1) ∧
    (driveAll sampleDecl (samplePin.setStateZ sampleDecl true) [.setPinMode .source]).m_outVolt
      = 5 * 10 ^ 28 / (10 ^ 28 + 1) ∧
    (driveAll sampleDecl (samplePin.setStateZ sampleDecl true) [.setPinMode .source]).m_imp
      ≠ samplePin.m_openImp ∧
    (driveAll sampleDecl (samplePin.setStateZ sampleDecl true) [.setPinMode .source]).m_outVolt
      ≠ samplePin.m_outLowV := by
  have hm : (samplePin.setStateZ sampleDecl true).m_pinMode = .output := by
    rw [(setStateZ_true_ZFrame sampleDecl samplePin).2.1, samplePin_pinMode]
  simp [driveAll, drive, samplePin, construct, setStateZ, setPinMode, setOutState, updtState,
    setImp, stampAll, stampOutput, call, setPinState, sampleDecl]
  norm_num

/-! #### setPinMode on an unchanged mode -/

/-- C7. `setPinMode(m)` with `m` the mode the pin is in returns the pin as it
was: every member (mode, admittances, `m_outVolt`, `m_imp`, `m_admit`,
`m_outState`, ...) is unchanged and the log of calls has no new stamp. -/
theorem setPinMode_same (D : IoDecl) (p : IoPin) :
    p.setPinMode D p.m_pinMode = p := by
  simp [setPinMode]

/-! #### Inversion -/

/-- C8. For every pin `p` (any mode, tri-stated or not) and boolean `b`,
`setOutState(b, true)` on `p` with the inverted flag set leaves the same
`m_outVolt`, `m_gndAdmit`, `m_imp` and `m_admit` (and makes the same calls
and sets the same pin state) as `setOutState(!b, true)` on `p` with the
inverted flag cleared, and `m_outState` is `b`. -/
theorem setOutState_inverted (p : IoPin) (b : Bool) :
    (setOutState b true { p with m_inverted := true }).m_outVolt
      = (setOutState (!b) true { p with m_inverted := false }).m_outVolt ∧
    (setOutState b true { p with m_inverted := true }).m_gndAdmit
      = (setOutState (!b) true { p with m_inverted := false }).m_gndAdmit ∧
    (setOutState b true { p with m_inverted := true }).m_imp
      = (setOutState (!b) true { p with m_inverted := false }).m_imp ∧
    IoPin.m_admit (setOutState b true { p with m_inverted := true })
      = IoPin.m_admit (setOutState (!b) true { p with m_inverted := false }) ∧
    (setOutState b true { p with m_inverted := true }).calls
      = (setOutState (!b) true { p with m_inverted := false }).calls ∧
    (setOutState b true { p with m_inverted := true }).m_pinState
      = (setOutState (!b) true { p with m_inverted := false }).m_pinState ∧
    (setOutState b true { p with m_inverted := true }).m_outState = b := by
  unfold setOutState
  by_cases hz : p.m_stateZ = true <;> by_cases hm : p.m_pinMode = .open_col <;>
    simp [hz, hm, updtState, setImp, stampAll, stampOutput, call, setPinState]

end IoPin

/-! ### UartRx: decoding and the FIFO -/

namespace UartRx

theorem land_lor_of_disjoint (a b c : Nat) (h : b &&& c = 0) : (a ||| b) &&& c = a &&& c := by
  rw [Nat.and_distrib_right, h, Nat.or_zero]

theorem lor_land_self (a b : Nat) : (a ||| b) &&& b = b := by
  apply Nat.eq_of_testBit_eq
  intro i
  simp only [Nat.testBit_and, Nat.testBit_or]
  cases a.testBit i <;> cases b.testBit i <;> rfl

/-- The method `byteReceived` with its tagging and its filter test named. -/
theorem byteReceived_eq (D : UsartDecl) (frame : Nat) (r : UartRx) :
    r.byteReceived D frame =
      if r.m_fifoP = 0 then some (r.call .overrunError)
      else if r.mDATABITS = 9 ∧ r.m_ignoreData = true ∧
          tagFrame D r frame &&& (1 <<< 8) = 0 then some r
      else
        match ({ r with m_fifoP := r.m_fifoP - 1 }).setFifo (r.m_fifoP - 1) (tagFrame D r frame) with
        | none => none
        | some q =>
          if q.m_fifoP = 1 ∧ q.m_interrupt = false then none
          else
            let q2 := if q.m_fifoP = 1 then q.call .raise else q
            some (q2.call (.byteReceived (tagFrame D r frame &&& q2.mDATAMASK))) := by
  rfl

theorem byteReceived_overrun (D : UsartDecl) (frame : Nat) (r : UartRx) (h : r.m_fifoP = 0) :
    r.byteReceived D frame = some (r.call .overrunError) := by
  simp [byteReceived, h]

/-- What `byteReceived` does with a frame it accepts: the tagged frame goes to
`m_fifo[m_fifoP - 1]`, the interrupt is raised if that is entry 1, and the
usart is told the data bits. -/
theorem byteReceived_accept (D : UsartDecl) (frame : Nat) (r : UartRx)
    (hP : r.m_fifoP = 1 ∨ r.m_fifoP = 2) (hi : r.m_interrupt = true)
    (hflt : filtered D r frame = false) :
    r.byteReceived D frame = some
      (if r.m_fifoP = 1 then
        { r with
          m_fifoP := 0
          m_fifo0 := tagFrame D r frame
          calls := r.calls ++ [.byteReceived (tagFrame D r frame &&& r.mDATAMASK)] }
      else
        { r with
          m_fifoP := 1
          m_fifo1 := tagFrame D r frame
          calls := r.calls ++ [.raise, .byteReceived (tagFrame D r frame &&& r.mDATAMASK)] }) := by
  have hflt2 : ¬ (r.mDATABITS = 9 ∧ r.m_ignoreData = true ∧
      tagFrame D r frame &&& 256 = 0) := by
    simpa [filtered] using hflt
  rw [byteReceived_eq]
  rcases hP with hP | hP
  · simp [hP, hflt2, setFifo, call]
  · simp [hP, hi, hflt2, setFifo, call]

theorem byteReceived_filtered (D : UsartDecl) (frame : Nat) (r : UartRx)
    (hP : r.m_fifoP ≠ 0) (hflt : filtered D r frame = true) :
    r.byteReceived D frame = some r := by
  have hflt2 : r.mDATABITS = 9 ∧ r.m_ignoreData = true ∧
      tagFrame D r frame &&& 256 = 0 := by
    simpa [filtered] using hflt
  rw [byteReceived_eq]
  simp [hP, hflt2]

/-- The data bits of a tagged frame are those of the frame, in the low byte
that `getData` returns. -/
theorem tagFrame_data (D : UsartDecl) (r : UartRx) (frame : Nat)
    (hfe : D.frameError &&& r.mDATAMASK = 0) (hpe : D.parityError &&& r.mDATAMASK = 0) :
    tagFrame D r frame &&& r.mDATAMASK = (frame % 2 ^ 16) &&& r.mDATAMASK := by
  have key : ∀ x e : Nat, e &&& r.mDATAMASK = 0 →
      ((x ||| e) % 2 ^ 16) &&& r.mDATAMASK = (x % 2 ^ 16) &&& r.mDATAMASK := by
    intro x e he
    apply Nat.eq_of_testBit_eq
    intro i
    have hi := congrArg (fun n => n.testBit i) he
    simp only [Nat.testBit_and, Nat.zero_testBit] at hi
    simp only [Nat.testBit_and, Nat.testBit_mod_two_pow, Nat.testBit_or]
    cases h1 : e.testBit i <;> cases h2 : r.mDATAMASK.testBit i <;> simp_all
  unfold tagFrame
  simp only []
  split_ifs <;> simp only [key _ _ hfe, key _ _ hpe, Nat.mod_mod]

theorem mod_land_mod (f m : Nat) : ((f % 2 ^ 16) &&& m) % 2 ^ 8 = (f &&& m) % 2 ^ 8 := by
  apply Nat.eq_of_testBit_eq
  intro i
  simp only [Nat.testBit_and, Nat.testBit_mod_two_pow]
  by_cases h : i < 8
  · have : i < 16 := by omega
    simp [h, this]
  · simp [h]

theorem tagFrame_flags (D : UsartDecl) (r : UartRx) (frame : Nat) (hfl : FlagsApart D r)
    (hf : frame < 2 ^ 16) (hfe : frame &&& D.frameError = 0)
    (hpe : frame &&& D.parityError = 0) :
    (tagFrame D r frame &&& D.frameError ≠ 0 ↔
      frame &&& (1 <<< (r.mDATABITS + r.mPARITY)) = 0) ∧
    (tagFrame D r frame &&& D.parityError ≠ 0 ↔
      (r.mPARITY > D.parNONE ∧ D.getParity r.mDATABITS r.mPARITY frame ≠
        decide (frame &&& (1 <<< r.mDATABITS) ≠ 0))) := by
  obtain ⟨hFE0, hPE0, hFElt, hPElt, hFP, _, _, hPS⟩ := hfl
  have hPF : D.parityError &&& D.frameError = 0 := by rw [Nat.and_comm]; exact hFP
  have m1 : frame % 2 ^ 16 = frame := Nat.mod_eq_of_lt hf
  have m2 : (frame ||| D.parityError) % 2 ^ 16 = frame ||| D.parityError :=
    Nat.mod_eq_of_lt (Nat.or_lt_two_pow hf hPElt)
  have m3 : (frame ||| D.frameError) % 2 ^ 16 = frame ||| D.frameError :=
    Nat.mod_eq_of_lt (Nat.or_lt_two_pow hf hFElt)
  have m4 : (frame ||| D.parityError ||| D.frameError) % 2 ^ 16
      = frame ||| D.parityError ||| D.frameError :=
    Nat.mod_eq_of_lt (Nat.or_lt_two_pow (Nat.or_lt_two_pow hf hPElt) hFElt)
  have s1 : (frame ||| D.parityError) &&& (1 <<< (r.mDATABITS + r.mPARITY))
      = frame &&& (1 <<< (r.mDATABITS + r.mPARITY)) := land_lor_of_disjoint _ _ _ hPS
  unfold tagFrame
  simp only [m1]
  by_cases h1 : r.mPARITY > D.parNONE
  · by_cases h2 : D.getParity r.mDATABITS r.mPARITY frame ≠
        decide (frame &&& (1 <<< r.mDATABITS) ≠ 0)
    · simp only [if_pos h1, if_pos h2, m2, s1]
      by_cases h3 : frame &&& (1 <<< (r.mDATABITS + r.mPARITY)) = 0
      · simp only [if_pos h3, m4, lor_land_self]
        refine ⟨⟨fun _ => h3, fun _ => hFE0⟩, ⟨fun _ => ⟨h1, h2⟩, fun _ => ?_⟩⟩
        rw [land_lor_of_disjoint _ _ _ hFP, lor_land_self]
        exact hPE0
      · simp only [if_neg h3, lor_land_self]
        refine ⟨⟨fun h => absurd ?_ h, fun h => absurd h h3⟩, ⟨fun _ => ⟨h1, h2⟩, fun _ => hPE0⟩⟩
        rw [land_lor_of_disjoint _ _ _ hPF]; exact hfe
    · simp only [if_pos h1, if_neg h2]
      by_cases h3 : frame &&& (1 <<< (r.mDATABITS + r.mPARITY)) = 0
      · simp only [if_pos h3, m3, lor_land_self]
        refine ⟨⟨fun _ => h3, fun _ => hFE0⟩, ⟨fun h => absurd ?_ h, fun h => absurd h.2 h2⟩⟩
        rw [land_lor_of_disjoint _ _ _ hFP]; exact hpe
      · simp only [if_neg h3]
        exact ⟨⟨fun h => absurd hfe h, fun h => absurd h h3⟩,
          ⟨fun h => absurd hpe h, fun h => absurd h.2 h2⟩⟩
  · simp only [if_neg h1]
    by_cases h3 : frame &&& (1 <<< (r.mDATABITS + r.mPARITY)) = 0
    · simp only [if_pos h3, m3, lor_land_self]
      refine ⟨⟨fun _ => h3, fun _ => hFE0⟩, ⟨fun h => absurd ?_ h, fun h => absurd h.1 h1⟩⟩
      rw [land_lor_of_disjoint _ _ _ hFP]; exact hpe
    · simp only [if_neg h3]
      exact ⟨⟨fun h => absurd hfe h, fun h => absurd h h3⟩,
        ⟨fun h => absurd hpe h, fun h => absurd h.1 h1⟩⟩

/-- C10. Decode tagging. Let the error flags be usable with the receiver's
settings (`FlagsApart`) and let `frame` be a 16-bit received frame with no bit
at a flag position. If the FIFO is not full and the frame is not filtered,
`byteReceived` stores a frame, in `m_fifo[m_fifoP]` after decrementing
`m_fifoP`, such that: its `frameError` bit is set if and only if bit
`mDATABITS + mPARITY` of `frame` is 0; its `parityError` bit is set if and
only if parity is enabled (`mPARITY > parNONE`) and `getParity(frame)` differs
from bit `mDATABITS` of `frame`; and its data bits `& mDATAMASK` are those of
`frame`. -/
theorem byteReceived_tagging (D : UsartDecl) (r : UartRx) (frame : Nat)
    (hfl : FlagsApart D r) (hf : frame < 2 ^ 16)
    (hfe : frame &&& D.frameError = 0) (hpe : frame &&& D.parityError = 0)
    (hP : r.m_fifoP = 1 ∨ r.m_fifoP = 2) (hi : r.m_interrupt = true)
    (hflt : filtered D r frame = false) :
    ∃ r', r.byteReceived D frame = some r' ∧ r'.m_fifoP + 1 = r.m_fifoP ∧
      (fifoAt r'.m_fifoP r' &&& D.frameError ≠ 0 ↔
        frame &&& (1 <<< (r.mDATABITS + r.mPARITY)) = 0) ∧
      (fifoAt r'.m_fifoP r' &&& D.parityError ≠ 0 ↔
        (r.mPARITY > D.parNONE ∧ D.getParity r.mDATABITS r.mPARITY frame ≠
          decide (frame &&& (1 <<< r.mDATABITS) ≠ 0))) ∧
      fifoAt r'.m_fifoP r' &&& r.mDATAMASK = frame &&& r.mDATAMASK := by
  have hd := tagFrame_data D r frame hfl.2.2.2.2.2.1 hfl.2.2.2.2.2.2.1
  rw [Nat.mod_eq_of_lt hf] at hd
  obtain ⟨t1, t2⟩ := tagFrame_flags D r frame hfl hf hfe hpe
  refine ⟨_, byteReceived_accept D frame r hP hi hflt, ?_⟩
  rcases hP with hP | hP
  · simp only [hP, if_true, fifoAt]
    exact ⟨trivial, t1, t2, hd⟩
  · have h21 : ¬ ((2 : Nat) = 1) := by decide
    simp only [hP, h21, if_false, fifoAt]
    exact ⟨trivial, t1, t2, hd⟩

theorem tagFrame_congr (D : UsartDecl) (r s : UartRx) (h1 : s.mDATABITS = r.mDATABITS)
    (h2 : s.mPARITY = r.mPARITY) (frame : Nat) : tagFrame D s frame = tagFrame D r frame := by
  simp [tagFrame, h1, h2]

theorem filtered_congr (D : UsartDecl) (r s : UartRx) (h1 : s.mDATABITS = r.mDATABITS)
    (h2 : s.mPARITY = r.mPARITY) (h3 : s.m_ignoreData = r.m_ignoreData) (frame : Nat) :
    filtered D s frame = filtered D r frame := by
  simp [filtered, tagFrame_congr D r s h1 h2, h1, h3]

theorem getData_empty (D : UsartDecl) (s : UartRx) (h : s.m_fifoP = 2) :
    s.getData D = (0, s) := by
  simp [getData, h]

/-- The method `getData()` when a frame is pending. -/
theorem getData_eq (D : UsartDecl) (s : UartRx) (h : s.m_fifoP ≠ 2) :
    s.getData D = ((s.m_fifo1 % 2 ^ 16 &&& s.mDATAMASK) % 2 ^ 8,
      { s with
        m_fifoP := s.m_fifoP + 1
        m_fifo1 := if s.m_fifoP + 1 = 2 ∧ s.m_interrupt = true then s.m_fifo1 else s.m_fifo0
        calls := s.calls ++ getDataCalls D s }) := by
  by_cases h1 : s.mDATABITS = 9 <;>
  by_cases h2 : s.m_fifo1 % 65536 &&& D.parityError = 0 <;>
  by_cases h3 : s.m_fifo1 % 65536 &&& D.frameError = 0 <;>
  by_cases h4 : s.m_fifoP = 1 ∧ s.m_interrupt = true <;>
  simp [getData, getDataCalls, call, h, h1, h2, h3, h4]

theorem dataByte_tagFrame (D : UsartDecl) (r : UartRx) (frame : Nat)
    (hfe : D.frameError &&& r.mDATAMASK = 0) (hpe : D.parityError &&& r.mDATAMASK = 0) :
    ((tagFrame D r frame % 2 ^ 16) &&& r.mDATAMASK) % 2 ^ 8 = dataByte r frame := by
  rw [mod_land_mod, tagFrame_data D r frame hfe hpe, mod_land_mod]
  rfl

theorem holds_init (D : UsartDecl) (r : UartRx) (he : r.m_fifoP = 2)
    (hi : r.m_interrupt = true) : Holds D r r [] := by
  simp [Holds, SameSetup, pending, he, hi]

theorem holds_getData (D : UsartDecl) (r s : UartRx) (f : Nat) (q : List Nat)
    (hfe : D.frameError &&& r.mDATAMASK = 0) (hpe : D.parityError &&& r.mDATAMASK = 0)
    (h : Holds D r s (f :: q)) :
    (s.getData D).1 = dataByte r f ∧ Holds D r (s.getData D).2 q := by
  obtain ⟨⟨c1, c2, c3, c4, c5⟩, hlen, hp⟩ := h
  simp only [List.length_cons] at hlen
  have hne : s.m_fifoP ≠ 2 := by omega
  rw [getData_eq D s hne]
  by_cases h0 : s.m_fifoP = 0
  · have hq : q.length = 1 := by omega
    simp only [pending, h0, if_true, List.map_cons, List.cons.injEq] at hp
    obtain ⟨hp1, hp2⟩ := hp
    refine ⟨?_, ⟨c1, c2, c3, c4, c5⟩, ?_, ?_⟩
    · simp only [hp1, c3]
      exact dataByte_tagFrame D r f hfe hpe
    · simp only [h0]; omega
    · simp [pending, h0, hp2]
  · have h1 : s.m_fifoP = 1 := by omega
    have hq : q = [] := List.eq_nil_of_length_eq_zero (by omega)
    subst hq
    simp only [pending, h1, if_true, List.map_cons, List.map_nil, List.cons.injEq,
      and_true] at hp
    have hp1 : s.m_fifo1 = tagFrame D r f := by simpa using hp
    refine ⟨?_, ⟨c1, c2, c3, c4, c5⟩, ?_, ?_⟩
    · simp only [hp1, c3]
      exact dataByte_tagFrame D r f hfe hpe
    · simp only [h1]; rfl
    · simp [pending, h1]

theorem holds_accept (D : UsartDecl) (r s : UartRx) (f : Nat) (q : List Nat)
    (h : Holds D r s q) (hq : q.length < 2) (hflt : filtered D r f = false) :
    ∃ s', s.byteReceived D f = some s' ∧ Holds D r s' (q ++ [f]) := by
  obtain ⟨⟨c1, c2, c3, c4, c5⟩, hlen, hp⟩ := h
  have hP : s.m_fifoP = 1 ∨ s.m_fifoP = 2 := by omega
  have hflt2 : filtered D s f = false := by rw [filtered_congr D r s c1 c2 c4]; exact hflt
  have ht := tagFrame_congr D r s c1 c2 f
  refine ⟨_, byteReceived_accept D f s hP c5 hflt2, ?_⟩
  rcases hP with hP | hP
  · have hq1 : q.length = 1 := by omega
    simp only [pending, hP, if_true] at hp
    have hp' : [s.m_fifo1] = List.map (tagFrame D r) q := by simpa using hp
    simp only [hP, if_true]
    refine ⟨⟨c1, c2, c3, c4, c5⟩, ?_, ?_⟩
    · simp [hq1]
    · simp [pending, ht, ← hp']
  · have hq0 : q = [] := List.eq_nil_of_length_eq_zero (by omega)
    subst hq0
    have h21 : ¬ ((2 : Nat) = 1) := by decide
    simp only [hP, h21, if_false]
    refine ⟨⟨c1, c2, c3, c4, c5⟩, ?_, ?_⟩
    · simp
    · simp [pending, ht]

theorem holds_overrun (D : UsartDecl) (r s : UartRx) (f : Nat) (q : List Nat)
    (h : Holds D r s q) (hq : ¬ q.length < 2) :
    s.byteReceived D f = some (s.call .overrunError) ∧ Holds D r (s.call .overrunError) q := by
  obtain ⟨hs, hlen, hp⟩ := h
  have h0 : s.m_fifoP = 0 := by omega
  exact ⟨byteReceived_overrun D f s h0, hs, hlen, hp⟩

theorem holds_filtered (D : UsartDecl) (r s : UartRx) (f : Nat) (q : List Nat)
    (h : Holds D r s q) (hq : q.length < 2) (hflt : filtered D r f = true) :
    s.byteReceived D f = some s := by
  obtain ⟨⟨c1, c2, c3, c4, c5⟩, hlen, hp⟩ := h
  have hflt2 : filtered D s f = true := by rw [filtered_congr D r s c1 c2 c4]; exact hflt
  exact byteReceived_filtered D f s (by omega) hflt2

/-- The receiver simulates the two-deep FIFO of the specification. -/
theorem runFifo_simulates (D : UsartDecl) (r : UartRx)
    (hfe : D.frameError &&& r.mDATAMASK = 0) (hpe : D.parityError &&& r.mDATAMASK = 0)
    (ops : List FifoOp) :
    ∀ (s : UartRx) (q : List Nat), Holds D r s q →
      ∃ s', runFifo D ops s =
          some ((fifoSpec (dataByte r) (filtered D r) ops q).1.map (fun o => o.getD 0), s') ∧
        Holds D r s' (fifoSpec (dataByte r) (filtered D r) ops q).2.2 := by
  induction ops with
  | nil =>
    intro s q h
    exact ⟨s, by simp [runFifo, fifoSpec], by simpa [fifoSpec] using h⟩
  | cons op ops ih =>
    intro s q h
    cases op with
    | byteReceived f =>
      by_cases hq : q.length < 2
      · cases hflt : filtered D r f
        · obtain ⟨s1, e1, h1⟩ := holds_accept D r s f q h hq hflt
          obtain ⟨s', e2, h2⟩ := ih s1 (q ++ [f]) h1
          refine ⟨s', ?_, ?_⟩
          · simp [runFifo, fifoSpec, e1, e2, hq, hflt]
          · simpa [fifoSpec, hq, hflt] using h2
        · have e1 := holds_filtered D r s f q h hq hflt
          obtain ⟨s', e2, h2⟩ := ih s q h
          refine ⟨s', ?_, ?_⟩
          · simp [runFifo, fifoSpec, e1, e2, hflt]
          · simpa [fifoSpec, hflt] using h2
      · obtain ⟨e1, h1⟩ := holds_overrun D r s f q h hq
        obtain ⟨s', e2, h2⟩ := ih _ q h1
        refine ⟨s', ?_, ?_⟩
        · simp [runFifo, fifoSpec, e1, e2, hq]
        · simpa [fifoSpec, hq] using h2
    | getData =>
      cases q with
      | nil =>
        have h2p : s.m_fifoP = 2 := by simpa using h.2.1
        have e1 := getData_empty D s h2p
        obtain ⟨s', e2, h2⟩ := ih s [] h
        refine ⟨s', ?_, ?_⟩
        · simp [runFifo, fifoSpec, e1, e2]
        · simpa [fifoSpec] using h2
      | cons f q =>
        obtain ⟨e1, h1⟩ := holds_getData D r s f q hfe hpe h
        obtain ⟨s', e2, h2⟩ := ih _ q h1
        refine ⟨s', ?_, ?_⟩
        · simp [runFifo, fifoSpec, e1, e2]
        · simpa [fifoSpec] using h2

/-- In the FIFO of the specification every accepted frame is delivered once,
in arrival order, or is still pending. -/
theorem fifoSpec_once (data : Nat → Nat) (flt : Nat → Bool) (ops : List FifoOp) :
    ∀ q : List Nat,
      (fifoSpec data flt ops q).1.filterMap id ++ (fifoSpec data flt ops q).2.2.map data
        = q.map data ++ (fifoSpec data flt ops q).2.1.map data := by
  induction ops with
  | nil => intro q; simp [fifoSpec]
  | cons op ops ih =>
    intro q
    cases op with
    | byteReceived f =>
      by_cases hc : q.length < 2 ∧ flt f = false
      · simp only [fifoSpec, hc, and_self, if_true]
        rw [ih (q ++ [f])]
        simp
      · simp only [fifoSpec, hc, if_false]
        exact ih q
    | getData =>
      cases q with
      | nil =>
        simp only [fifoSpec, List.filterMap_cons_none, List.map_nil, List.nil_append]
        simpa using ih []
      | cons f q =>
        simp only [fifoSpec, List.map_cons, List.cons_append]
        rw [List.filterMap_cons_some (by rfl)]
        simp only [List.cons_append, List.cons.injEq, true_and]
        exact ih q

/-- C9. The receiver is a FIFO of capacity 2. Started with an empty FIFO
(`m_fifoP = 2`) and an interrupt attached, with error flags that share no bit
with the data mask, every series of `byteReceived` and `getData` calls runs to
the end and does what the two-deep FIFO of the specification does: each
`getData()` returns the data bits (`frame & mDATAMASK`, as `uint8_t`) of the
oldest accepted frame not yet delivered, or 0 when none is pending;
`m_fifoP` is 2 minus the number of pending frames and at most 2; the pending
frames are in the FIFO in arrival order; the data delivered followed by the
data pending is the data of the accepted frames in arrival order; and
`getData()` on an empty FIFO returns 0 and changes nothing. -/
theorem fifo_refinement (D : UsartDecl) (r : UartRx) (ops : List FifoOp)
    (he : r.m_fifoP = 2) (hi : r.m_interrupt = true)
    (hfe : D.frameError &&& r.mDATAMASK = 0) (hpe : D.parityError &&& r.mDATAMASK = 0) :
    ∃ r', runFifo D ops r =
        some ((fifoSpec (dataByte r) (filtered D r) ops []).1.map (fun o => o.getD 0), r') ∧
      r'.m_fifoP = 2 - (fifoSpec (dataByte r) (filtered D r) ops []).2.2.length ∧
      r'.m_fifoP ≤ 2 ∧
      r'.pending = (fifoSpec (dataByte r) (filtered D r) ops []).2.2.map (tagFrame D r) ∧
      (fifoSpec (dataByte r) (filtered D r) ops []).1.filterMap id ++
          (fifoSpec (dataByte r) (filtered D r) ops []).2.2.map (dataByte r)
        = (fifoSpec (dataByte r) (filtered D r) ops []).2.1.map (dataByte r) ∧
      (∀ s : UartRx, s.m_fifoP = 2 → s.getData D = (0, s)) := by
  obtain ⟨r', e, hs, hlen, hp⟩ := runFifo_simulates D r hfe hpe ops r [] (holds_init D r he hi)
  refine ⟨r', e, by omega, by omega, hp, ?_, fun s hs => getData_empty D s hs⟩
  simpa using fifoSpec_once (dataByte r) (filtered D r) ops []

/-- C3. Overrun. Started with an empty FIFO (`m_fifoP = 2`) and an interrupt
attached, with error flags that share no bit with the data mask, three frames
are passed to `byteReceived` with no `getData()` in between, the first two not
discarded by the multi-processor filter. The third call only calls the usart's
`overrunError()`: `m_fifoP`, `m_fifo[0]` and `m_fifo[1]` are as before it.
The next two `getData()` calls return the data bits (`frame & mDATAMASK`, as
`uint8_t`) of the first frame and then of the second. -/
theorem overrun_third_frame (D : UsartDecl) (r : UartRx) (f1 f2 f3 : Nat)
    (he : r.m_fifoP = 2) (hi : r.m_interrupt = true)
    (hfe : D.frameError &&& r.mDATAMASK = 0) (hpe : D.parityError &&& r.mDATAMASK = 0)
    (hn1 : filtered D r f1 = false) (hn2 : filtered D r f2 = false) :
    ∃ r1 r2, r.byteReceived D f1 = some r1 ∧ r1.byteReceived D f2 = some r2 ∧
      r2.byteReceived D f3 = some (r2.call .overrunError) ∧
      (r2.call .overrunError).m_fifoP = r2.m_fifoP ∧
      (r2.call .overrunError).m_fifo0 = r2.m_fifo0 ∧
      (r2.call .overrunError).m_fifo1 = r2.m_fifo1 ∧
      ((r2.call .overrunError).getData D).1 = dataByte r f1 ∧
      ((((r2.call .overrunError).getData D).2).getData D).1 = dataByte r f2 := by
  obtain ⟨r1, e1, h1⟩ := holds_accept D r r f1 [] (holds_init D r he hi) (by decide) hn1
  obtain ⟨r2, e2, h2⟩ := holds_accept D r r1 f2 _ h1 (by simp) hn2
  obtain ⟨e3, h3⟩ := holds_overrun D r r2 f3 _ h2 (by simp)
  obtain ⟨g1, h4⟩ := holds_getData D r _ f1 _ hfe hpe h3
  obtain ⟨g2, _⟩ := holds_getData D r _ f2 _ hfe hpe h4
  exact ⟨r1, r2, e1, e2, e3, rfl, rfl, rfl, g1, g2⟩

/-! ### UartRx: sampling a frame -/

theorem readBit_eq (b : Bool) (r : UartRx) :
    r.readBit b =
      if r.m_currentBit + 1 = r.m_framesize then
        { r with
          m_frame := r.m_frame + b.toNat * 2 ^ r.m_currentBit
          m_currentBit := r.m_currentBit + 1
          m_state := .usartRXEND
          calls := r.calls ++ [.changeCallBack true] }
      else
        { r with
          m_frame := r.m_frame + b.toNat * 2 ^ r.m_currentBit
          m_currentBit := r.m_currentBit + 1 } := by
  cases b <;> by_cases h : r.m_currentBit + 1 = r.m_framesize <;>
    simp [readBit, call, h, Nat.one_shiftLeft]

theorem readBits_lt (bits : List Bool) :
    ∀ r : UartRx, r.m_currentBit + bits.length < r.m_framesize →
      r.readBits bits =
        { r with
          m_frame := r.m_frame + bitsVal bits * 2 ^ r.m_currentBit
          m_currentBit := r.m_currentBit + bits.length } := by
  induction bits with
  | nil => intro r _; simp [readBits, bitsVal]
  | cons b bs ih =>
    intro r h
    simp only [List.length_cons] at h
    have hne : ¬ (r.m_currentBit + 1 = r.m_framesize) := by omega
    have step : r.readBits (b :: bs) = (r.readBit b).readBits bs := rfl
    rw [step, readBit_eq, if_neg hne, ih _ (by simp only []; omega)]
    simp only [bitsVal, List.length_cons, pow_succ]
    congr 1
    · ring
    · omega

theorem readBits_append (l1 l2 : List Bool) (r : UartRx) :
    r.readBits (l1 ++ l2) = (r.readBits l1).readBits l2 := by
  simp [readBits, List.foldl_append]

theorem bitsVal_append (l : List Bool) (b : Bool) :
    bitsVal (l ++ [b]) = bitsVal l + b.toNat * 2 ^ l.length := by
  induction l with
  | nil => simp [bitsVal]
  | cons a l ih =>
    show a.toNat + 2 * bitsVal (l ++ [b]) = a.toNat + 2 * bitsVal l + b.toNat * 2 ^ (l.length + 1)
    rw [ih, pow_succ]
    ring

theorem lsbFirst_length (n d : Nat) : (lsbFirst n d).length = n := by
  simp [lsbFirst]

theorem bitsVal_lsbFirst (n d : Nat) : bitsVal (lsbFirst n d) = d % 2 ^ n := by
  induction n with
  | zero => simp [lsbFirst, bitsVal, Nat.mod_one]
  | succ n ih =>
    have e : lsbFirst (n + 1) d = lsbFirst n d ++ [d.testBit n] := by
      simp [lsbFirst, List.range_succ]
    rw [e, bitsVal_append, ih, lsbFirst_length, Nat.mod_pow_succ, Nat.testBit_to_div_mod]
    have h2 : d / 2 ^ n % 2 = 0 ∨ d / 2 ^ n % 2 = 1 := by omega
    rcases h2 with h2 | h2 <;> simp [h2, Nat.mul_comm]

set_option maxRecDepth 20000 in
theorem byte_facts : ∀ d < 256,
    (d + 256) &&& 256 ≠ 0 ∧ (d + 256) &&& 255 = d ∧ (d + 256) % 65536 = d + 256 ∧
      (d + 256) % 512 = d + 256 := by
  decide

theorem land_of_lt_of_disjoint (x e n : Nat) (hx : x < 2 ^ n) (he : e &&& (2 ^ n - 1) = 0) :
    x &&& e = 0 := by
  have h1 : x &&& (2 ^ n - 1) = x := by
    rw [Nat.and_pow_two_sub_one_eq_mod, Nat.mod_eq_of_lt hx]
  rw [← h1, Nat.and_assoc, Nat.and_comm (2 ^ n - 1) e, he, Nat.and_zero]

/-- Sampling the ten levels of an 8N1 frame for the byte `d` leaves
`2 * d + 512` in `m_frame` and the receiver in `usartRXEND`. -/
theorem readBits_frame8N1 (r : UartRx) (d : Nat) (hd : d < 256)
    (hc : r.m_currentBit = 0) (hf : r.m_frame = 0) (hs : r.m_framesize = 10) :
    r.readBits (frameBits 8 d [true]) =
      { r with
        m_frame := 2 * d + 512
        m_currentBit := 10
        m_state := .usartRXEND
        calls := r.calls ++ [.changeCallBack true] } := by
  have e : frameBits 8 d [true] = (false :: lsbFirst 8 d) ++ [true] := rfl
  have hv : bitsVal (false :: lsbFirst 8 d) = 2 * d := by
    show false.toNat + 2 * bitsVal (lsbFirst 8 d) = 2 * d
    rw [bitsVal_lsbFirst, Nat.mod_eq_of_lt (by simpa using hd)]
    simp
  rw [e, readBits_append, readBits_lt _ r (by simp [lsbFirst_length, hc, hs])]
  have step : ∀ q : UartRx, q.readBits [true] = q.readBit true := fun _ => rfl
  rw [step, readBit_eq, hv]
  simp [hc, hf, hs, lsbFirst_length]

/-- C2. UART receive round trip at 8 data bits, no parity, 1 stop bit. On a
receiver set for 8N1 (`parNONE = 0`, data mask 0xFF, frame size 10) with an
interrupt attached, an empty FIFO and an empty shift register, whose error
flags lie above bit 8, for every byte `d`: sampling with `readBit` a start bit
0, the 8 bits of `d` least significant first and a stop bit 1, then `rxEnd`,
stores one frame, `d + 256` (the data and the stop bit) in `m_fifo[1]`, with
neither the `parityError` nor the `frameError` bit; `getData()` then returns
`d`, notifies no error and empties the FIFO. -/
theorem uart_round_trip (D : UsartDecl) (r : UartRx) (d : Nat) (hd : d < 256)
    (hDB : r.mDATABITS = 8) (hPN : r.mPARITY = D.parNONE) (hP0 : D.parNONE = 0)
    (hM : r.mDATAMASK = 255) (hs : r.m_framesize = 10)
    (hi : r.m_interrupt = true) (he : r.m_fifoP = 2)
    (hc : r.m_currentBit = 0) (hf : r.m_frame = 0)
    (hfe : D.frameError &&& 511 = 0) (hpe : D.parityError &&& 511 = 0) :
    ∃ r', r.sampleFrame D (frameBits 8 d [true]) = some r' ∧
      r'.m_fifoP = 1 ∧ r'.m_fifo1 = d + 256 ∧
      r'.m_fifo1 &&& D.parityError = 0 ∧ r'.m_fifo1 &&& D.frameError = 0 ∧
      (r'.getData D).1 = d ∧
      (r'.getData D).2.calls = r'.calls ++ [.clearFlag] ∧
      (r'.getData D).2.m_fifoP = 2 := by
  obtain ⟨b1, b2, b3, b4⟩ := byte_facts d hd
  have hP : r.mPARITY = 0 := hPN.trans hP0
  have hlt : d + 256 < 2 ^ 9 := by omega
  have z1 : (d + 256) &&& D.parityError = 0 := land_of_lt_of_disjoint _ _ 9 hlt hpe
  have z2 : (d + 256) &&& D.frameError = 0 := land_of_lt_of_disjoint _ _ 9 hlt hfe
  have hsh : (2 * d + 512) >>> 1 = d + 256 := by
    rw [Nat.shiftRight_eq_div_pow]; omega
  -- the receiver that `rxEnd` hands to `byteReceived`
  let q : UartRx :=
    { r with
      m_frame := d + 256
      m_currentBit := 10
      m_state := .usartRXEND
      calls := r.calls ++ [.changeCallBack true] }
  have ht : tagFrame D q (d + 256) = d + 256 := by
    simp [tagFrame, q, hDB, hP, hP0, b1, b3]
  have hflt : filtered D q (d + 256) = false := by
    simp [filtered, q, hDB]
  have hacc := byteReceived_accept D (d + 256) q (Or.inr he) hi hflt
  have h21 : ¬ (q.m_fifoP = 1) := by simp [q, he]
  rw [if_neg h21, ht] at hacc
  have hrun : r.sampleFrame D (frameBits 8 d [true]) = some
      (let q1 : UartRx :=
        { q with
          m_fifoP := 1
          m_fifo1 := d + 256
          calls := q.calls ++ [.raise, .byteReceived ((d + 256) &&& q.mDATAMASK)]
          m_currentBit := 0
          m_frame := 0 }
       let q2 : UartRx :=
        if q1.m_runHardware then
          ({ q1 with m_state := .usartSTOPPED }).call (.changeCallBack true)
        else { q1 with m_state := .usartRECEIVE }
       if q2.m_period ≠ 0 then q2.call .cancelEvents else q2) := by
    unfold sampleFrame
    rw [readBits_frame8N1 r d hd hc hf hs]
    unfold rxEnd
    simp only [hsh]
    rw [show ({ r with
        m_frame := d + 256
        m_currentBit := 10
        m_state := rxState_t.usartRXEND
        calls := r.calls ++ [RxCall.changeCallBack true] } : UartRx) = q from rfl, hacc]
  refine ⟨_, hrun, ?_⟩
  by_cases hh : r.m_runHardware = true <;> by_cases hp : r.m_period = 0 <;>
    simp [q, call, hh, hp, z1, z2, getData_eq, getDataCalls, hDB, hM, hi, b2, b3, hd]

/-! ### UartRx: witnesses and the software-injected path -/

theorem sampleDecl_flagsApart : FlagsApart sampleDecl sampleRx := by
  unfold FlagsApart
  decide

/-- Witness of C2: the byte 0xAA on the sample receiver. -/
theorem uart_round_trip_witness :
    ∃ r', sampleRx.sampleFrame sampleDecl (frameBits 8 0xAA [true]) = some r' ∧
      r'.m_fifo1 &&& sampleDecl.parityError = 0 ∧ r'.m_fifo1 &&& sampleDecl.frameError = 0 ∧
      (r'.getData sampleDecl).1 = 0xAA :=
  let ⟨r', h1, _, _, h4, h5, h6, _⟩ :=
    uart_round_trip sampleDecl sampleRx 0xAA (by decide) rfl rfl rfl rfl rfl rfl rfl rfl rfl
      (by decide) (by decide)
  ⟨r', h1, h4, h5, h6⟩

/-- Witness of C3: the frames 0x141, 0x142, 0x143 on the sample receiver; the
two reads after the overrun return 0x41 and 0x42. -/
theorem overrun_third_frame_witness :
    ∃ r1 r2, sampleRx.byteReceived sampleDecl 0x141 = some r1 ∧
      r1.byteReceived sampleDecl 0x142 = some r2 ∧
      r2.byteReceived sampleDecl 0x143 = some (r2.call .overrunError) ∧
      ((r2.call .overrunError).getData sampleDecl).1 = 0x41 ∧
      ((((r2.call .overrunError).getData sampleDecl).2).getData sampleDecl).1 = 0x42 :=
  let ⟨r1, r2, h1, h2, h3, _, _, _, h7, h8⟩ :=
    overrun_third_frame sampleDecl sampleRx 0x141 0x142 0x143 rfl rfl (by decide) (by decide)
      (by decide) (by decide)
  ⟨r1, r2, h1, h2, h3, h7, h8⟩

/-- Witness of C9: the sample series of calls returns 0x41, 0x42, 0 and 0x44
and leaves the FIFO empty. -/
theorem fifo_refinement_witness :
    ∃ r', runFifo sampleDecl sampleOps sampleRx = some ([0x41, 0x42, 0, 0x44], r') ∧
      r'.m_fifoP = 2 :=
  let ⟨r', h1, h2, _⟩ :=
    fifo_refinement sampleDecl sampleRx sampleOps rfl rfl (by decide) (by decide)
  ⟨r', h1, h2⟩

/-- Witness of C10: the frame 0xAA without a stop bit on the sample receiver
is stored with the `frameError` bit and without the `parityError` bit. -/
theorem byteReceived_tagging_witness :
    ∃ r', sampleRx.byteReceived sampleDecl 0xAA = some r' ∧
      fifoAt r'.m_fifoP r' &&& sampleDecl.frameError ≠ 0 ∧
      ¬ (fifoAt r'.m_fifoP r' &&& sampleDecl.parityError ≠ 0) ∧
      fifoAt r'.m_fifoP r' &&& sampleRx.mDATAMASK = 0xAA :=
  let ⟨r', h1, _, h3, h4, h5⟩ :=
    byteReceived_tagging sampleDecl sampleRx 0xAA sampleDecl_flagsApart (by decide) (by decide)
      (by decide) (Or.inr rfl) rfl (by decide)
  ⟨r', h1, h3.mpr (by decide), fun h => absurd (h4.mp h).1 (by decide), h5⟩

theorem land_two_pow_of_lt (d k : Nat) (h : d < 2 ^ k) : d &&& (1 <<< k) = 0 := by
  apply Nat.eq_of_testBit_eq
  intro i
  rw [Nat.one_shiftLeft, Nat.testBit_and, Nat.testBit_two_pow, Nat.zero_testBit]
  by_cases hk : k = i
  · subst hk
    simp [Nat.testBit_lt_two_pow h]
  · simp [hk]

/-- The software-injected path without parity: whatever the flag values, the
byte that `runEvent` pops from the queue is stored with the `frameError` flag,
because it carries no stop bit. -/
theorem injected_byte_tagged (D : UsartDecl) (r : UartRx) (d : Nat) (rest : List Nat)
    (bit : Bool) (hst : r.m_state = .usartRECEIVE) (hhw : r.m_runHardware = false)
    (hq : r.m_inBuffer = d :: rest) (hd : d < 256) (hDB : 8 ≤ r.mDATABITS)
    (hP : r.mPARITY = D.parNONE) (hF0 : D.frameError ≠ 0) (hF : D.frameError < 2 ^ 16)
    (hfp : r.m_fifoP = 1 ∨ r.m_fifoP = 2) (hi : r.m_interrupt = true)
    (hflt : filtered D r d = false) :
    ∃ r', r.runEvent D bit = some r' ∧ r'.m_fifoP + 1 = r.m_fifoP ∧
      fifoAt r'.m_fifoP r' = d ||| D.frameError ∧
      fifoAt r'.m_fifoP r' &&& D.frameError ≠ 0 := by
  have hd16 : d % 2 ^ 16 = d := Nat.mod_eq_of_lt (by omega)
  have hlt : d < 2 ^ (r.mDATABITS + r.mPARITY) :=
    lt_of_lt_of_le (by simpa using hd)
      (Nat.pow_le_pow_right (by decide) (by omega : 8 ≤ r.mDATABITS + r.mPARITY))
  have hstop := land_two_pow_of_lt d _ hlt
  have hnp : ¬ (r.mPARITY > D.parNONE) := by omega
  have ht : tagFrame D r d = d ||| D.frameError := by
    unfold tagFrame
    simp only [hd16, if_neg hnp, if_pos hstop]
    exact Nat.mod_eq_of_lt (Nat.or_lt_two_pow (by omega) hF)
  have hacc := byteReceived_accept D d r hfp hi hflt
  rw [ht] at hacc
  have hne : r.m_state ≠ .usartSTOPPED := by rw [hst]; decide
  have hrun : r.runEvent D bit = some
      (let q : UartRx :=
        { (if r.m_fifoP = 1 then
            { r with
              m_fifoP := 0
              m_fifo0 := d ||| D.frameError
              calls := r.calls ++
                [RxCall.byteReceived ((d ||| D.frameError) &&& r.mDATAMASK)] }
          else
            { r with
              m_fifoP := 1
              m_fifo1 := d ||| D.frameError
              calls := r.calls ++
                [RxCall.raise, RxCall.byteReceived ((d ||| D.frameError) &&& r.mDATAMASK)] }) with
          m_inBuffer := rest }
       if q.m_period ≠ 0 then q.call (.addEvent (q.m_period * q.m_framesize)) else q) := by
    unfold runEvent
    simp only [if_neg hne, hst, if_true, hhw, hq, hacc]
    rfl
  refine ⟨_, hrun, ?_⟩
  rcases hfp with h1 | h2
  · by_cases hp : r.m_period = 0 <;>
      simp [h1, hp, call, fifoAt, lor_land_self, hF0]
  · by_cases hp : r.m_period = 0 <;>
      simp [h2, hp, call, fifoAt, lor_land_self, hF0]

/-- C5, the two input paths on the byte 0xAA at 8 data bits, no parity, 1 stop
bit, with the sample flag values. Software-injected (`queueData(0xAA)` on the
receiver enabled with its pin unconnected, then the `runEvent` that pops it):
the stored frame is 0x10AA, with the `frameError` bit, and `getData()` calls
the usart's `frameError()`. Pin-sampled (`readBit` for each level of the frame,
then `rxEnd`): the stored frame is 0x1AA, without the `frameError` bit, and
`getData()` does not call `frameError()`. Both reads return 0xAA.
(`injected_byte_tagged` shows the flag on every injected byte for every value
of the `frameError` constant.) -/
theorem injected_byte_has_frameError :
    ∃ rs rh, (sampleSoftRx.queueData 0xAA).runEvent sampleDecl true = some rs ∧
      sampleRx.sampleFrame sampleDecl (frameBits 8 0xAA [true]) = some rh ∧
      rs.m_fifo1 = 0x10AA ∧ rh.m_fifo1 = 0x1AA ∧
      rs.m_fifo1 &&& sampleDecl.frameError ≠ 0 ∧ rh.m_fifo1 &&& sampleDecl.frameError = 0 ∧
      (rs.getData sampleDecl).1 = 0xAA ∧ (rh.getData sampleDecl).1 = 0xAA ∧
      RxCall.frameError ∈ (rs.getData sampleDecl).2.calls ∧
      RxCall.frameError ∉ (rh.getData sampleDecl).2.calls :=
  ⟨_, _, rfl, rfl, by decide, by decide, by decide, by decide, by decide, by decide,
    by decide, by decide⟩

end UartRx

/-! ### TwiModule: the slave's address phase -/

namespace TwiModule

/-- A rising SCL edge in `I2C_START` before the last address bit: the SDA
level is shifted into `m_rxReg`. -/
theorem voltChanged_addrBit (D : TwiDecl) (b : Bool) (t : TwiModule)
    (hm : t.m_mode = .TWI_SLAVE) (hs : t.m_i2cState = .I2C_START) (h0 : 0 ≤ t.m_bitPtr)
    (hz : t.m_bitPtr = 0 → t.m_rxReg = 0) (hlt : t.m_bitPtr + 1 ≤ t.m_addrBits) :
    t.voltChanged D .Clock_Rising b =
      { t with
        m_clkState := .Clock_Rising
        m_sdaState := b
        m_lastSDA := b
        m_rxReg := 2 * t.m_rxReg + b.toNat
        m_bitPtr := t.m_bitPtr + 1 } := by
  have hgt : ¬ (t.m_bitPtr + 1 > t.m_addrBits) := by omega
  by_cases hp : t.m_bitPtr > 0
  · simp [voltChanged, updateClock, getSdaState, readBit, hm, hs, hp, hgt, Nat.shiftLeft_eq,
      Nat.mul_comm]
  · have hb : t.m_bitPtr = 0 := by omega
    have hab : ¬ (t.m_addrBits < 1) := by omega
    simp [voltChanged, updateClock, getSdaState, readBit, hm, hs, hb, hz hb, hab]

set_option maxRecDepth 20000 in
theorem msbAcc_msbFirst7 : ∀ a < 128, msbAcc 0 (msbFirst 7 a) = a := by
  decide

/-- The rising SCL edge that completes the address byte with the R/W bit
cleared (SDA low): the address in `m_rxReg` is compared with `m_address`. -/
theorem voltChanged_addrEnd (D : TwiDecl) (t : TwiModule)
    (hm : t.m_mode = .TWI_SLAVE) (hs : t.m_i2cState = .I2C_START) (h0 : 0 < t.m_bitPtr)
    (hlt : t.m_bitPtr + 1 > t.m_addrBits) :
    t.voltChanged D .Clock_Rising false =
      if t.m_rxReg = t.m_address ∨ (t.m_genCall = true ∧ t.m_rxReg = 0) then
        { t with
          m_clkState := .Clock_Rising
          m_sdaState := false
          m_lastSDA := false
          m_addrMatch := decide (t.m_rxReg = t.m_address)
          m_sendACK := true
          m_nextState := if t.m_rxReg = t.m_address then .TWI_SRX_ADR_ACK else .TWI_SRX_GEN_ACK
          m_lastState := .I2C_WRITE
          m_i2cState := .I2C_ACK
          m_bitPtr := 0
          calls := t.calls ++ [.startWrite] }
      else
        { t with
          m_clkState := .Clock_Rising
          m_sdaState := false
          m_lastSDA := false
          m_addrMatch := decide (t.m_rxReg = t.m_address)
          m_i2cState := .I2C_STOP
          m_rxReg := 0
          m_bitPtr := t.m_bitPtr + 1 } := by
  have e1 : (t.m_rxReg <<< 1) % 2 = 0 := by rw [Nat.shiftLeft_eq]; omega
  have e2 : (t.m_rxReg <<< 1) >>> 1 = t.m_rxReg := by
    rw [Nat.shiftLeft_eq, Nat.shiftRight_eq_div_pow]; omega
  by_cases hc : t.m_rxReg = t.m_address ∨ (t.m_genCall = true ∧ t.m_rxReg = 0)
  · by_cases ha : t.m_rxReg = t.m_address
    · simp [voltChanged, updateClock, getSdaState, readBit, startWrite, ACK, call, hm, hs, h0,
        hlt, e1, e2, ha]
    · have hg : t.m_genCall = true ∧ t.m_rxReg = 0 := by tauto
      simp [voltChanged, updateClock, getSdaState, readBit, startWrite, ACK, call, hm, hs, h0,
        hlt, e1, e2, ha, hg.1, hg.2]
  · have ha : ¬ (t.m_rxReg = t.m_address) := fun h => hc (Or.inl h)
    have hg : ¬ (t.m_genCall = true ∧ t.m_rxReg = 0) := fun h => hc (Or.inr h)
    rw [if_neg hc]
    by_cases hgc : t.m_genCall = true
    · have hr : ¬ (t.m_rxReg = 0) := fun h => hg ⟨hgc, h⟩
      simp [voltChanged, updateClock, getSdaState, readBit, hm, hs, h0, hlt, e1, e2, ha, hgc, hr]
    · simp [voltChanged, updateClock, getSdaState, readBit, hm, hs, h0, hlt, e1, e2, ha, hgc]

/-- A falling SCL edge in `I2C_ACK`: the slave schedules SDA at `!m_sendACK`. -/
theorem voltChanged_falling_ACK (D : TwiDecl) (sda : Bool) (t : TwiModule)
    (hm : t.m_mode = .TWI_SLAVE) (hs : t.m_i2cState = .I2C_ACK) :
    t.voltChanged D .Clock_Falling sda =
      { t with
        m_clkState := .Clock_Falling
        m_sdaState := sda
        m_lastSDA := sda
        m_sheduleSDA := true
        m_nextSDA := !t.m_sendACK
        m_i2cState := .I2C_ENDACK
        calls := t.calls ++ [.addEvent .quarterPeriod] } := by
  simp [voltChanged, updateClock, getSdaState, sheduleSDA, call, hm, hs]

/-- A falling SCL edge in `I2C_ENDACK` after the address of a write: the
status is published and the slave goes on to receive data. -/
theorem voltChanged_falling_ENDACK (D : TwiDecl) (sda : Bool) (t : TwiModule)
    (hm : t.m_mode = .TWI_SLAVE) (hs : t.m_i2cState = .I2C_ENDACK)
    (hl : t.m_lastState = .I2C_WRITE) :
    t.voltChanged D .Clock_Falling sda =
      { t with
        m_clkState := .Clock_Falling
        m_sdaState := sda
        m_lastSDA := sda
        m_twiState := t.m_nextState
        m_i2cState := .I2C_WRITE
        m_sheduleSDA := true
        m_nextSDA := true
        m_rxReg := 0
        calls := t.calls ++ [.setTwiState t.m_nextState, .addEvent .quarterPeriod] } := by
  simp [voltChanged, updateClock, getSdaState, sheduleSDA, setTwiState, call, hm, hs, hl]

/-- The event scheduled by `sheduleSDA` drives SDA to the scheduled level. -/
theorem runEvent_sheduleSDA (clk : clkState_t) (sda : Bool) (t : TwiModule)
    (h : t.m_sheduleSDA = true) :
    t.runEvent clk sda =
      { t with m_sheduleSDA := false, calls := t.calls ++ [.setSDA t.m_nextSDA] } := by
  simp [runEvent, setSDA, call, h]

/-! #### The slave on a trace of SCL and SDA changes -/

theorem Core.refl (t : TwiModule) : Core t t :=
  ⟨rfl, rfl, rfl, rfl, rfl, id, id, rfl, rfl, rfl, rfl, rfl, rfl, rfl, rfl, rfl, rfl, rfl, rfl,
    rfl, rfl⟩

theorem Core.trans {t u v : TwiModule} (h1 : Core t u) (h2 : Core u v) : Core t v :=
  ⟨h2.mode.trans h1.mode, h2.twiState.trans h1.twiState, h2.nextState.trans h1.nextState,
    h2.i2cState.trans h1.i2cState, h2.lastState.trans h1.lastState,
    fun h => h1.sheduleSDA (h2.sheduleSDA h), fun h => h1.sheduleSCL (h2.sheduleSCL h),
    h2.nextSDA.trans h1.nextSDA, h2.nextSCL.trans h1.nextSCL, h2.toggleScl.trans h1.toggleScl,
    h2.genCall.trans h1.genCall, h2.sendACK.trans h1.sendACK, h2.addrMatch.trans h1.addrMatch,
    h2.isAddr.trans h1.isAddr, h2.write.trans h1.write, h2.bitPtr.trans h1.bitPtr,
    h2.addrBits.trans h1.addrBits, h2.address.trans h1.address, h2.rxReg.trans h1.rxReg,
    h2.txReg.trans h1.txReg, h2.requests.trans h1.requests⟩

/-- A quiet `voltChanged` call only latches the clock state and the SDA
level. -/
theorem voltChanged_quiet (D : TwiDecl) (clk : clkState_t) (sda : Bool) (t : TwiModule)
    (hm : t.m_mode = .TWI_SLAVE) (hq : quiet t.m_i2cState (.volt clk sda) = true) :
    t.voltChanged D clk sda =
      { t with m_clkState := clk, m_sdaState := sda, m_lastSDA := sda } := by
  cases clk <;> cases hst : t.m_i2cState <;> simp [quiet, hst] at hq <;>
    simp [voltChanged, updateClock, getSdaState, hm, hst]

/-- The method `runEvent` of a slave: it drives the pin that a scheduled event
is for, or does nothing. -/
theorem runEvent_slave (clk : clkState_t) (sda : Bool) (t : TwiModule)
    (hm : t.m_mode = .TWI_SLAVE) :
    t.runEvent clk sda =
      if t.m_sheduleSDA = true then
        { t with m_sheduleSDA := false, calls := t.calls ++ [TwiCall.setSDA t.m_nextSDA] }
      else if t.m_sheduleSCL = true then
        { t with m_sheduleSCL := false, calls := t.calls ++ [TwiCall.setSCL t.m_nextSCL] }
      else t := by
  by_cases h1 : t.m_sheduleSDA = true <;> by_cases h2 : t.m_sheduleSCL = true <;>
    simp [runEvent, setSDA, setSCL, call, hm, h1, h2]

/-- A quiet step changes only the latches, the pin drives in the log and the
two schedule flags, which it may clear. -/
theorem core_quiet (D : TwiDecl) (t : TwiModule) (s : SlaveStep)
    (hm : t.m_mode = .TWI_SLAVE) (hq : quiet t.m_i2cState s = true) :
    Core t (doStep D t s) := by
  cases s with
  | volt clk sda =>
    show Core t (t.voltChanged D clk sda)
    rw [voltChanged_quiet D clk sda t hm hq]
    exact ⟨rfl, rfl, rfl, rfl, rfl, id, id, rfl, rfl, rfl, rfl, rfl, rfl, rfl, rfl, rfl, rfl,
      rfl, rfl, rfl, rfl⟩
  | event clk sda =>
    show Core t (t.runEvent clk sda)
    rw [runEvent_slave clk sda t hm]
    by_cases h1 : t.m_sheduleSDA = true
    · rw [if_pos h1]
      exact ⟨rfl, rfl, rfl, rfl, rfl, fun h => h1, id, rfl, rfl, rfl, rfl, rfl, rfl, rfl, rfl,
        rfl, rfl, rfl, rfl, rfl, by simp [requests, isPinDrive]⟩
    · rw [if_neg h1]
      by_cases h2 : t.m_sheduleSCL = true
      · rw [if_pos h2]
        exact ⟨rfl, rfl, rfl, rfl, rfl, id, fun h => h2, rfl, rfl, rfl, rfl, rfl, rfl, rfl,
          rfl, rfl, rfl, rfl, rfl, rfl, by simp [requests, isPinDrive]⟩
      · rw [if_neg h2]
        exact Core.refl t

theorem core_quiets (D : TwiDecl) (steps : List SlaveStep) :
    ∀ t : TwiModule, t.m_mode = .TWI_SLAVE → (∀ s ∈ steps, quiet t.m_i2cState s = true) →
      Core t (doSteps D steps t) := by
  induction steps with
  | nil => intro t _ _; exact Core.refl t
  | cons s ss ih =>
    intro t hm hq
    have h1 := core_quiet D t s hm (hq s (List.mem_cons_self _ _))
    have h2 := ih (doStep D t s) (h1.mode.trans hm) (fun x hx => by
      rw [h1.i2cState]; exact hq x (List.mem_cons_of_mem _ hx))
    exact h1.trans h2

theorem quiet_of_isLow (st : i2cState_t) (s : SlaveStep) (h : s.isLow = true) :
    quiet st s = true := by
  cases s with
  | volt clk sda => cases clk <;> first | rfl | simp [SlaveStep.isLow] at h
  | event clk sda => rfl

theorem doSteps_append (D : TwiDecl) (l1 l2 : List SlaveStep) (t : TwiModule) :
    doSteps D (l1 ++ l2) t = doSteps D l2 (doSteps D l1 t) := by
  simp [doSteps, List.foldl_append]

theorem bitCells_append (l1 l2 : List BitCell) :
    bitCells (l1 ++ l2) = bitCells l1 ++ bitCells l2 := by
  induction l1 with
  | nil => rfl
  | cons c cs ih => simp [bitCells, ih]

/-- The steps of a cell up to its rising edge, when the falling edge and the
steps while SCL is low are quiet. -/
theorem core_cell_low (D : TwiDecl) (c : BitCell) (t : TwiModule)
    (hm : t.m_mode = .TWI_SLAVE) (hl : c.lows.all (fun s => s.isLow) = true)
    (hf : quiet t.m_i2cState (.volt .Clock_Falling c.sdaAtFall) = true) :
    Core t (doSteps D (.volt .Clock_Falling c.sdaAtFall :: c.lows) t) ∧
    doSteps D (bitCell c) t =
      (doSteps D (.volt .Clock_Falling c.sdaAtFall :: c.lows) t).voltChanged D
        .Clock_Rising c.bit := by
  constructor
  · apply core_quiets D _ t hm
    intro s hs
    rcases List.mem_cons.mp hs with h | h
    · rw [h]; exact hf
    · exact quiet_of_isLow _ s (List.all_eq_true.mp hl s h)
  · have e : bitCell c = (.volt .Clock_Falling c.sdaAtFall :: c.lows) ++
        [.volt .Clock_Rising c.bit] := rfl
    rw [e, doSteps_append]
    rfl

/-- The steps of a cell after its falling edge, up to its rising edge. -/
theorem core_cell_after (D : TwiDecl) (c : BitCell) (t : TwiModule)
    (hm : t.m_mode = .TWI_SLAVE) (hl : c.lows.all (fun s => s.isLow) = true) :
    Core t (doSteps D c.lows t) ∧
    doSteps D (afterFall c) t = (doSteps D c.lows t).voltChanged D .Clock_Rising c.bit := by
  constructor
  · apply core_quiets D _ t hm
    intro s hs
    exact quiet_of_isLow _ s (List.all_eq_true.mp hl s hs)
  · rw [afterFall, doSteps_append]
    rfl

/-- The address phase carries over to a state with the same core. -/
theorem addrPhase_core {t0 u v : TwiModule} {k : Int} {acc : Nat}
    (h : AddrPhase t0 u k acc) (c : Core u v) : AddrPhase t0 v k acc := by
  obtain ⟨h1, h2, h3, h4, h5, h6, h7, h8, h9, h10⟩ := h
  exact ⟨c.mode.trans h1, c.i2cState.trans h2, c.bitPtr.trans h3, c.rxReg.trans h4,
    c.addrBits.trans h5, c.address.trans h6, c.genCall.trans h7, c.sendACK.trans h8,
    c.requests.trans h9, fun x => h10 (c.sheduleSDA x)⟩

/-- The data phase carries over to a state with the same core. -/
theorem dataPhase_core {u0 u v : TwiModule} {k : Int}
    (h : DataPhase u0 u k) (c : Core u v) : DataPhase u0 v k := by
  obtain ⟨h1, h2, h3, h4, h5, h6⟩ := h
  exact ⟨c.mode.trans h1, c.i2cState.trans h2, c.bitPtr.trans h3, c.addrMatch.trans h4,
    c.sendACK.trans h5, c.requests.trans h6⟩

/-- A bit cell of the address byte before its last bit: the bit is shifted
into `m_rxReg`. -/
theorem addr_cell (D : TwiDecl) (t0 u : TwiModule) (k : Int) (acc : Nat) (c : BitCell)
    (h : AddrPhase t0 u k acc) (h0 : 0 ≤ k) (hz : k = 0 → acc = 0)
    (hlt : k + 1 ≤ t0.m_addrBits) (hl : c.lows.all (fun s => s.isLow) = true) :
    AddrPhase t0 (doSteps D (bitCell c) u) (k + 1) (2 * acc + c.bit.toNat) := by
  obtain ⟨hc, e⟩ := core_cell_low D c u h.1 hl (by rw [h.2.1]; rfl)
  have h' := addrPhase_core h hc
  rw [e]
  generalize doSteps D (.volt .Clock_Falling c.sdaAtFall :: c.lows) u = v at h'
  obtain ⟨h1, h2, h3, h4, h5, h6, h7, h8, h9, h10⟩ := h'
  rw [voltChanged_addrBit D c.bit v h1 h2 (by omega) (fun x => by rw [h4]; exact hz (by omega))
    (by rw [h5]; omega)]
  exact ⟨h1, h2, by simp only [h3], by simp only [h4], h5, h6, h7, h8, h9, h10⟩

theorem addr_cells (D : TwiDecl) (t0 : TwiModule) (cells : List BitCell) :
    ∀ (u : TwiModule) (k : Int) (acc : Nat), AddrPhase t0 u k acc → 0 ≤ k →
      (k = 0 → acc = 0) → k + cells.length ≤ t0.m_addrBits → cellsLow cells = true →
      AddrPhase t0 (doSteps D (bitCells cells) u) (k + cells.length)
        (msbAcc acc (cellBits cells)) := by
  induction cells with
  | nil => intro u k acc h _ _ _ _; simpa [bitCells, doSteps, cellBits, msbAcc] using h
  | cons c cs ih =>
    intro u k acc h h0 hz hlen hlow
    simp only [List.length_cons, Nat.cast_add, Nat.cast_one] at hlen
    simp only [cellsLow, List.all_cons, Bool.and_eq_true] at hlow
    have h1 := addr_cell D t0 u k acc c h h0 hz (by omega) hlow.1
    have h2 := ih _ (k + 1) (2 * acc + c.bit.toNat) h1 (by omega) (fun x => by omega)
      (by omega) hlow.2
    simp only [bitCells, doSteps_append, cellBits, List.map_cons, msbAcc, List.length_cons,
      Nat.cast_add, Nat.cast_one]
    rw [show k + ((cs.length : Int) + 1) = k + 1 + cs.length by omega]
    exact h2

/-- The last bit cell of the address byte, the R/W bit cleared: the address
read is compared with `m_address`, and with 0 when general call is on. -/
theorem addr_last_cell (D : TwiDecl) (t0 u : TwiModule) (k : Int) (acc : Nat) (c : BitCell)
    (h : AddrPhase t0 u k acc) (h0 : 0 < k) (hlt : k + 1 > t0.m_addrBits)
    (hl : c.lows.all (fun s => s.isLow) = true) (hb : c.bit = false) :
    (acc = t0.m_address ∨ (t0.m_genCall = true ∧ acc = 0) →
      (doSteps D (bitCell c) u).m_mode = .TWI_SLAVE ∧
      (doSteps D (bitCell c) u).m_i2cState = .I2C_ACK ∧
      (doSteps D (bitCell c) u).m_lastState = .I2C_WRITE ∧
      (doSteps D (bitCell c) u).m_sendACK = true ∧
      (doSteps D (bitCell c) u).m_nextState =
        (if acc = t0.m_address then .TWI_SRX_ADR_ACK else .TWI_SRX_GEN_ACK) ∧
      (doSteps D (bitCell c) u).m_addrMatch = decide (acc = t0.m_address) ∧
      (doSteps D (bitCell c) u).m_bitPtr = 0 ∧
      requests (doSteps D (bitCell c) u) = requests t0 ++ [.startWrite]) ∧
    (¬ (acc = t0.m_address ∨ (t0.m_genCall = true ∧ acc = 0)) →
      (doSteps D (bitCell c) u).m_mode = .TWI_SLAVE ∧
      (doSteps D (bitCell c) u).m_i2cState = .I2C_STOP ∧
      (doSteps D (bitCell c) u).m_rxReg = 0 ∧
      (doSteps D (bitCell c) u).m_sendACK = t0.m_sendACK ∧
      requests (doSteps D (bitCell c) u) = requests t0 ∧
      ((doSteps D (bitCell c) u).m_sheduleSDA = true → t0.m_sheduleSDA = true)) := by
  obtain ⟨hc, e⟩ := core_cell_low D c u h.1 hl (by rw [h.2.1]; rfl)
  have h' := addrPhase_core h hc
  rw [e, hb]
  generalize doSteps D (.volt .Clock_Falling c.sdaAtFall :: c.lows) u = v at h'
  obtain ⟨h1, h2, h3, h4, h5, h6, h7, h8, h9, h10⟩ := h'
  rw [voltChanged_addrEnd D v h1 h2 (by omega) (by rw [h5]; omega), h4, h6, h7]
  constructor
  · intro hcond
    rw [if_pos hcond]
    exact ⟨h1, rfl, rfl, rfl, rfl, rfl, rfl, by simp [requests, isPinDrive] at h9 ⊢; exact h9⟩
  · intro hcond
    rw [if_neg hcond]
    exact ⟨h1, rfl, rfl, h8, h9, h10⟩

/-- The address byte on a trace: from START, eight bit cells that carry the
7-bit address `a`, most significant bit first, and a cleared R/W bit. -/
theorem addr_byte (D : TwiDecl) (t : TwiModule) (a : Nat) (ha : a < 128)
    (hm : t.m_mode = .TWI_SLAVE) (hs : t.m_i2cState = .I2C_START)
    (hb : t.m_bitPtr = 0) (hr : t.m_rxReg = 0) (hab : t.m_addrBits = 7)
    (cells : List BitCell) (hbits : cellBits cells = msbFirst 7 a ++ [false])
    (hlow : cellsLow cells = true) :
    (a = t.m_address ∨ (t.m_genCall = true ∧ a = 0) →
      (doSteps D (bitCells cells) t).m_mode = .TWI_SLAVE ∧
      (doSteps D (bitCells cells) t).m_i2cState = .I2C_ACK ∧
      (doSteps D (bitCells cells) t).m_lastState = .I2C_WRITE ∧
      (doSteps D (bitCells cells) t).m_sendACK = true ∧
      (doSteps D (bitCells cells) t).m_nextState =
        (if a = t.m_address then .TWI_SRX_ADR_ACK else .TWI_SRX_GEN_ACK) ∧
      (doSteps D (bitCells cells) t).m_addrMatch = decide (a = t.m_address) ∧
      (doSteps D (bitCells cells) t).m_bitPtr = 0 ∧
      requests (doSteps D (bitCells cells) t) = requests t ++ [.startWrite]) ∧
    (¬ (a = t.m_address ∨ (t.m_genCall = true ∧ a = 0)) →
      (doSteps D (bitCells cells) t).m_mode = .TWI_SLAVE ∧
      (doSteps D (bitCells cells) t).m_i2cState = .I2C_STOP ∧
      (doSteps D (bitCells cells) t).m_rxReg = 0 ∧
      (doSteps D (bitCells cells) t).m_sendACK = t.m_sendACK ∧
      requests (doSteps D (bitCells cells) t) = requests t ∧
      ((doSteps D (bitCells cells) t).m_sheduleSDA = true → t.m_sheduleSDA = true)) := by
  rcases List.eq_nil_or_concat cells with hnil | ⟨front, last, hsnoc⟩
  · subst hnil
    simp [cellBits, msbFirst] at hbits
  rw [List.concat_eq_append] at hsnoc
  subst hsnoc
  have hlen : (msbFirst 7 a).length = 7 := by simp [msbFirst]
  simp only [cellBits, List.map_append, List.map_cons, List.map_nil] at hbits
  have hfl : (List.map (fun c => c.bit) front).length = (msbFirst 7 a).length := by
    have := congrArg List.length hbits
    simp only [List.length_append, List.length_singleton] at this
    omega
  obtain ⟨hfront, hlast⟩ := List.append_inj hbits hfl
  have hlastb : last.bit = false := by simpa using hlast
  have hflen : front.length = 7 := by
    rw [List.length_map] at hfl; rw [hfl, hlen]
  simp only [cellsLow, List.all_append, List.all_cons, List.all_nil, Bool.and_true,
    Bool.and_eq_true] at hlow
  have h0 : AddrPhase t t 0 0 := ⟨hm, hs, hb, hr, rfl, rfl, rfl, rfl, rfl, id⟩
  have h7 := addr_cells D t front t 0 0 h0 (le_refl _) (fun _ => rfl)
    (by rw [hflen, hab]; decide) hlow.1
  have hacc : msbAcc 0 (cellBits front) = a := by
    show msbAcc 0 (List.map (fun c => c.bit) front) = a
    rw [hfront]; exact msbAcc_msbFirst7 a ha
  rw [hflen, hacc] at h7
  have hend := addr_last_cell D t (doSteps D (bitCells front) t) 7 a last h7 (by decide)
    (by rw [hab]; decide) hlow.2 hlastb
  have e : doSteps D (bitCells (front ++ [last])) t =
      doSteps D (bitCell last) (doSteps D (bitCells front) t) := by
    rw [bitCells_append, doSteps_append]
    simp [bitCells]
  rw [e]
  exact hend

/-- The acknowledge pulse on a trace: the falling SCL edge in `I2C_ACK`
schedules SDA at `!m_sendACK` and goes to `I2C_ENDACK`; the steps while SCL
is low and the rising edge change nothing more. -/
theorem ack_pulse (D : TwiDecl) (v : TwiModule) (c : BitCell)
    (hm : v.m_mode = .TWI_SLAVE) (hs : v.m_i2cState = .I2C_ACK)
    (hl : c.lows.all (fun s => s.isLow) = true) :
    (v.voltChanged D .Clock_Falling c.sdaAtFall).m_i2cState = .I2C_ENDACK ∧
    (v.voltChanged D .Clock_Falling c.sdaAtFall).m_sheduleSDA = true ∧
    (v.voltChanged D .Clock_Falling c.sdaAtFall).m_nextSDA = !v.m_sendACK ∧
    (v.voltChanged D .Clock_Falling c.sdaAtFall).calls =
      v.calls ++ [.addEvent .quarterPeriod] ∧
    (doSteps D (bitCell c) v).m_mode = .TWI_SLAVE ∧
    (doSteps D (bitCell c) v).m_i2cState = .I2C_ENDACK ∧
    (doSteps D (bitCell c) v).m_lastState = v.m_lastState ∧
    (doSteps D (bitCell c) v).m_nextState = v.m_nextState ∧
    (doSteps D (bitCell c) v).m_sendACK = v.m_sendACK ∧
    (doSteps D (bitCell c) v).m_addrMatch = v.m_addrMatch ∧
    (doSteps D (bitCell c) v).m_bitPtr = v.m_bitPtr ∧
    (doSteps D (bitCell c) v).m_nextSDA = !v.m_sendACK ∧
    requests (doSteps D (bitCell c) v) = requests v ++ [.addEvent .quarterPeriod] := by
  have e1 := voltChanged_falling_ACK D c.sdaAtFall v hm hs
  have f1 : (v.voltChanged D .Clock_Falling c.sdaAtFall).m_mode = .TWI_SLAVE ∧
      (v.voltChanged D .Clock_Falling c.sdaAtFall).m_i2cState = .I2C_ENDACK ∧
      (v.voltChanged D .Clock_Falling c.sdaAtFall).m_sheduleSDA = true ∧
      (v.voltChanged D .Clock_Falling c.sdaAtFall).m_nextSDA = !v.m_sendACK ∧
      (v.voltChanged D .Clock_Falling c.sdaAtFall).calls =
        v.calls ++ [.addEvent .quarterPeriod] ∧
      (v.voltChanged D .Clock_Falling c.sdaAtFall).m_lastState = v.m_lastState ∧
      (v.voltChanged D .Clock_Falling c.sdaAtFall).m_nextState = v.m_nextState ∧
      (v.voltChanged D .Clock_Falling c.sdaAtFall).m_sendACK = v.m_sendACK ∧
      (v.voltChanged D .Clock_Falling c.sdaAtFall).m_addrMatch = v.m_addrMatch ∧
      (v.voltChanged D .Clock_Falling c.sdaAtFall).m_bitPtr = v.m_bitPtr ∧
      requests (v.voltChanged D .Clock_Falling c.sdaAtFall) =
        requests v ++ [.addEvent .quarterPeriod] := by
    rw [e1]
    exact ⟨hm, rfl, rfl, rfl, rfl, rfl, rfl, rfl, rfl, rfl, by simp [requests, isPinDrive]⟩
  have e : doSteps D (bitCell c) v =
      doSteps D (afterFall c) (v.voltChanged D .Clock_Falling c.sdaAtFall) := rfl
  rw [e]
  generalize v.voltChanged D .Clock_Falling c.sdaAtFall = w at f1 ⊢
  obtain ⟨g1, g2, g3, g4, g5, g6, g7, g8, g9, g10, g11⟩ := f1
  have hc : Core w (doSteps D (afterFall c) w) := by
    apply core_quiets D _ w g1
    intro s hs'
    rw [afterFall, List.mem_append] at hs'
    rcases hs' with h | h
    · exact quiet_of_isLow _ s (List.all_eq_true.mp hl s h)
    · rw [List.mem_singleton.mp h, g2]; rfl
  exact ⟨g2, g3, g4, g5, hc.mode.trans g1, hc.i2cState.trans g2, hc.lastState.trans g6,
    hc.nextState.trans g7, hc.sendACK.trans g8, hc.addrMatch.trans g9, hc.bitPtr.trans g10,
    hc.nextSDA.trans g4, hc.requests.trans g11⟩

/-- The falling SCL edge after the acknowledge pulse publishes the status and
returns to `I2C_WRITE`. -/
theorem publish (D : TwiDecl) (s : Bool) (w : TwiModule)
    (hm : w.m_mode = .TWI_SLAVE) (hs : w.m_i2cState = .I2C_ENDACK)
    (hl : w.m_lastState = .I2C_WRITE) :
    (w.voltChanged D .Clock_Falling s).m_mode = .TWI_SLAVE ∧
    (w.voltChanged D .Clock_Falling s).m_i2cState = .I2C_WRITE ∧
    (w.voltChanged D .Clock_Falling s).m_twiState = w.m_nextState ∧
    (w.voltChanged D .Clock_Falling s).m_bitPtr = w.m_bitPtr ∧
    (w.voltChanged D .Clock_Falling s).m_sendACK = w.m_sendACK ∧
    (w.voltChanged D .Clock_Falling s).m_addrMatch = w.m_addrMatch ∧
    (w.voltChanged D .Clock_Falling s).calls =
      w.calls ++ [.setTwiState w.m_nextState, .addEvent .quarterPeriod] := by
  rw [voltChanged_falling_ENDACK D s w hm hs hl]
  exact ⟨hm, rfl, rfl, rfl, rfl, rfl, rfl⟩

/-- A rising SCL edge while the slave receives a data byte, before the last
bit. -/
theorem dataPhase_step (D : TwiDecl) (u0 u : TwiModule) (k : Int) (b : Bool)
    (h : DataPhase u0 u k) (h0 : 0 ≤ k) (h7 : k < 7) :
    DataPhase u0 (u.voltChanged D .Clock_Rising b) (k + 1) := by
  obtain ⟨hm, hs, hk, ha, hc, hl⟩ := h
  subst hk
  have h8 : ¬ (u.m_bitPtr + 1 = 8) := by omega
  by_cases hp : 0 < u.m_bitPtr <;>
    simp [DataPhase, requests, voltChanged, updateClock, getSdaState, readBit, hm, hs, hp, h8,
      ha, hc] <;> exact hl

/-- The rising SCL edge that completes a data byte: the status to report is
chosen and the slave goes to `I2C_ACK`. -/
theorem dataPhase_end (D : TwiDecl) (u0 u : TwiModule) (b : Bool) (h : DataPhase u0 u 7) :
    (u.voltChanged D .Clock_Rising b).m_mode = .TWI_SLAVE ∧
    (u.voltChanged D .Clock_Rising b).m_i2cState = .I2C_ACK ∧
    (u.voltChanged D .Clock_Rising b).m_lastState = .I2C_WRITE ∧
    (u.voltChanged D .Clock_Rising b).m_nextState = dataStatus u0.m_addrMatch u0.m_sendACK ∧
    (u.voltChanged D .Clock_Rising b).m_sendACK = u0.m_sendACK ∧
    (u.voltChanged D .Clock_Rising b).m_bitPtr = 0 ∧
    requests (u.voltChanged D .Clock_Rising b) = requests u0 := by
  obtain ⟨hm, hs, hk, ha, hc, hl⟩ := h
  have hp : 0 < u.m_bitPtr := by omega
  have h8 : u.m_bitPtr + 1 = 8 := by omega
  cases h1 : u0.m_addrMatch <;> cases h2 : u0.m_sendACK <;>
    simp [requests, voltChanged, updateClock, getSdaState, readBit, readByte, ACK, dataStatus,
      hm, hs, hp, h8, ha, hc, h1, h2] <;> exact hl

/-- A bit cell of a data byte before its last bit. -/
theorem data_cell (D : TwiDecl) (u0 u : TwiModule) (k : Int) (c : BitCell)
    (h : DataPhase u0 u k) (h0 : 0 ≤ k) (h7 : k < 7)
    (hl : c.lows.all (fun s => s.isLow) = true) :
    DataPhase u0 (doSteps D (bitCell c) u) (k + 1) := by
  obtain ⟨hc, e⟩ := core_cell_low D c u h.1 hl (by rw [h.2.1]; rfl)
  rw [e]
  exact dataPhase_step D u0 _ k c.bit (dataPhase_core h hc) h0 h7

theorem data_cells (D : TwiDecl) (u0 : TwiModule) (cells : List BitCell) :
    ∀ (u : TwiModule) (k : Int), DataPhase u0 u k → 0 ≤ k → k + cells.length ≤ 7 →
      cellsLow cells = true →
      DataPhase u0 (doSteps D (bitCells cells) u) (k + cells.length) := by
  induction cells with
  | nil => intro u k h _ _ _; simpa [bitCells, doSteps] using h
  | cons c cs ih =>
    intro u k h h0 hlen hlow
    simp only [List.length_cons, Nat.cast_add, Nat.cast_one] at hlen
    simp only [cellsLow, List.all_cons, Bool.and_eq_true] at hlow
    have h1 := data_cell D u0 u k c h h0 (by omega) hlow.1
    have h2 := ih _ (k + 1) h1 (by omega) (by omega) hlow.2
    simp only [bitCells, doSteps_append, List.length_cons, Nat.cast_add, Nat.cast_one]
    rw [show k + ((cs.length : Int) + 1) = k + 1 + cs.length by omega]
    exact h2

/-- A data byte on a trace. The slave is in `I2C_WRITE` with bit pointer 0,
just after the falling SCL edge that published the previous status; the rest
of the first bit cell and seven more bit cells follow. The byte ends in
`I2C_ACK` with the status to report in `m_nextState`. -/
theorem data_byte (D : TwiDecl) (u : TwiModule) (d0 : BitCell) (rest : List BitCell)
    (hm : u.m_mode = .TWI_SLAVE) (hs : u.m_i2cState = .I2C_WRITE) (hb : u.m_bitPtr = 0)
    (hlen : rest.length = 7) (hl0 : d0.lows.all (fun s => s.isLow) = true)
    (hlow : cellsLow rest = true) :
    (doSteps D (afterFall d0 ++ bitCells rest) u).m_mode = .TWI_SLAVE ∧
    (doSteps D (afterFall d0 ++ bitCells rest) u).m_i2cState = .I2C_ACK ∧
    (doSteps D (afterFall d0 ++ bitCells rest) u).m_lastState = .I2C_WRITE ∧
    (doSteps D (afterFall d0 ++ bitCells rest) u).m_nextState =
      dataStatus u.m_addrMatch u.m_sendACK ∧
    (doSteps D (afterFall d0 ++ bitCells rest) u).m_sendACK = u.m_sendACK ∧
    (doSteps D (afterFall d0 ++ bitCells rest) u).m_bitPtr = 0 ∧
    requests (doSteps D (afterFall d0 ++ bitCells rest) u) = requests u := by
  rcases List.eq_nil_or_concat rest with hnil | ⟨mid, last, hsnoc⟩
  · subst hnil; simp at hlen
  rw [List.concat_eq_append] at hsnoc
  subst hsnoc
  simp only [List.length_append, List.length_singleton] at hlen
  have hmid : mid.length = 6 := by omega
  simp only [cellsLow, List.all_append, List.all_cons, List.all_nil, Bool.and_true,
    Bool.and_eq_true] at hlow
  have h0 : DataPhase u u 0 := ⟨hm, hs, hb, rfl, rfl, rfl⟩
  obtain ⟨hc, e⟩ := core_cell_after D d0 u hm hl0
  have h1 : DataPhase u (doSteps D (afterFall d0) u) (0 + 1) := by
    rw [e]
    exact dataPhase_step D u _ 0 d0.bit (dataPhase_core h0 hc) (le_refl _) (by decide)
  have h7 := data_cells D u mid _ (0 + 1) h1 (by decide) (by rw [hmid]; decide) hlow.1
  rw [hmid] at h7
  obtain ⟨hc2, e2⟩ := core_cell_low D last (doSteps D (bitCells mid) (doSteps D (afterFall d0) u))
    h7.1 hlow.2 (by rw [h7.2.1]; rfl)
  have hend := dataPhase_end D u _ last.bit (dataPhase_core h7 hc2)
  have e3 : doSteps D (afterFall d0 ++ bitCells (mid ++ [last])) u =
      doSteps D (bitCell last) (doSteps D (bitCells mid) (doSteps D (afterFall d0) u)) := by
    rw [doSteps_append, bitCells_append, doSteps_append]
    simp [bitCells]
  rw [e3, e2]
  exact hend

/-- A byte acknowledged and reported on a trace: from `I2C_ACK` with the
status `st` in `m_nextState`, the acknowledge pulse and the falling SCL edge
after it publish `st` and return to `I2C_WRITE` with bit pointer as it was. -/
theorem ack_publish (D : TwiDecl) (v : TwiModule) (c : BitCell) (s : Bool)
    (hm : v.m_mode = .TWI_SLAVE) (hs : v.m_i2cState = .I2C_ACK)
    (hls : v.m_lastState = .I2C_WRITE) (hl : c.lows.all (fun s => s.isLow) = true) :
    ((doSteps D (bitCell c) v).voltChanged D .Clock_Falling s).m_mode = .TWI_SLAVE ∧
    ((doSteps D (bitCell c) v).voltChanged D .Clock_Falling s).m_i2cState = .I2C_WRITE ∧
    ((doSteps D (bitCell c) v).voltChanged D .Clock_Falling s).m_twiState = v.m_nextState ∧
    ((doSteps D (bitCell c) v).voltChanged D .Clock_Falling s).m_bitPtr = v.m_bitPtr ∧
    ((doSteps D (bitCell c) v).voltChanged D .Clock_Falling s).m_sendACK = v.m_sendACK ∧
    ((doSteps D (bitCell c) v).voltChanged D .Clock_Falling s).m_addrMatch = v.m_addrMatch ∧
    ((doSteps D (bitCell c) v).voltChanged D .Clock_Falling s).calls =
      (doSteps D (bitCell c) v).calls ++
        [.setTwiState v.m_nextState, .addEvent .quarterPeriod] := by
  obtain ⟨_, _, _, _, a1, a2, a3, a4, a5, a6, a7, _, _⟩ := ack_pulse D v c hm hs hl
  obtain ⟨p1, p2, p3, p4, p5, p6, p7⟩ := publish D s (doSteps D (bitCell c) v) a1 a2
    (a3.trans hls)
  exact ⟨p1, p2, p3.trans a4, p4.trans a7, p5.trans a5, p6.trans a6, by rw [p7, a4]⟩

/-- A step other than a change of SDA with SCL high is quiet in `I2C_STOP`. -/
theorem quiet_stop (s : SlaveStep) (h : s.notHigh = true) : quiet .I2C_STOP s = true := by
  cases s with
  | volt clk sda => cases clk <;> first | rfl | simp [SlaveStep.notHigh] at h
  | event clk sda => rfl

/-- C4. I2C slave address match. A slave with `m_addrBits = 7` that has just
detected START (`I2C_START`, bit pointer 0, `m_rxReg` 0) sees eight bit cells:
in each SCL falls, SDA may change and events may fire while SCL is low, and
SCL rises; the SDA levels at the eight rising edges are the 7 bits of the
address `a`, most significant first, and a cleared R/W bit.
If `m_address = a`: the 8th rising edge ends with `m_sendACK` set, phase
`I2C_ACK` and `m_nextState = TWI_SRX_ADR_ACK`, the slave having called
`startWrite` and scheduled nothing. The next falling SCL edge schedules SDA
low (`m_sheduleSDA`, `m_nextSDA = false`, an event a quarter period later,
which drives SDA low when it fires) and goes to `I2C_ENDACK`, where the slave
stays through the low steps and the rising edge of the acknowledge pulse; the
falling edge after that calls `setTwiState( TWI_SRX_ADR_ACK )` and returns to
`I2C_WRITE`.
If `m_address ≠ a` and general call is off: the 8th rising edge ends in
`I2C_STOP` with `m_rxReg` cleared and `m_sendACK` as it was; nothing was
scheduled and `m_sheduleSDA` was not set, and this stays so through every
further step that is not a change of SDA with SCL high. -/
theorem slave_address_match (D : TwiDecl) (t : TwiModule) (a : Nat) (ha : a < 128)
    (hm : t.m_mode = .TWI_SLAVE) (hs : t.m_i2cState = .I2C_START)
    (hb : t.m_bitPtr = 0) (hr : t.m_rxReg = 0) (hab : t.m_addrBits = 7)
    (cells : List BitCell) (hbits : cellBits cells = msbFirst 7 a ++ [false])
    (hlow : cellsLow cells = true) :
    (t.m_address = a →
      let t8 := doSteps D (bitCells cells) t
      t8.m_sendACK = true ∧ t8.m_i2cState = .I2C_ACK ∧ t8.m_nextState = .TWI_SRX_ADR_ACK ∧
      requests t8 = requests t ++ [.startWrite] ∧
      ∀ (ack : BitCell) (s3 sda : Bool) (clk : clkState_t),
        ack.lows.all (fun s => s.isLow) = true →
        let t9 := t8.voltChanged D .Clock_Falling ack.sdaAtFall
        let t9r := doSteps D (bitCell ack) t8
        t9.m_i2cState = .I2C_ENDACK ∧ t9.m_sheduleSDA = true ∧ t9.m_nextSDA = false ∧
        t9.calls = t8.calls ++ [.addEvent .quarterPeriod] ∧
        (t9.runEvent clk sda).calls = t9.calls ++ [.setSDA false] ∧
        t9r.m_i2cState = .I2C_ENDACK ∧
        requests t9r = requests t8 ++ [.addEvent .quarterPeriod] ∧
        (t9r.voltChanged D .Clock_Falling s3).m_twiState = .TWI_SRX_ADR_ACK ∧
        (t9r.voltChanged D .Clock_Falling s3).m_i2cState = .I2C_WRITE ∧
        (t9r.voltChanged D .Clock_Falling s3).calls =
          t9r.calls ++ [.setTwiState .TWI_SRX_ADR_ACK, .addEvent .quarterPeriod]) ∧
    (t.m_address ≠ a → t.m_genCall = false →
      let t8 := doSteps D (bitCells cells) t
      t8.m_i2cState = .I2C_STOP ∧ t8.m_rxReg = 0 ∧ t8.m_sendACK = t.m_sendACK ∧
      requests t8 = requests t ∧ (t8.m_sheduleSDA = true → t.m_sheduleSDA = true) ∧
      ∀ more : List SlaveStep, more.all (fun s => s.notHigh) = true →
        (doSteps D more t8).m_i2cState = .I2C_STOP ∧
        (doSteps D more t8).m_sendACK = t.m_sendACK ∧
        requests (doSteps D more t8) = requests t ∧
        ((doSteps D more t8).m_sheduleSDA = true → t.m_sheduleSDA = true)) := by
  have hbyte := addr_byte D t a ha hm hs hb hr hab cells hbits hlow
  constructor
  · intro hadr
    obtain ⟨b1, b2, b3, b4, b5, _, _, b8⟩ := hbyte.1 (Or.inl hadr.symm)
    rw [if_pos hadr.symm] at b5
    dsimp only
    generalize doSteps D (bitCells cells) t = t8 at b1 b2 b3 b4 b5 b8 ⊢
    refine ⟨b4, b2, b5, b8, ?_⟩
    intro ack s3 sda clk hl
    obtain ⟨a1, a2, a3, a4, a5, a6, a7, a8, _, _, _, _, a13⟩ := ack_pulse D t8 ack b1 b2 hl
    obtain ⟨_, p2, p3, _, _, _, p7⟩ := ack_publish D t8 ack s3 b1 b2 b3 hl
    have a3' : (t8.voltChanged D .Clock_Falling ack.sdaAtFall).m_nextSDA = false := by
      rw [a3, b4]; rfl
    refine ⟨a1, a2, a3', a4, ?_, a6, a13, by rw [p3, b5], p2, by rw [p7, b5]⟩
    rw [runEvent_sheduleSDA clk sda _ a2]
    simp only [a3']
  · intro hadr hgc
    have hc : ¬ (a = t.m_address ∨ (t.m_genCall = true ∧ a = 0)) := by
      rintro (h | h)
      · exact hadr h.symm
      · rw [hgc] at h; exact absurd h.1 (by decide)
    obtain ⟨b1, b2, b3, b4, b5, b6⟩ := hbyte.2 hc
    dsimp only
    generalize doSteps D (bitCells cells) t = t8 at b1 b2 b3 b4 b5 b6 ⊢
    refine ⟨b2, b3, b4, b5, b6, ?_⟩
    intro more hmore
    have hcore := core_quiets D more t8 b1 (fun s hs' => by
      rw [b2]; exact quiet_stop s (List.all_eq_true.mp hmore s hs'))
    exact ⟨hcore.i2cState.trans b2, hcore.sendACK.trans b4, hcore.requests.trans b5,
      fun h => b6 (hcore.sheduleSDA h)⟩

/-- Witness of C4: the master sends address 0x50 with the write bit cleared
to a slave at 0x50 and to a slave at 0x51, setting SDA while SCL is low. -/
theorem slave_address_match_witness :
    (doSteps sampleDecl (bitCells (plainCells (msbFirst 7 0x50 ++ [false])))
      (sampleSlave 0x50)).m_nextState = .TWI_SRX_ADR_ACK ∧
    (doSteps sampleDecl (bitCells (plainCells (msbFirst 7 0x50 ++ [false])))
      (sampleSlave 0x51)).m_i2cState = .I2C_STOP :=
  ⟨((slave_address_match sampleDecl (sampleSlave 0x50) 0x50 (by decide) rfl rfl rfl rfl rfl
      (plainCells (msbFirst 7 0x50 ++ [false])) rfl rfl).1 rfl).2.2.1,
    ((slave_address_match sampleDecl (sampleSlave 0x51) 0x50 (by decide) rfl rfl rfl rfl rfl
      (plainCells (msbFirst 7 0x50 ++ [false])) rfl rfl).2 (by decide) rfl).1⟩

end TwiModule

/-! ### Pin control, enable, and the TWI scheduling and master phases -/

namespace IoPin

/-- The method `controlPin` never saves or restores the mode: each of its two
tests compares `dirCtrl` with itself. -/
theorem controlPin_eq (D : IoDecl) (outCtrl dirCtrl : Bool) (p : IoPin) :
    p.controlPin D outCtrl dirCtrl = { p with m_outCtrl := outCtrl, m_dirCtrl := dirCtrl } := by
  cases dirCtrl <;> simp [controlPin]

/-- C18. External pin control on the sample output pin. `m_dirCtrl` is false
and `m_oldPinMode` is `undef_mode`; `controlPin(true, true)` takes control
but `m_oldPinMode` is still `undef_mode`, not `output`. The controller then
sets the mode to `input`, and `controlPin(true, false)` releases control:
the mode is still `input`, not the `output` of before, and `setPinMode` was
not called (the release adds no call to the log). -/
theorem controlPin_keeps_mode :
    samplePin.m_dirCtrl = false ∧ samplePin.m_pinMode = .output ∧
    (samplePin.controlPin sampleDecl true true).m_dirCtrl = true ∧
    (samplePin.controlPin sampleDecl true true).m_oldPinMode = .undef_mode ∧
    ((((samplePin.controlPin sampleDecl true true).setPinMode sampleDecl .input).controlPin
      sampleDecl true false).m_pinMode = .input) ∧
    ((((samplePin.controlPin sampleDecl true true).setPinMode sampleDecl .input).controlPin
      sampleDecl true false).calls =
        ((samplePin.controlPin sampleDecl true true).setPinMode sampleDecl .input).calls) := by
  simp only [controlPin_eq]
  simp [samplePin, construct, setPinMode, setOutState, updtState, setImp, stampAll,
    stampOutput, call, setPinState, sampleDecl]

end IoPin

namespace UartRx

/-- C17, as amended. A call `enable(en)` that changes the enabled flag leaves
an empty injected-byte buffer, `m_frame = 0` and state `usartSTOPPED`, or
`usartRECEIVE` when it enables with the pin unconnected; when it enables it
also sets `m_currentBit = 0`, `m_fifoP = 2` and the frame size; when it
disables it leaves `m_currentBit` as it was. A call that does not change the
enabled flag changes nothing. -/
theorem enable_resets (en : Nat) (connected pinLevel : Bool) (r : UartRx) :
    (decide (en % 2 ^ 8 > 0) ≠ r.m_enabled →
      (r.enable en connected pinLevel).m_enabled = decide (en % 2 ^ 8 > 0) ∧
      (r.enable en connected pinLevel).m_inBuffer = [] ∧
      (r.enable en connected pinLevel).m_frame = 0 ∧
      (r.enable en connected pinLevel).m_state =
        (if en % 2 ^ 8 > 0 ∧ connected = false then .usartRECEIVE else .usartSTOPPED) ∧
      (r.enable en connected pinLevel).m_currentBit =
        (if en % 2 ^ 8 > 0 then 0 else r.m_currentBit) ∧
      (en % 2 ^ 8 > 0 →
        (r.enable en connected pinLevel).m_fifoP = 2 ∧
        (r.enable en connected pinLevel).m_framesize =
          1 + r.mDATABITS + r.mPARITY + r.mSTOPBITS)) ∧
    (decide (en % 2 ^ 8 > 0) = r.m_enabled → r.enable en connected pinLevel = r) := by
  constructor
  · intro h
    by_cases he : en % 256 > 0 <;> cases connected <;> by_cases hp : r.m_period = 0 <;>
      simp_all [enable, processData, call]
  · intro h
    unfold enable
    exact if_pos h

/-- Witness of C17 as amended: `enable(0)` on the enabled sample receiver. -/
theorem enable_resets_witness :
    (sampleRx.enable 0 true true).m_inBuffer = [] ∧ (sampleRx.enable 0 true true).m_frame = 0 ∧
    (sampleRx.enable 0 true true).m_state = .usartSTOPPED :=
  have h := (enable_resets 0 true true sampleRx).1 (by decide)
  ⟨h.2.1, h.2.2.1, h.2.2.2.1⟩

/-- C17, counterexample. The enabled sample receiver has sampled two bits of a
frame (`m_currentBit = 2`); `enable(0)` changes the enabled flag and leaves
`m_currentBit = 2`. -/
theorem enable_zero_keeps_currentBit :
    (sampleRx.readBits [false, true]).m_enabled = true ∧
    ((sampleRx.readBits [false, true]).enable 0 true true).m_enabled = false ∧
    ((sampleRx.readBits [false, true]).enable 0 true true).m_currentBit = 2 := by
  decide

end UartRx

namespace TwiModule

/-! #### initialize -/

/-- What `initialize()` does reset, and what follows when no SCL change is
scheduled: the mode is `TWI_OFF`, the phase and the last phase `I2C_IDLE`,
the status `TWI_NO_STATE`, `m_sheduleSDA` and `m_toggleScl` false;
`m_sheduleSCL` is as before, and if it was false a `runEvent` right after
changes nothing. -/
theorem initialise_resets (t : TwiModule) (clk : clkState_t) (sda : Bool) :
    t.initialise.m_mode = .TWI_OFF ∧ t.initialise.m_i2cState = .I2C_IDLE ∧
    t.initialise.m_lastState = .I2C_IDLE ∧ t.initialise.m_twiState = .TWI_NO_STATE ∧
    t.initialise.m_sheduleSDA = false ∧ t.initialise.m_toggleScl = false ∧
    t.initialise.m_sheduleSCL = t.m_sheduleSCL ∧
    (t.m_sheduleSCL = false → t.initialise.runEvent clk sda = t.initialise) := by
  refine ⟨rfl, rfl, rfl, rfl, rfl, rfl, rfl, ?_⟩
  intro h
  simp [runEvent, initialise, h]

/-- C12. `initialize()` with an SCL change scheduled. The sample module after
`setMode( TWI_SLAVE )` has `m_sheduleSCL` set (by `sheduleSCL( true )`);
after `initialize()` the flag is still set, and a `runEvent` arriving right
after drives SCL: it calls `setSCL( true )`. -/
theorem initialise_keeps_sheduleSCL :
    (sampleOff.setMode .TWI_SLAVE).m_sheduleSCL = true ∧
    (sampleOff.setMode .TWI_SLAVE).initialise.m_sheduleSCL = true ∧
    newCalls (sampleOff.setMode .TWI_SLAVE).initialise
      ((sampleOff.setMode .TWI_SLAVE).initialise.runEvent .Clock_High true) = [.setSCL true] := by
  decide

/-! #### START detection by the slave -/

/-- C13, as amended. For a slave in any phase other than `I2C_ACK`, a
`voltChanged` call that finds SCL high (`Clock_High`) with SDA high before
(`m_lastSDA`) and low now is a START condition: the phase becomes
`I2C_START`, the bit pointer and `m_rxReg` are 0, and nothing else but the
latches `m_clkState`, `m_sdaState` and `m_lastSDA` changes. In `I2C_ACK` the
same call changes only those latches: the phase stays `I2C_ACK`. -/
theorem voltChanged_start (D : TwiDecl) (t : TwiModule) (hm : t.m_mode = .TWI_SLAVE)
    (hl : t.m_lastSDA = true) :
    (t.m_i2cState ≠ .I2C_ACK →
      t.voltChanged D .Clock_High false =
        { t with
          m_clkState := .Clock_High
          m_sdaState := false
          m_lastSDA := false
          m_i2cState := .I2C_START
          m_bitPtr := 0
          m_rxReg := 0 }) ∧
    (t.m_i2cState = .I2C_ACK →
      t.voltChanged D .Clock_High false =
        { t with
          m_clkState := .Clock_High
          m_sdaState := false
          m_lastSDA := false }) := by
  constructor
  · intro hs
    simp [voltChanged, updateClock, getSdaState, hm, hl, hs]
  · intro hs
    simp [voltChanged, updateClock, getSdaState, hm, hl, hs]

/-- Witness of C13 as amended: the sample slave receiving data (`I2C_WRITE`)
with SDA high sees SDA fall while SCL is high. -/
theorem voltChanged_start_witness :
    ({ sampleSlave 0x50 with m_i2cState := .I2C_WRITE, m_lastSDA := true }.voltChanged
      sampleDecl .Clock_High false).m_i2cState = .I2C_START := by
  have h := (voltChanged_start sampleDecl
    { sampleSlave 0x50 with m_i2cState := .I2C_WRITE, m_lastSDA := true } rfl rfl).1 (by decide)
  rw [h]

/-- C13, counterexample. The sample slave at 0x50 has received its address
with the R/W bit cleared and is in `I2C_ACK`; while SCL is still high SDA
rises and then falls: at the fall `m_lastSDA` is set and SDA is low, and the
phase stays `I2C_ACK`, not `I2C_START`. -/
theorem voltChanged_start_in_ACK :
    (((sampleSlave 0x50).risingEdges sampleDecl (msbFirst 7 0x50 ++ [false])).voltChanged
      sampleDecl .Clock_High true).m_mode = .TWI_SLAVE ∧
    (((sampleSlave 0x50).risingEdges sampleDecl (msbFirst 7 0x50 ++ [false])).voltChanged
      sampleDecl .Clock_High true).m_i2cState = .I2C_ACK ∧
    (((sampleSlave 0x50).risingEdges sampleDecl (msbFirst 7 0x50 ++ [false])).voltChanged
      sampleDecl .Clock_High true).m_lastSDA = true ∧
    ((((sampleSlave 0x50).risingEdges sampleDecl (msbFirst 7 0x50 ++ [false])).voltChanged
      sampleDecl .Clock_High true).voltChanged sampleDecl .Clock_High false).m_i2cState
      = .I2C_ACK := by
  decide

end TwiModule

namespace TwiModule

/-! #### setMode and the pending events -/

/-- The calls of `setMode`, in order. -/
theorem setMode_calls (mode : twiMode_t) (t : TwiModule) :
    (t.setMode mode).calls = t.calls ++
      ((if mode = .TWI_MASTER then [TwiCall.cancelEvents, TwiCall.addEvent .period] else []) ++
        [TwiCall.sclChangeCallBack (decide (mode = .TWI_SLAVE)),
          TwiCall.sdaChangeCallBack (decide (mode = .TWI_SLAVE)),
          TwiCall.addEvent .quarterPeriod, TwiCall.setSDA true]) := by
  cases mode <;> simp [setMode, sheduleSCL, setSDA, call]

theorem newCalls_setMode (mode : twiMode_t) (t : TwiModule) :
    newCalls t (t.setMode mode) =
      (if mode = .TWI_MASTER then [TwiCall.cancelEvents, TwiCall.addEvent .period] else []) ++
        [TwiCall.sclChangeCallBack (decide (mode = .TWI_SLAVE)),
          TwiCall.sdaChangeCallBack (decide (mode = .TWI_SLAVE)),
          TwiCall.addEvent .quarterPeriod, TwiCall.setSDA true] := by
  rw [newCalls, setMode_calls, List.drop_left]

/-- C11, as amended. `setMode( TWI_MASTER )` calls `cancelEvents` before it
schedules anything, so that whatever events `q` were pending, right after it
the pending events are the two it scheduled (the clock start and the
`sheduleSCL` event). `setMode( TWI_OFF )` and `setMode( TWI_SLAVE )` do not
call `cancelEvents`: they schedule the `sheduleSCL` event on top of the
events that were pending. In every mode the call leaves `m_sheduleSDA` and
`m_toggleScl` false, the phase `I2C_IDLE` and `m_sheduleSCL` set. -/
theorem setMode_events (mode : twiMode_t) (t : TwiModule) (q : List twiDelay_t) :
    (mode = .TWI_MASTER →
      newCalls t (t.setMode mode) =
        [.cancelEvents, .addEvent .period, .sclChangeCallBack false, .sdaChangeCallBack false,
          .addEvent .quarterPeriod, .setSDA true] ∧
      pendingEvents q (newCalls t (t.setMode mode)) = [.period, .quarterPeriod] ∧
      pendingEvents q (newCalls t (t.setMode mode)) = scheduled (newCalls t (t.setMode mode))) ∧
    (mode ≠ .TWI_MASTER →
      TwiCall.cancelEvents ∉ newCalls t (t.setMode mode) ∧
      scheduled (newCalls t (t.setMode mode)) = [.quarterPeriod] ∧
      pendingEvents q (newCalls t (t.setMode mode)) = q ++ [.quarterPeriod]) ∧
    (t.setMode mode).m_mode = mode ∧ (t.setMode mode).m_i2cState = .I2C_IDLE ∧
    (t.setMode mode).m_sheduleSDA = false ∧ (t.setMode mode).m_toggleScl = false ∧
    (t.setMode mode).m_sheduleSCL = true := by
  refine ⟨?_, ?_, ?_⟩
  · intro h
    subst h
    rw [newCalls_setMode]
    simp [pendingEvents, scheduled]
  · intro h
    rw [newCalls_setMode]
    cases mode <;> simp_all [pendingEvents, scheduled]
  · cases mode <;> simp [setMode, sheduleSCL, setSDA, call]

/-- C11, counterexample. The sample module is a master with its clock event
and its `sheduleSCL` event pending; `setMode( TWI_OFF )` calls no
`cancelEvents` and schedules one event, so three events are pending after it,
two of them scheduled before the call. -/
theorem setMode_off_keeps_events :
    pendingEvents [] sampleMaster.calls = [.period, .quarterPeriod] ∧
    TwiCall.cancelEvents ∉ newCalls sampleMaster (sampleMaster.setMode .TWI_OFF) ∧
    scheduled (newCalls sampleMaster (sampleMaster.setMode .TWI_OFF)) = [.quarterPeriod] ∧
    pendingEvents [] (sampleMaster.setMode .TWI_OFF).calls
      = [.period, .quarterPeriod, .quarterPeriod] := by
  decide

end TwiModule

namespace TwiModule

/-! #### The master's runEvent -/

/-- The method `runEvent` of a master with no scheduled pin change and no
SCL toggle requested, in a phase other than `I2C_IDLE`: the next event is
scheduled, the clock state and the SDA level are read, and the phase is
served. -/
theorem runEvent_master (clk : clkState_t) (sda : Bool) (t : TwiModule)
    (hm : t.m_mode = .TWI_MASTER) (hsd : t.m_sheduleSDA = false)
    (hsc : t.m_sheduleSCL = false) (htg : t.m_toggleScl = false) :
    (t.m_i2cState = .I2C_STOP →
      t.runEvent clk sda =
        (let u := { t with
            m_clkState := clk, m_sdaState := sda, calls := t.calls ++ [TwiCall.addEvent .period] }
         if sda && isLow clk then u.setSDA false
         else if !sda && isLow clk then u.keepClocking
         else if !sda && !isLow clk then u.setSDA true
         else { u.setTwiState .TWI_NO_STATE with m_i2cState := .I2C_IDLE })) ∧
    (t.m_i2cState = .I2C_READACK →
      t.runEvent clk sda =
        (let u := { t with
            m_clkState := clk, m_sdaState := sda, calls := t.calls ++ [TwiCall.addEvent .period] }
         if isLow clk then { u.setTwiState u.m_nextState with m_i2cState := .I2C_IDLE }
         else { u with m_nextState := ackStatus u.m_isAddr u.m_write sda }.keepClocking)) := by
  constructor
  · intro hs
    cases clk <;> cases sda <;>
      simp [runEvent, updateClock, getSdaState, call, isLow, hm, hsd, hsc, htg, hs]
  · intro hs
    cases clk <;> cases sda <;> cases h1 : t.m_isAddr <;> cases h2 : t.m_write <;>
      simp [runEvent, updateClock, getSdaState, call, isLow, ackStatus, keepClocking,
        hm, hsd, hsc, htg, hs, h1, h2]

/-- A pending `sheduleSCL` event or a requested SCL toggle is served first:
`runEvent` then only sets SCL. -/
theorem runEvent_scl_first (clk : clkState_t) (sda : Bool) (t : TwiModule)
    (hm : t.m_mode = .TWI_MASTER) (hsd : t.m_sheduleSDA = false)
    (h : t.m_sheduleSCL = true ∨ t.m_toggleScl = true) :
    ∃ st, t.runEvent clk sda =
      { t with
        m_clkState := (t.runEvent clk sda).m_clkState
        m_sheduleSCL := (t.runEvent clk sda).m_sheduleSCL
        m_toggleScl := (t.runEvent clk sda).m_toggleScl
        calls := t.calls ++ [TwiCall.setSCL st] } := by
  by_cases h1 : t.m_sheduleSCL = true
  · exact ⟨t.m_nextSCL, by simp [runEvent, setSCL, call, hsd, h1]⟩
  · have h2 : t.m_toggleScl = true := by tauto
    exact ⟨isLow clk, by simp [runEvent, setSCL, call, updateClock, isLow, hm, hsd, h1, h2]⟩

/-- C20. Master STOP generation. A master in `I2C_STOP` with no `sheduleSDA`
event pending runs `runEvent` with SCL state `clk` and sampled SDA level
`sda`. When neither a `sheduleSCL` event nor an SCL toggle is pending, it
schedules its next event and then: SDA high and SCL low, it lowers SDA; both
low, it requests an SCL toggle (`keepClocking`); SDA low and SCL high, it
raises SDA; both high, it publishes `TWI_NO_STATE` and goes to `I2C_IDLE`; in
the first three cases the phase stays `I2C_STOP`. When such an event or
toggle is pending it only sets SCL. So whatever is pending, `setSDA( true )`
is called only with SDA low and SCL high, `setSDA( false )` only with SDA high
and SCL low, and the phase leaves `I2C_STOP` only with both high. -/
theorem runEvent_stop (clk : clkState_t) (sda : Bool) (t : TwiModule)
    (hm : t.m_mode = .TWI_MASTER) (hs : t.m_i2cState = .I2C_STOP)
    (hsd : t.m_sheduleSDA = false) :
    (t.m_sheduleSCL = false → t.m_toggleScl = false →
      (sda = true → isLow clk = true →
        newCalls t (t.runEvent clk sda) = [.addEvent .period, .setSDA false] ∧
        (t.runEvent clk sda).m_i2cState = .I2C_STOP) ∧
      (sda = false → isLow clk = true →
        newCalls t (t.runEvent clk sda) = [.addEvent .period, .addEvent .halfPeriod] ∧
        (t.runEvent clk sda).m_toggleScl = true ∧
        (t.runEvent clk sda).m_i2cState = .I2C_STOP) ∧
      (sda = false → isLow clk = false →
        newCalls t (t.runEvent clk sda) = [.addEvent .period, .setSDA true] ∧
        (t.runEvent clk sda).m_i2cState = .I2C_STOP) ∧
      (sda = true → isLow clk = false →
        newCalls t (t.runEvent clk sda) = [.addEvent .period, .setTwiState .TWI_NO_STATE] ∧
        (t.runEvent clk sda).m_twiState = .TWI_NO_STATE ∧
        (t.runEvent clk sda).m_i2cState = .I2C_IDLE)) ∧
    (TwiCall.setSDA true ∈ newCalls t (t.runEvent clk sda) → sda = false ∧ isLow clk = false) ∧
    (TwiCall.setSDA false ∈ newCalls t (t.runEvent clk sda) → sda = true ∧ isLow clk = true) ∧
    ((t.runEvent clk sda).m_i2cState ≠ .I2C_STOP → sda = true ∧ isLow clk = false) := by
  by_cases hflag : t.m_sheduleSCL = true ∨ t.m_toggleScl = true
  · obtain ⟨st, e⟩ := runEvent_scl_first clk sda t hm hsd hflag
    have hc : newCalls t (t.runEvent clk sda) = [.setSCL st] := by
      rw [newCalls, e]; simp
    have hst : (t.runEvent clk sda).m_i2cState = .I2C_STOP := by rw [e]; exact hs
    refine ⟨?_, ?_, ?_, ?_⟩
    · intro h1 h2
      rcases hflag with h | h
      · rw [h1] at h; exact absurd h (by decide)
      · rw [h2] at h; exact absurd h (by decide)
    · rw [hc]; simp
    · rw [hc]; simp
    · intro h; exact absurd hst h
  · have hsc : t.m_sheduleSCL = false := by
      cases h : t.m_sheduleSCL
      · rfl
      · exact absurd (Or.inl h) hflag
    have htg : t.m_toggleScl = false := by
      cases h : t.m_toggleScl
      · rfl
      · exact absurd (Or.inr h) hflag
    have e := (runEvent_master clk sda t hm hsd hsc htg).1 hs
    rw [e]
    cases clk <;> cases sda <;>
      simp [newCalls, isLow, setSDA, keepClocking, setTwiState, call, hs]

/-- Witness of C20: the sample master in `I2C_STOP` with SDA low and SCL high
raises SDA. -/
theorem runEvent_stop_witness :
    newCalls { sampleMaster with m_sheduleSCL := false, m_i2cState := .I2C_STOP }
      ({ sampleMaster with m_sheduleSCL := false, m_i2cState := .I2C_STOP }.runEvent
        .Clock_High false) = [.addEvent .period, .setSDA true] :=
  ((runEvent_stop .Clock_High false
    { sampleMaster with m_sheduleSCL := false, m_i2cState := .I2C_STOP } rfl rfl rfl).1
      rfl rfl).2.2.1 rfl rfl |>.1

/-- C19. Master ACK sampling. A master in `I2C_READACK` with no scheduled
pin change and no SCL toggle pending runs `runEvent` with SCL high and samples
the SDA level `s`: `m_nextState` becomes `TWI_MTX_ADR_ACK` / `_NACK` (`s` low /
high) after an address byte sent for writing (`m_isAddr` and `m_write`, as
`masterWrite` stores them), `TWI_MRX_ADR_ACK` / `_NACK` after an address byte
sent for reading, `TWI_MTX_DATA_ACK` / `_NACK` after a data byte; the phase
stays `I2C_READACK` and an SCL toggle is requested. The next `runEvent` serves
that toggle (it only sets SCL), and the `runEvent` after it, with SCL low,
calls `setTwiState` with that status and goes to `I2C_IDLE`. -/
theorem runEvent_readack (D : TwiDecl) (t : TwiModule) (clk1 clk2 clk3 : clkState_t)
    (s s2 s3 : Bool)
    (hm : t.m_mode = .TWI_MASTER) (hs : t.m_i2cState = .I2C_READACK)
    (hsd : t.m_sheduleSDA = false) (hsc : t.m_sheduleSCL = false)
    (htg : t.m_toggleScl = false) (h1 : isLow clk1 = false) (h3 : isLow clk3 = true) :
    (t.runEvent clk1 s).m_nextState =
      (if t.m_isAddr then
        if t.m_write then (if s then .TWI_MTX_ADR_NACK else .TWI_MTX_ADR_ACK)
        else (if s then .TWI_MRX_ADR_NACK else .TWI_MRX_ADR_ACK)
      else (if s then .TWI_MTX_DATA_NACK else .TWI_MTX_DATA_ACK)) ∧
    (t.runEvent clk1 s).m_i2cState = .I2C_READACK ∧
    (t.runEvent clk1 s).m_toggleScl = true ∧
    newCalls t (t.runEvent clk1 s) = [.addEvent .period, .addEvent .halfPeriod] ∧
    newCalls (t.runEvent clk1 s) ((t.runEvent clk1 s).runEvent clk2 s2)
      = [.setSCL (isLow clk2)] ∧
    newCalls ((t.runEvent clk1 s).runEvent clk2 s2)
        (((t.runEvent clk1 s).runEvent clk2 s2).runEvent clk3 s3)
      = [.addEvent .period, .setTwiState (t.runEvent clk1 s).m_nextState] ∧
    (((t.runEvent clk1 s).runEvent clk2 s2).runEvent clk3 s3).m_twiState
      = (t.runEvent clk1 s).m_nextState ∧
    (((t.runEvent clk1 s).runEvent clk2 s2).runEvent clk3 s3).m_i2cState = .I2C_IDLE ∧
    (∀ (u : TwiModule) (data : Nat) (isAddr write : Bool),
      u.masterWrite D data isAddr write =
        D.writeByte { u with
          m_isAddr := isAddr, m_write := write, m_i2cState := .I2C_WRITE,
          m_txReg := data % 2 ^ 8 }) := by
  have e1 := (runEvent_master clk1 s t hm hsd hsc htg).2 hs
  simp only [h1] at e1
  -- the state after the sampling event
  have f1 : (t.runEvent clk1 s).m_mode = .TWI_MASTER ∧
      (t.runEvent clk1 s).m_i2cState = .I2C_READACK ∧
      (t.runEvent clk1 s).m_sheduleSDA = false ∧
      (t.runEvent clk1 s).m_sheduleSCL = false ∧
      (t.runEvent clk1 s).m_toggleScl = true ∧
      (t.runEvent clk1 s).m_nextState = ackStatus t.m_isAddr t.m_write s ∧
      (t.runEvent clk1 s).calls = t.calls ++ [.addEvent .period, .addEvent .halfPeriod] := by
    rw [e1]
    simp [keepClocking, call, hm, hs, hsd, hsc]
  have c1 : newCalls t (t.runEvent clk1 s) = [.addEvent .period, .addEvent .halfPeriod] := by
    rw [newCalls, f1.2.2.2.2.2.2]; simp
  generalize t.runEvent clk1 s = t1 at f1 c1 ⊢
  obtain ⟨m1, p1, a1, b1, g1, n1, _⟩ := f1
  -- the toggle event
  have e2 : t1.runEvent clk2 s2 =
      { t1 with
        m_clkState := clk2, m_toggleScl := false
        calls := t1.calls ++ [TwiCall.setSCL (isLow clk2)] } := by
    simp [runEvent, setSCL, call, updateClock, isLow, m1, a1, b1, g1]
  have f2 : (t1.runEvent clk2 s2).m_mode = .TWI_MASTER ∧
      (t1.runEvent clk2 s2).m_i2cState = .I2C_READACK ∧
      (t1.runEvent clk2 s2).m_sheduleSDA = false ∧
      (t1.runEvent clk2 s2).m_sheduleSCL = false ∧
      (t1.runEvent clk2 s2).m_toggleScl = false ∧
      (t1.runEvent clk2 s2).m_nextState = t1.m_nextState ∧
      (t1.runEvent clk2 s2).calls = t1.calls ++ [.setSCL (isLow clk2)] := by
    rw [e2]; exact ⟨m1, p1, a1, b1, rfl, rfl, rfl⟩
  have c2 : newCalls t1 (t1.runEvent clk2 s2) = [.setSCL (isLow clk2)] := by
    rw [newCalls, f2.2.2.2.2.2.2]; simp
  generalize t1.runEvent clk2 s2 = t2 at f2 c2 ⊢
  obtain ⟨m2, p2, a2, b2, g2, n2, _⟩ := f2
  -- the publishing event
  have e3 := (runEvent_master clk3 s3 t2 m2 a2 b2 g2).2 p2
  simp only [h3, if_true] at e3
  refine ⟨?_, p1, g1, c1, c2, ?_, ?_, ?_, fun _ _ _ _ => rfl⟩
  · rw [n1]; rfl
  · rw [newCalls, e3]; simp [setTwiState, call, n2]
  · rw [e3]; simp [setTwiState, call, n2]
  · rw [e3]

/-- Witness of C19: the sample master waits for the ACK of an address byte
sent for writing and samples SDA low. -/
theorem runEvent_readack_witness :
    ({ sampleMaster with
        m_sheduleSCL := false, m_i2cState := .I2C_READACK, m_isAddr := true,
        m_write := true }.runEvent .Clock_High false).m_nextState = .TWI_MTX_ADR_ACK :=
  (runEvent_readack sampleDecl
    { sampleMaster with
      m_sheduleSCL := false, m_i2cState := .I2C_READACK, m_isAddr := true, m_write := true }
    .Clock_High .Clock_High .Clock_Low false false false rfl rfl rfl rfl rfl rfl rfl).1

/-- C16. Master SDA clock-phase discipline. A master with no `sheduleSDA`
event pending (`setMode` clears the flag and only slave paths set it) runs
`runEvent` in a data phase (`I2C_WRITE`, `I2C_READ`, `I2C_ACK`, `I2C_ENDACK`,
`I2C_READACK`) with SCL state `clk` and SDA level `sda`. The calls it makes
are appended to the log; with SCL high none of them is a `setSDA`; with SCL
low `m_rxReg` and `m_nextState` are as before; and afterwards the module is
still a master with no `sheduleSDA` event pending. -/
theorem runEvent_sda_discipline (clk : clkState_t) (sda : Bool) (t : TwiModule)
    (hm : t.m_mode = .TWI_MASTER) (hsd : t.m_sheduleSDA = false)
    (hph : t.m_i2cState = .I2C_WRITE ∨ t.m_i2cState = .I2C_READ ∨ t.m_i2cState = .I2C_ACK ∨
      t.m_i2cState = .I2C_ENDACK ∨ t.m_i2cState = .I2C_READACK) :
    (t.runEvent clk sda).calls = t.calls ++ newCalls t (t.runEvent clk sda) ∧
    (isLow clk = false → ∀ st, TwiCall.setSDA st ∉ newCalls t (t.runEvent clk sda)) ∧
    (isLow clk = true →
      (t.runEvent clk sda).m_rxReg = t.m_rxReg ∧
      (t.runEvent clk sda).m_nextState = t.m_nextState) ∧
    (t.runEvent clk sda).m_mode = .TWI_MASTER ∧
    (t.runEvent clk sda).m_sheduleSDA = false := by
  by_cases hflag : t.m_sheduleSCL = true ∨ t.m_toggleScl = true
  · obtain ⟨st, e⟩ := runEvent_scl_first clk sda t hm hsd hflag
    have hc : newCalls t (t.runEvent clk sda) = [.setSCL st] := by
      rw [newCalls, e]; simp
    refine ⟨?_, ?_, ?_, ?_, ?_⟩
    · rw [hc, e]
    · intro _ st'; rw [hc]; simp
    · intro _; rw [e]; exact ⟨rfl, rfl⟩
    · rw [e]; exact hm
    · rw [e]; exact hsd
  · have hsc : t.m_sheduleSCL = false := by
      cases h : t.m_sheduleSCL
      · rfl
      · exact absurd (Or.inl h) hflag
    have htg : t.m_toggleScl = false := by
      cases h : t.m_toggleScl
      · rfl
      · exact absurd (Or.inr h) hflag
    rcases hph with hs | hs | hs | hs | hs
    · -- I2C_WRITE
      by_cases hb : t.m_bitPtr < 0 <;> cases clk <;>
        simp [runEvent, updateClock, getSdaState, writeBit, waitACK, keepClocking, setSDA, call,
          newCalls, isLow, hm, hsd, hsc, htg, hs, hb]
    · -- I2C_READ
      by_cases hb : t.m_bitPtr > 0 <;> by_cases h8 : t.m_bitPtr + 1 = 8 <;> cases clk <;>
        simp [runEvent, updateClock, getSdaState, readBit, readByte, ACK, keepClocking, call,
          newCalls, isLow, hm, hsd, hsc, htg, hs, hb, h8]
    · -- I2C_ACK
      cases hk : t.m_sendACK <;> cases clk <;>
        simp [runEvent, updateClock, getSdaState, keepClocking, setSDA, call,
          newCalls, isLow, hm, hsd, hsc, htg, hs, hk]
    · -- I2C_ENDACK
      cases hk : t.m_sendACK <;> cases clk <;>
        simp [runEvent, updateClock, getSdaState, keepClocking, setSDA, setTwiState, call,
          newCalls, isLow, hm, hsd, hsc, htg, hs, hk]
    · -- I2C_READACK
      have e := (runEvent_master clk sda t hm hsd hsc htg).2 hs
      rw [e]
      cases clk <;>
        simp [keepClocking, setTwiState, call, newCalls, isLow, hm, hsd]

/-- Witness of C16: the sample master writing the byte 0xA0, with SCL high,
calls no `setSDA`. -/
theorem runEvent_sda_discipline_witness :
    TwiCall.setSDA true ∉
      newCalls
        { sampleMaster with
          m_sheduleSCL := false, m_i2cState := .I2C_WRITE, m_txReg := 0xA0, m_bitPtr := 7 }
        ({ sampleMaster with
          m_sheduleSCL := false, m_i2cState := .I2C_WRITE, m_txReg := 0xA0,
          m_bitPtr := 7 }.runEvent .Clock_High true) :=
  (runEvent_sda_discipline .Clock_High true
    { sampleMaster with
      m_sheduleSCL := false, m_i2cState := .I2C_WRITE, m_txReg := 0xA0, m_bitPtr := 7 }
    rfl rfl (Or.inl rfl)).2.1 rfl true

end TwiModule

namespace UartRx

/-! #### Frame length -/

theorem bitsVal_lt (bits : List Bool) : bitsVal bits < 2 ^ bits.length := by
  induction bits with
  | nil => simp [bitsVal]
  | cons b bs ih =>
    have hb : b.toNat ≤ 1 := by cases b <;> simp
    simp only [bitsVal, List.length_cons, pow_succ]
    omega

theorem bitsVal_shift (b : Bool) (bs : List Bool) : bitsVal (b :: bs) >>> 1 = bitsVal bs := by
  have hb : b.toNat ≤ 1 := by cases b <;> simp
  rw [Nat.shiftRight_eq_div_pow]
  simp only [bitsVal]
  omega

/-- With an interrupt attached and `m_fifoP` within the FIFO, `byteReceived`
returns. -/
theorem byteReceived_some (D : UsartDecl) (frame : Nat) (r : UartRx)
    (hi : r.m_interrupt = true) (hp : r.m_fifoP ≤ 2) :
    ∃ q, r.byteReceived D frame = some q := by
  by_cases h0 : r.m_fifoP = 0
  · exact ⟨_, byteReceived_overrun D frame r h0⟩
  · cases hflt : filtered D r frame
    · exact ⟨_, byteReceived_accept D frame r (by omega) hi hflt⟩
    · exact ⟨_, byteReceived_filtered D frame r h0 hflt⟩

/-- The method `byteReceived` changes the FIFO and the log only. -/
theorem byteReceived_frame (D : UsartDecl) (frame : Nat) (r q : UartRx)
    (hi : r.m_interrupt = true) (hp : r.m_fifoP ≤ 2)
    (h : r.byteReceived D frame = some q) :
    q.m_runHardware = r.m_runHardware ∧ q.m_period = r.m_period ∧ q.m_state = r.m_state ∧
    q.m_currentBit = r.m_currentBit ∧ q.m_frame = r.m_frame ∧ q.m_inBuffer = r.m_inBuffer := by
  by_cases h0 : r.m_fifoP = 0
  · have e := Option.some.inj (h.symm.trans (byteReceived_overrun D frame r h0))
    rw [e]
    exact ⟨rfl, rfl, rfl, rfl, rfl, rfl⟩
  · cases hflt : filtered D r frame
    · have e := Option.some.inj
        (h.symm.trans (byteReceived_accept D frame r (by omega) hi hflt))
      rw [e]
      split_ifs <;> exact ⟨rfl, rfl, rfl, rfl, rfl, rfl⟩
    · have e := Option.some.inj (h.symm.trans (byteReceived_filtered D frame r h0 hflt))
      rw [e]
      exact ⟨rfl, rfl, rfl, rfl, rfl, rfl⟩

/-- The method `rxEnd` once `byteReceived` has returned `q`. -/
theorem rxEnd_of_some (D : UsartDecl) (r q : UartRx)
    (hb : ({ r with m_frame := r.m_frame >>> 1 } : UartRx).byteReceived D (r.m_frame >>> 1)
      = some q) :
    r.rxEnd D = some
      { q with
        m_currentBit := 0
        m_frame := 0
        m_state := if q.m_runHardware then .usartSTOPPED else .usartRECEIVE
        calls := q.calls ++ (if q.m_runHardware then [RxCall.changeCallBack true] else []) ++
          (if q.m_period ≠ 0 then [RxCall.cancelEvents] else []) } := by
  unfold rxEnd
  simp only [hb]
  by_cases hh : q.m_runHardware = true <;> by_cases hp : q.m_period = 0 <;>
    simp [call, hh, hp]

/-- The samples before the last one of a frame: the state is unchanged. -/
theorem readBits_state_lt (bits : List Bool) (r : UartRx)
    (h : r.m_currentBit + bits.length < r.m_framesize) :
    (r.readBits bits).m_state = r.m_state ∧
    (r.readBits bits).m_currentBit = r.m_currentBit + bits.length := by
  rw [readBits_lt bits r h]
  exact ⟨rfl, rfl⟩

/-- C15. UART frame length. A receiver in hardware-pin mode starts a frame
with `m_currentBit = 0`, `m_frame = 0`, a state other than `usartRXEND` and the
frame size `n = 1 + mDATABITS + mPARITY + mSTOPBITS` that `processData` sets,
at most 16 so that the frame fits the 16-bit frame word; an interrupt is
attached and `m_fifoP` is within the FIFO. After fewer than `n` `readBit`
samples the state is as it was and `m_currentBit` counts the samples. After
exactly `n` samples the state is `usartRXEND` and `m_frame` holds the samples,
first sample least significant. `rxEnd` then returns: it passes the samples
without the first (the start bit shifted out) to `byteReceived`, once, and
what `byteReceived` returns is kept but for `m_currentBit = 0`, `m_frame = 0`,
state `usartSTOPPED` and the calls `changeCallBack( true )` and, with a
non-zero period, `cancelEvents`. -/
theorem frame_length (D : UsartDecl) (r : UartRx)
    (hhw : r.m_runHardware = true) (hc : r.m_currentBit = 0) (hf : r.m_frame = 0)
    (hst : r.m_state ≠ .usartRXEND)
    (hs : r.m_framesize = 1 + r.mDATABITS + r.mPARITY + r.mSTOPBITS)
    (h16 : r.m_framesize ≤ 16)
    (hi : r.m_interrupt = true) (hp : r.m_fifoP ≤ 2) :
    (∀ bits : List Bool, bits.length < 1 + r.mDATABITS + r.mPARITY + r.mSTOPBITS →
      (r.readBits bits).m_state ≠ .usartRXEND ∧
      (r.readBits bits).m_state = r.m_state ∧
      (r.readBits bits).m_currentBit = bits.length) ∧
    (∀ bits : List Bool, bits.length = 1 + r.mDATABITS + r.mPARITY + r.mSTOPBITS →
      (r.readBits bits).m_state = .usartRXEND ∧
      (r.readBits bits).m_frame = bitsVal bits ∧
      bitsVal bits.tail < 2 ^ 16 ∧
      ∃ q r',
        ({ r.readBits bits with m_frame := bitsVal bits.tail } : UartRx).byteReceived D
          (bitsVal bits.tail) = some q ∧
        (r.readBits bits).rxEnd D = some r' ∧
        r'.m_currentBit = 0 ∧ r'.m_frame = 0 ∧ r'.m_state = .usartSTOPPED ∧
        r'.m_fifoP = q.m_fifoP ∧ r'.m_fifo0 = q.m_fifo0 ∧ r'.m_fifo1 = q.m_fifo1 ∧
        r'.calls = q.calls ++ [.changeCallBack true] ++
          (if r.m_period ≠ 0 then [.cancelEvents] else [])) := by
  constructor
  · intro bits hlen
    have h := readBits_state_lt bits r (by omega)
    exact ⟨by rw [h.1]; exact hst, h.1, by rw [h.2, hc]; omega⟩
  · intro bits hlen
    rcases List.eq_nil_or_concat bits with hnil | ⟨front, last, hsnoc⟩
    · subst hnil; simp at hlen; omega
    rw [List.concat_eq_append] at hsnoc
    subst hsnoc
    simp only [List.length_append, List.length_singleton] at hlen
    have hread : r.readBits (front ++ [last]) =
        { r with
          m_frame := bitsVal (front ++ [last])
          m_currentBit := front.length + 1
          m_state := .usartRXEND
          calls := r.calls ++ [.changeCallBack true] } := by
      have step : ∀ q : UartRx, q.readBits [last] = q.readBit last := fun _ => rfl
      rw [readBits_append, readBits_lt front r (by omega), step, readBit_eq, bitsVal_append]
      simp [hc, hf, hs, hlen]
    obtain ⟨b, bs, hcons⟩ : ∃ b bs, front ++ [last] = b :: bs := by
      cases front with
      | nil => exact ⟨last, [], rfl⟩
      | cons b bs => exact ⟨b, bs ++ [last], rfl⟩
    have hlen2 : (front ++ [last]).length = bs.length + 1 := by rw [hcons]; rfl
    simp only [List.length_append, List.length_singleton] at hlen2
    have hshift : bitsVal (front ++ [last]) >>> 1 = bitsVal (front ++ [last]).tail := by
      rw [hcons]; exact bitsVal_shift b bs
    have hlt : bitsVal (front ++ [last]).tail < 2 ^ 16 := by
      rw [hcons]
      exact lt_of_lt_of_le (bitsVal_lt bs) (Nat.pow_le_pow_right (by decide) (by omega))
    rw [hread]
    refine ⟨rfl, rfl, hlt, ?_⟩
    obtain ⟨q, hq⟩ := byteReceived_some D (bitsVal (front ++ [last]).tail)
      ({ r with
          m_frame := bitsVal (front ++ [last]).tail
          m_currentBit := front.length + 1
          m_state := .usartRXEND
          calls := r.calls ++ [.changeCallBack true] } : UartRx) hi hp
    have hq' : ({ ({ r with
          m_frame := bitsVal (front ++ [last])
          m_currentBit := front.length + 1
          m_state := .usartRXEND
          calls := r.calls ++ [.changeCallBack true] } : UartRx) with
        m_frame := bitsVal (front ++ [last]) >>> 1 } : UartRx).byteReceived D
          (bitsVal (front ++ [last]) >>> 1) = some q := by
      rw [hshift]; exact hq
    have hrx := rxEnd_of_some D _ q hq'
    have hkeep : q.m_runHardware = r.m_runHardware ∧ q.m_period = r.m_period := by
      have := byteReceived_frame D _ _ q (by exact hi) (by exact hp) hq
      exact ⟨this.1, this.2.1⟩
    refine ⟨q, _, hq, hrx, rfl, rfl, ?_, rfl, rfl, rfl, ?_⟩
    · simp [hkeep.1, hhw]
    · simp [hkeep.1, hkeep.2, hhw]

/-- Witness of C15: the sample receiver (8 data bits, no parity, one stop
bit) reaches `usartRXEND` with the 10th sample, and after 3 samples it has
counted 3. -/
theorem frame_length_witness :
    (sampleRx.readBits (frameBits 8 0xAA [true])).m_state = .usartRXEND ∧
    (sampleRx.readBits [false, true, false]).m_currentBit = 3 :=
  ⟨((frame_length sampleDecl sampleRx rfl rfl rfl (by decide) rfl (by decide) rfl
      (by decide)).2 (frameBits 8 0xAA [true]) rfl).1,
    ((frame_length sampleDecl sampleRx rfl rfl rfl (by decide) rfl (by decide) rfl
      (by decide)).1 [false, true, false] (by decide)).2.2⟩

end UartRx

namespace TwiModule

/-! #### General call -/

/-- C14. General-call matching. A slave with `m_addrBits = 7` that has just
detected START (`I2C_START`, bit pointer 0, `m_rxReg` 0) sees eight bit cells
(SCL falls, SDA changes and events while SCL is low, SCL rises) that carry a
7-bit address, most significant first, and a cleared R/W bit.
With `m_genCall` set, `m_address ≠ 0` and address 0: the 8th rising edge ends
with `m_sendACK` set, phase `I2C_ACK`, `m_nextState = TWI_SRX_GEN_ACK` and
`m_addrMatch` cleared. After the acknowledge pulse, the falling edge that
opens the first data cell publishes `TWI_SRX_GEN_ACK` and returns to
`I2C_WRITE`. The eight bit cells of a data byte then end in `I2C_ACK` with
`m_nextState = TWI_SRX_GEN_DATA_ACK`, which the falling edge after the next
acknowledge pulse publishes; when the owner has written `m_sendACK = k` after
the address was reported, the status is `TWI_SRX_GEN_DATA_ACK` for `k = true`
and `TWI_SRX_GEN_DATA_NACK` for `k = false`.
With `m_genCall` clear and `m_address ≠ 0`, address 0 ends in `I2C_STOP` with
`m_sendACK` as it was and nothing scheduled.
With `m_address = a`, whatever `m_genCall` and also for `a = 0`, the 8th
rising edge ends with `m_sendACK` set, phase `I2C_ACK`, `m_addrMatch` set and
`m_nextState = TWI_SRX_ADR_ACK`. -/
theorem general_call (D : TwiDecl) (t : TwiModule) (a : Nat) (ha : a < 128)
    (hm : t.m_mode = .TWI_SLAVE) (hs : t.m_i2cState = .I2C_START)
    (hb : t.m_bitPtr = 0) (hr : t.m_rxReg = 0) (hab : t.m_addrBits = 7)
    (cells : List BitCell) (hbits : cellBits cells = msbFirst 7 a ++ [false])
    (hlow : cellsLow cells = true) :
    (a = 0 → t.m_genCall = true → t.m_address ≠ 0 →
      let t8 := doSteps D (bitCells cells) t
      t8.m_sendACK = true ∧ t8.m_i2cState = .I2C_ACK ∧ t8.m_nextState = .TWI_SRX_GEN_ACK ∧
      t8.m_addrMatch = false ∧
      ∀ (ack d0 ack2 : BitCell) (rest : List BitCell) (s4 : Bool),
        ack.lows.all (fun s => s.isLow) = true → d0.lows.all (fun s => s.isLow) = true →
        ack2.lows.all (fun s => s.isLow) = true → cellsLow rest = true → rest.length = 7 →
        let t10 := (doSteps D (bitCell ack) t8).voltChanged D .Clock_Falling d0.sdaAtFall
        let t18 := doSteps D (bitCells (d0 :: rest)) (doSteps D (bitCell ack) t8)
        t10.m_twiState = .TWI_SRX_GEN_ACK ∧ t10.m_i2cState = .I2C_WRITE ∧
        t18.m_i2cState = .I2C_ACK ∧ t18.m_nextState = .TWI_SRX_GEN_DATA_ACK ∧
        ((doSteps D (bitCell ack2) t18).voltChanged D .Clock_Falling s4).m_twiState =
          .TWI_SRX_GEN_DATA_ACK ∧
        ∀ k : Bool,
          let t18k := doSteps D (afterFall d0 ++ bitCells rest)
            ({ t10 with m_sendACK := k } : TwiModule)
          t18k.m_i2cState = .I2C_ACK ∧
          t18k.m_nextState = (if k then .TWI_SRX_GEN_DATA_ACK else .TWI_SRX_GEN_DATA_NACK) ∧
          ((doSteps D (bitCell ack2) t18k).voltChanged D .Clock_Falling s4).m_twiState =
            (if k then .TWI_SRX_GEN_DATA_ACK else .TWI_SRX_GEN_DATA_NACK)) ∧
    (a = 0 → t.m_genCall = false → t.m_address ≠ 0 →
      let t8 := doSteps D (bitCells cells) t
      t8.m_i2cState = .I2C_STOP ∧ t8.m_sendACK = t.m_sendACK ∧ requests t8 = requests t) ∧
    (t.m_address = a →
      let t8 := doSteps D (bitCells cells) t
      t8.m_sendACK = true ∧ t8.m_i2cState = .I2C_ACK ∧ t8.m_addrMatch = true ∧
      t8.m_nextState = .TWI_SRX_ADR_ACK) := by
  have hbyte := addr_byte D t a ha hm hs hb hr hab cells hbits hlow
  refine ⟨?_, ?_, ?_⟩
  · intro ha0 hg hadr
    have hne : ¬ (a = t.m_address) := fun h => hadr (by rw [← h, ha0])
    obtain ⟨b1, b2, b3, b4, b5, b6, b7, _⟩ := hbyte.1 (Or.inr ⟨hg, ha0⟩)
    rw [if_neg hne] at b5
    have b6' : (doSteps D (bitCells cells) t).m_addrMatch = false := by
      rw [b6]; exact decide_eq_false hne
    dsimp only
    generalize doSteps D (bitCells cells) t = t8 at b1 b2 b3 b4 b5 b6' b7 ⊢
    refine ⟨b4, b2, b5, b6', ?_⟩
    intro ack d0 ack2 rest s4 hl hl0 hl2 hlr hlen
    obtain ⟨p1, p2, p3, p4, p5, p6, _⟩ := ack_publish D t8 ack d0.sdaAtFall b1 b2 b3 hl
    have e18 : doSteps D (bitCells (d0 :: rest)) (doSteps D (bitCell ack) t8) =
        doSteps D (afterFall d0 ++ bitCells rest)
          ((doSteps D (bitCell ack) t8).voltChanged D .Clock_Falling d0.sdaAtFall) := rfl
    rw [e18]
    generalize (doSteps D (bitCell ack) t8).voltChanged D .Clock_Falling d0.sdaAtFall = t10
      at p1 p2 p3 p4 p5 p6 ⊢
    obtain ⟨d1, d2, d3, d4, _, _, _⟩ := data_byte D t10 d0 rest p1 p2 (p4.trans b7) hlen hl0 hlr
    have hst : dataStatus t10.m_addrMatch t10.m_sendACK = .TWI_SRX_GEN_DATA_ACK := by
      rw [p6, p5, b6', b4]; rfl
    rw [hst] at d4
    obtain ⟨_, _, q3, _, _, _, _⟩ := ack_publish D _ ack2 s4 d1 d2 d3 hl2
    refine ⟨by rw [p3, b5], p2, d2, d4, by rw [q3, d4], ?_⟩
    intro k
    obtain ⟨k1, k2, k3, k4, _, _, _⟩ := data_byte D ({ t10 with m_sendACK := k } : TwiModule)
      d0 rest p1 p2 (p4.trans b7) hlen hl0 hlr
    have hstk : dataStatus ({ t10 with m_sendACK := k } : TwiModule).m_addrMatch
        ({ t10 with m_sendACK := k } : TwiModule).m_sendACK =
        (if k then .TWI_SRX_GEN_DATA_ACK else .TWI_SRX_GEN_DATA_NACK) := by
      show dataStatus t10.m_addrMatch k = _
      rw [p6, b6']; cases k <;> rfl
    rw [hstk] at k4
    obtain ⟨_, _, r3, _, _, _, _⟩ := ack_publish D _ ack2 s4 k1 k2 k3 hl2
    exact ⟨k2, k4, by rw [r3, k4]⟩
  · intro ha0 hg hadr
    have hc : ¬ (a = t.m_address ∨ (t.m_genCall = true ∧ a = 0)) := by
      rintro (h | h)
      · exact hadr (by rw [← h, ha0])
      · rw [hg] at h; exact absurd h.1 (by decide)
    obtain ⟨_, b2, _, b4, b5, _⟩ := hbyte.2 hc
    exact ⟨b2, b4, b5⟩
  · intro hadr
    obtain ⟨_, b2, _, b4, b5, b6, _, _⟩ := hbyte.1 (Or.inl hadr.symm)
    rw [if_pos hadr.symm] at b5
    exact ⟨b4, b2, by rw [b6]; exact decide_eq_true hadr.symm, b5⟩

/-- Witness of C14: address 0 with the write bit cleared, sent to the sample
slave at 0x50 with general call on and with general call off, and address
0x50 sent to the slave with general call on. -/
theorem general_call_witness :
    (doSteps sampleDecl (bitCells (plainCells (msbFirst 7 0 ++ [false])))
      sampleGenCall).m_nextState = .TWI_SRX_GEN_ACK ∧
    (doSteps sampleDecl (bitCells (plainCells (msbFirst 7 0 ++ [false])))
      (sampleSlave 0x50)).m_i2cState = .I2C_STOP ∧
    (doSteps sampleDecl (bitCells (plainCells (msbFirst 7 0x50 ++ [false])))
      sampleGenCall).m_nextState = .TWI_SRX_ADR_ACK :=
  ⟨((general_call sampleDecl sampleGenCall 0 (by decide) rfl rfl rfl rfl rfl
      (plainCells (msbFirst 7 0 ++ [false])) rfl rfl).1 rfl rfl (by decide)).2.2.1,
    ((general_call sampleDecl (sampleSlave 0x50) 0 (by decide) rfl rfl rfl rfl rfl
      (plainCells (msbFirst 7 0 ++ [false])) rfl rfl).2.1 rfl rfl (by decide)).1,
    ((general_call sampleDecl sampleGenCall 0x50 (by decide) rfl rfl rfl rfl rfl
      (plainCells (msbFirst 7 0x50 ++ [false])) rfl rfl).2.2 rfl).2.2.2⟩

/-- Witness of C11: the sample module with a clock event pending is made a
master; the pending events are then the two of this call. -/
theorem setMode_events_witness :
    pendingEvents [.halfPeriod] (newCalls sampleOff (sampleOff.setMode .TWI_MASTER)) =
      [.period, .quarterPeriod] :=
  ((setMode_events .TWI_MASTER sampleOff [.halfPeriod]).1 rfl).2.1

end TwiModule

/-! ### The Thevenin pair, start-bit detection, bit serialisation and the divisions -/

namespace IoPin

/-! #### The Thevenin pair, open collector, initialize -/

/-- The method `updtState` in closed form. -/
theorem updtState_eq (p : IoPin) :
    p.updtState =
      { p with
        m_outVolt := p.m_outHighV * (p.m_vddAdmit + p.m_vddAdmEx) * (1 / totalAdmit p)
        m_imp := 1 / totalAdmit p
        m_admit := 1 / (1 / totalAdmit p)
        calls := p.calls ++
          [PinCall.stampAdmitance (1 / (1 / totalAdmit p)),
            PinCall.setVolt (p.m_outHighV * (p.m_vddAdmit + p.m_vddAdmEx) * (1 / totalAdmit p)),
            PinCall.stampCurrent
              (p.m_outHighV * (p.m_vddAdmit + p.m_vddAdmEx) * (1 / totalAdmit p) /
                (1 / totalAdmit p))] } := by
  simp [updtState, setImp, stampAll, stampOutput, call, totalAdmit]

/-- The members of the sample pin that the sample computations read. -/
theorem samplePin_fields :
    samplePin.m_vddAdmit = 1 / 40 ∧ samplePin.m_vddAdmEx = 0 ∧
    samplePin.m_gndAdmit = 1 / 10 ^ 14 ∧ samplePin.m_gndAdmEx = 0 ∧
    samplePin.m_outState = false ∧ samplePin.m_inverted = false ∧
    samplePin.m_stateZ = false ∧ samplePin.m_outHighV = 5 ∧ samplePin.m_outLowV = 0 ∧
    samplePin.m_inputImp = 10 ^ 14 ∧ samplePin.m_outputImp = 40 ∧
    samplePin.m_openImp = 10 ^ 28 := by
  simp [samplePin, construct, setPinMode, setOutState, updtState, setImp, stampAll,
    stampOutput, call, setPinState, sampleDecl]

/-- The members of the sample pin, switched to `input`, that `setOutState`
reads. -/
theorem sampleInput_fields :
    (samplePin.setPinMode sampleDecl .input).m_pinMode = .input ∧
    (samplePin.setPinMode sampleDecl .input).m_stateZ = false ∧
    (samplePin.setPinMode sampleDecl .input).m_outState = false ∧
    (samplePin.setPinMode sampleDecl .input).m_inverted = false ∧
    (samplePin.setPinMode sampleDecl .input).m_outLowV = 0 := by
  simp [samplePin, construct, setPinMode, setOutState, updtState, setImp, stampAll,
    stampOutput, call, setPinState, sampleDecl]

/-- C21. IoPin Thevenin pair. With `Gv = m_vddAdmit + m_vddAdmEx`,
`Gg = m_gndAdmit + m_gndAdmEx` and `Gv + Gg ≠ 0`, `updtState` sets
`m_imp = 1/(Gv+Gg)`, `m_admit = Gv+Gg` and `m_outVolt = m_outHighV * Gv/(Gv+Gg)`,
and changes no other member but the log. After a `setPinMode(output)` that
changes the mode of a pin that is not tri-stated, `m_outVolt` is `m_outHighV`
when `m_outState` xor `m_inverted` is true and `m_outLowV` otherwise, whatever
the enumerator values and the default of `st` that the headers declare. -/
theorem thevenin_pair (p : IoPin) :
    (p.m_vddAdmit + p.m_vddAdmEx + (p.m_gndAdmit + p.m_gndAdmEx) ≠ 0 →
      p.updtState.m_imp = 1 / (p.m_vddAdmit + p.m_vddAdmEx + (p.m_gndAdmit + p.m_gndAdmEx)) ∧
      IoPin.m_admit (p.updtState) =
        p.m_vddAdmit + p.m_vddAdmEx + (p.m_gndAdmit + p.m_gndAdmEx) ∧
      p.updtState.m_outVolt =
        p.m_outHighV * (p.m_vddAdmit + p.m_vddAdmEx) /
          (p.m_vddAdmit + p.m_vddAdmEx + (p.m_gndAdmit + p.m_gndAdmEx)) ∧
      p.updtState =
        { p with
          m_outVolt := p.updtState.m_outVolt
          m_imp := p.updtState.m_imp
          m_admit := IoPin.m_admit (p.updtState)
          calls := p.updtState.calls }) ∧
    (∀ D : IoDecl, p.m_pinMode ≠ .output → p.m_stateZ = false →
      (p.setPinMode D .output).m_pinMode = .output ∧
      (p.setPinMode D .output).m_outVolt =
        (if xor p.m_outState p.m_inverted then p.m_outHighV else p.m_outLowV)) := by
  constructor
  · intro h
    rw [updtState_eq]
    refine ⟨rfl, ?_, ?_, rfl⟩
    · simp [totalAdmit]
    · simp [totalAdmit, div_eq_mul_inv]
  · intro D hm hz
    cases ho : p.m_outState <;> cases hi : p.m_inverted <;> cases hst : D.stDefault <;>
      simp [setPinMode, setOutState, updtState, setImp, stampAll, stampOutput, call,
        setPinState, hm, hz, ho, hi, hst]

/-- Witness of C21: `updtState` on the sample output pin, and the sample pin
switched to `input` and back to `output`. -/
theorem thevenin_pair_witness :
    IoPin.m_admit (samplePin.updtState) = 1 / 40 + 1 / 10 ^ 14 ∧
    ((samplePin.setPinMode sampleDecl .input).setPinMode sampleDecl .output).m_outVolt = 0 := by
  obtain ⟨h1, h2, h3, h4, _⟩ := samplePin_fields
  obtain ⟨g1, g2, g3, g4, g5⟩ := sampleInput_fields
  constructor
  · rw [((thevenin_pair samplePin).1 (by rw [h1, h2, h3, h4]; norm_num)).2.1, h1, h2, h3, h4]
    norm_num
  · rw [((thevenin_pair (samplePin.setPinMode sampleDecl .input)).2 sampleDecl
      (by rw [g1]; decide) g2).2, g3, g4, g5]
    rfl

/-- C26. The method `initialize()` sets `m_outCtrl`, `m_dirCtrl`,
`m_inpState` and `m_outState` to false, calls `setEnodeComp`, and changes
nothing else: `m_pinMode`, `m_vddAdmit`, `m_gndAdmit`, `m_outVolt`, `m_imp`
and `m_admit` are as before, its `setPinMode( m_pinMode )` call being the
unchanged-mode return. So on an output pin that was driving high
(`m_outState` set, `m_outVolt = m_outHighV`), after `initialize()`
`m_outState` is false while `m_outVolt` is still `m_outHighV`. -/
theorem initialise_frame (D : IoDecl) (p : IoPin) :
    p.initialise D =
      { p with
        m_outCtrl := false
        m_dirCtrl := false
        m_inpState := false
        m_outState := false
        calls := p.calls ++ [PinCall.setEnodeComp] } ∧
    ({ p with
        m_outCtrl := false, m_dirCtrl := false, m_inpState := false, m_outState := false,
        calls := p.calls ++ [PinCall.setEnodeComp] } : IoPin).setPinMode D p.m_pinMode =
      { p with
        m_outCtrl := false, m_dirCtrl := false, m_inpState := false, m_outState := false,
        calls := p.calls ++ [PinCall.setEnodeComp] } ∧
    (p.initialise D).m_pinMode = p.m_pinMode ∧
    (p.initialise D).m_vddAdmit = p.m_vddAdmit ∧
    (p.initialise D).m_gndAdmit = p.m_gndAdmit ∧
    (p.initialise D).m_outVolt = p.m_outVolt ∧
    (p.initialise D).m_imp = p.m_imp ∧
    IoPin.m_admit (p.initialise D) = IoPin.m_admit p ∧
    (p.m_pinMode = .output → p.m_outState = true → p.m_outVolt = p.m_outHighV →
      (p.initialise D).m_outState = false ∧ (p.initialise D).m_outVolt = p.m_outHighV ∧
      (p.initialise D).m_outHighV = p.m_outHighV) := by
  have e : p.initialise D =
      { p with
        m_outCtrl := false
        m_dirCtrl := false
        m_inpState := false
        m_outState := false
        calls := p.calls ++ [PinCall.setEnodeComp] } := by
    simp [initialise, setPinMode, call]
  refine ⟨e, by simp [setPinMode], by rw [e], by rw [e], by rw [e], by rw [e], by rw [e],
    by rw [e], ?_⟩
  intro _ _ hv
  rw [e]
  exact ⟨rfl, hv, rfl⟩

/-- Witness of C26: the sample output pin driven high, then `initialize()`. -/
theorem initialise_frame_witness :
    ((samplePin.setOutState true true).initialise sampleDecl).m_outState = false ∧
    ((samplePin.setOutState true true).initialise sampleDecl).m_outVolt = 5 :=
  have hs : (samplePin.setOutState true true).m_pinMode = .output ∧
      (samplePin.setOutState true true).m_outState = true ∧
      (samplePin.setOutState true true).m_outVolt = 5 ∧
      (samplePin.setOutState true true).m_outHighV = 5 := by
    simp [samplePin, construct, setPinMode, setOutState, updtState, setImp, stampAll,
      stampOutput, call, setPinState, sampleDecl]
  have h := (initialise_frame sampleDecl (samplePin.setOutState true true)).2.2.2.2.2.2.2.2
    hs.1 hs.2.1 (by rw [hs.2.2.1, hs.2.2.2])
  ⟨h.1, by rw [h.2.1, hs.2.2.2]⟩

end IoPin

/-! #### The divisions, over doubles -/

namespace Dbl

end Dbl

namespace DblPin

end DblPin

namespace UartRx

/-! #### Start-bit detection -/

/-- What `byteReceived` leaves alone of the members that `voltChanged` and
`rxEnd` read. -/
theorem byteReceived_keeps (D : UsartDecl) (frame : Nat) (r q : UartRx)
    (h : r.byteReceived D frame = some q) :
    q.m_sleeping = r.m_sleeping ∧ q.m_startHigh = r.m_startHigh ∧
    q.m_runHardware = r.m_runHardware ∧ q.m_period = r.m_period := by
  rw [byteReceived_eq] at h
  by_cases h0 : r.m_fifoP = 0
  · rw [if_pos h0] at h
    rw [← Option.some.inj h]
    exact ⟨rfl, rfl, rfl, rfl⟩
  rw [if_neg h0] at h
  by_cases hf : r.mDATABITS = 9 ∧ r.m_ignoreData = true ∧ tagFrame D r frame &&& (1 <<< 8) = 0
  · rw [if_pos hf] at h
    rw [← Option.some.inj h]
    exact ⟨rfl, rfl, rfl, rfl⟩
  rw [if_neg hf] at h
  by_cases h1 : r.m_fifoP - 1 = 0
  · by_cases hi : r.m_interrupt = true <;>
      simp [setFifo, h1, hi, call] at h
    all_goals
      rw [← h]
      exact ⟨rfl, rfl, rfl, rfl⟩
  by_cases h2 : r.m_fifoP - 1 = 1
  · by_cases hi : r.m_interrupt = true <;>
      simp [setFifo, h2, hi, call] at h
    all_goals
      rw [← h]
      exact ⟨rfl, rfl, rfl, rfl⟩
  · simp [setFifo, h1, h2] at h

/-- What `rxEnd` returns is not sleeping if the receiver was not, is not in
`usartRXEND`, and has `m_startHigh` as before. -/
theorem rxEnd_keeps (D : UsartDecl) (r q : UartRx) (h : r.rxEnd D = some q) :
    q.m_sleeping = r.m_sleeping ∧ q.m_startHigh = r.m_startHigh ∧
    q.m_state ≠ .usartRXEND := by
  unfold rxEnd at h
  cases hb : ({ r with m_frame := r.m_frame >>> 1 } : UartRx).byteReceived D (r.m_frame >>> 1) with
  | none => simp [hb] at h
  | some s =>
    have hk := byteReceived_keeps D _ _ s hb
    simp only [hb] at h
    rw [← Option.some.inj h]
    by_cases hh : s.m_runHardware = true <;> by_cases hp : s.m_period = 0 <;>
      simp [call, hh, hp, hk.1, hk.2.1]

/-- C22. UART start-bit detection. On a receiver that is not sleeping,
`voltChanged` first completes a frame that is in `usartRXEND` (`rxEnd`, which
leaves `m_startHigh` and the sleeping flag as they are and a state other than
`usartRXEND`), and then, the pin reading `bit`:
with `bit` low and `m_startHigh` set it starts a reception: state
`usartRECEIVE`, `changeCallBack( false )`, and with a non-zero period an event
`m_period/2` later, nothing else changed;
with `bit` low and `m_startHigh` clear it changes nothing;
with `bit` high it sets `m_startHigh` and changes nothing else.
So the call `changeCallBack( false )` is made if and only if the pin reads low
and `m_startHigh` is set. -/
theorem voltChanged_start_bit (D : UsartDecl) (bit : Bool) (r : UartRx)
    (hs : r.m_sleeping = false) :
    (r.m_state ≠ .usartRXEND →
      (bit = false → r.m_startHigh = true →
        r.voltChanged D bit = some
          { r with
            m_state := .usartRECEIVE
            calls := r.calls ++ [RxCall.changeCallBack false] ++
              (if r.m_period ≠ 0 then [RxCall.addEvent (r.m_period / 2)] else []) }) ∧
      (bit = false → r.m_startHigh = false → r.voltChanged D bit = some r) ∧
      (bit = true → r.voltChanged D bit = some { r with m_startHigh := true }) ∧
      ∃ q, r.voltChanged D bit = some q ∧
        (RxCall.changeCallBack false ∈ q.calls.drop r.calls.length ↔
          (bit = false ∧ r.m_startHigh = true))) ∧
    (r.m_state = .usartRXEND →
      (∀ r1, r.rxEnd D = some r1 →
        r1.m_sleeping = false ∧ r1.m_state ≠ .usartRXEND ∧ r1.m_startHigh = r.m_startHigh ∧
        r.voltChanged D bit = r1.voltChanged D bit) ∧
      (r.m_interrupt = true → r.m_fifoP ≤ 2 → ∃ r1, r.rxEnd D = some r1)) := by
  constructor
  · intro hst
    have e1 : bit = false → r.m_startHigh = true →
        r.voltChanged D bit = some
          { r with
            m_state := .usartRECEIVE
            calls := r.calls ++ [RxCall.changeCallBack false] ++
              (if r.m_period ≠ 0 then [RxCall.addEvent (r.m_period / 2)] else []) } := by
      intro hb hh
      by_cases hp : r.m_period = 0 <;> simp [voltChanged, call, hs, hst, hb, hh, hp]
    have e2 : bit = false → r.m_startHigh = false → r.voltChanged D bit = some r := by
      intro hb hh
      simp [voltChanged, hs, hst, hb, hh]
    have e3 : bit = true → r.voltChanged D bit = some { r with m_startHigh := true } := by
      intro hb
      cases hh : r.m_startHigh
      · simp [voltChanged, hs, hst, hb, hh]
      · have e : ({ r with m_startHigh := true } : UartRx) = r := by
          cases r
          simp only [UartRx.mk.injEq, true_and, and_true] at hh ⊢
          exact hh.symm
        rw [e]
        simp [voltChanged, hs, hst, hb, hh]
    refine ⟨e1, e2, e3, ?_⟩
    cases bit
    · cases hh : r.m_startHigh
      · exact ⟨_, e2 rfl hh, by simp⟩
      · refine ⟨_, e1 rfl hh, ?_⟩
        simp
    · refine ⟨_, e3 rfl, ?_⟩
      simp
  · intro hst
    constructor
    · intro r1 h1
      obtain ⟨k1, k2, k3⟩ := rxEnd_keeps D r r1 h1
      refine ⟨by rw [k1, hs], k3, k2, ?_⟩
      have hs1 : r1.m_sleeping = false := by rw [k1, hs]
      simp [voltChanged, hs, hst, h1, hs1, k3]
    · intro hi hp
      obtain ⟨q, hq⟩ := byteReceived_some D (r.m_frame >>> 1)
        ({ r with m_frame := r.m_frame >>> 1 } : UartRx) hi hp
      exact ⟨_, rxEnd_of_some D r q hq⟩

/-- Witness of C22: the sample receiver, enabled with the pin high, sees the
pin fall: the reception starts, the first sample 52 time units later. -/
theorem voltChanged_start_bit_witness :
    sampleRx.voltChanged sampleDecl false = some
      { sampleRx with
        m_state := .usartRECEIVE
        calls := sampleRx.calls ++ [RxCall.changeCallBack false] ++ [RxCall.addEvent 52] } :=
  ((voltChanged_start_bit sampleDecl false sampleRx rfl).1 (by decide)).1 rfl rfl

end UartRx

namespace TwiModule

/-! #### Bit serialisation -/

/-- The bit that `writeBit` takes from `m_txReg`. -/
theorem shiftRight_land_one (d k : Nat) : decide (d >>> k &&& 1 ≠ 0) = d.testBit k := by
  rw [Nat.testBit, Nat.land_comm]
  cases h : (1 &&& d >>> k) with
  | zero => simp [h]
  | succ n => simp [h]

/-- One `writeBit()` call with the bit pointer at `k ≥ 0`: bit `k` of
`m_txReg` is commanded, the bit pointer goes to `k - 1`. -/
theorem writeBit_step (t : TwiModule) (k : Nat) (hk : t.m_bitPtr = k) :
    commandedSDA t t.writeBit = some (t.m_txReg.testBit k) ∧
    t.writeBit.m_bitPtr = (k : Int) - 1 ∧ t.writeBit.m_txReg = t.m_txReg ∧
    t.writeBit.m_mode = t.m_mode := by
  have hn : ¬ ((k : Int) < 0) := by omega
  by_cases hm : t.m_mode = .TWI_MASTER
  · simp [writeBit, commandedSDA, newCalls, setSDA, call, hn, hm, hk, shiftRight_land_one]
  · simp [writeBit, commandedSDA, newCalls, sheduleSDA, call, hn, hm, hk, shiftRight_land_one]

theorem msbFirst_succ (n d : Nat) : msbFirst (n + 1) d = d.testBit n :: msbFirst n d := by
  simp [msbFirst, List.range_succ]

/-- Successive `writeBit()` calls from bit pointer `n - 1`: bits `n - 1` down
to 0 of `m_txReg` are commanded and the bit pointer ends at -1. -/
theorem writeBits_msbFirst (n : Nat) :
    ∀ t : TwiModule, t.m_bitPtr = (n : Int) - 1 →
      writtenBits n t = (msbFirst n t.m_txReg).map some ∧
      (writeBits n t).m_bitPtr = -1 ∧ (writeBits n t).m_txReg = t.m_txReg ∧
      (writeBits n t).m_mode = t.m_mode := by
  induction n with
  | zero =>
    intro t h
    refine ⟨by simp [writtenBits, msbFirst], ?_, rfl, rfl⟩
    simpa [writeBits] using h
  | succ n ih =>
    intro t h
    obtain ⟨s1, s2, s3, s4⟩ := writeBit_step t n (by push_cast at h; omega)
    obtain ⟨i1, i2, i3, i4⟩ := ih t.writeBit s2
    refine ⟨?_, ?_, ?_, ?_⟩
    · simp only [writtenBits, msbFirst_succ, List.map_cons, s1, i1, s3]
    · simpa [writeBits] using i2
    · simp only [writeBits]; rw [i3, s3]
    · simp only [writeBits]; rw [i4, s4]

/-- One `readBit()` call on the level `b`. -/
theorem readBit_step (t : TwiModule) (b : Bool) (h0 : 0 ≤ t.m_bitPtr)
    (hz : t.m_bitPtr = 0 → t.m_rxReg = 0) :
    (t.getSdaState b).readBit =
      { t with
        m_sdaState := b
        m_rxReg := 2 * t.m_rxReg + b.toNat
        m_bitPtr := t.m_bitPtr + 1 } := by
  by_cases hp : t.m_bitPtr > 0
  · simp [readBit, getSdaState, hp, Nat.shiftLeft_eq, Nat.mul_comm]
  · have hb : t.m_bitPtr = 0 := by omega
    simp [readBit, getSdaState, hb, hz hb]

/-- The levels `bits` read by successive `readBit()` calls. -/
theorem readBits_msbAcc (bits : List Bool) :
    ∀ t : TwiModule, 0 ≤ t.m_bitPtr → (t.m_bitPtr = 0 → t.m_rxReg = 0) →
      (t.readBits bits).m_rxReg = msbAcc t.m_rxReg bits ∧
      (t.readBits bits).m_bitPtr = t.m_bitPtr + bits.length := by
  induction bits with
  | nil => intro t _ _; simp [readBits, msbAcc]
  | cons b bs ih =>
    intro t h0 hz
    have e : t.readBits (b :: bs) = ((t.getSdaState b).readBit).readBits bs := rfl
    have hs := readBit_step t b h0 hz
    obtain ⟨i1, i2⟩ := ih ((t.getSdaState b).readBit) (by rw [hs]; simp only []; omega)
      (by rw [hs]; simp only []; omega)
    rw [e, i1, i2, hs]
    simp only [msbAcc, List.length_cons, Nat.cast_add, Nat.cast_one, true_and]
    omega

set_option maxRecDepth 40000 in
theorem msbAcc_msbFirst8 : ∀ d < 256, msbAcc 0 (msbFirst 8 d) = d := by
  decide

/-- C23. TWI bit serialisation round trip. For every byte `d`, from
`m_txReg = d` and bit pointer 7, eight successive `writeBit()` calls command
the SDA levels bit 7 down to bit 0 of `d` (a master with `setSDA`, a slave
with `sheduleSDA`) and leave the bit pointer at -1; eight `readBit()` calls
that start from bit pointer 0 and `m_rxReg = 0` and read those levels in
order leave `m_rxReg = d` and bit pointer 8. -/
theorem bit_round_trip (d : Nat) (hd : d < 256) (t u : TwiModule)
    (ht : t.m_txReg = d) (hb : t.m_bitPtr = 7) (hu : u.m_bitPtr = 0) (hr : u.m_rxReg = 0) :
    writtenBits 8 t =
      [some (d.testBit 7), some (d.testBit 6), some (d.testBit 5), some (d.testBit 4),
        some (d.testBit 3), some (d.testBit 2), some (d.testBit 1), some (d.testBit 0)] ∧
    (writeBits 8 t).m_bitPtr = -1 ∧
    writtenBits 8 t = (msbFirst 8 d).map some ∧
    (u.readBits (msbFirst 8 d)).m_rxReg = d ∧
    (u.readBits (msbFirst 8 d)).m_bitPtr = 8 := by
  obtain ⟨w1, w2, _, _⟩ := writeBits_msbFirst 8 t (by rw [hb]; rfl)
  obtain ⟨r1, r2⟩ := readBits_msbAcc (msbFirst 8 d) u (by omega) (fun _ => hr)
  rw [ht] at w1
  refine ⟨?_, w2, w1, ?_, ?_⟩
  · rw [w1]; rfl
  · rw [r1, hr]; exact msbAcc_msbFirst8 d hd
  · rw [r2, hu]; rfl

/-- Witness of C23: the sample master sends 0xA5 and the sample slave reads
it. -/
theorem bit_round_trip_witness :
    writtenBits 8 { sampleMaster with m_txReg := 0xA5, m_bitPtr := 7 } =
      [some true, some false, some true, some false, some false, some true, some false,
        some true] ∧
    ((sampleSlave 0x50).readBits (msbFirst 8 0xA5)).m_rxReg = 0xA5 :=
  have h := bit_round_trip 0xA5 (by decide)
    { sampleMaster with m_txReg := 0xA5, m_bitPtr := 7 } (sampleSlave 0x50) rfl rfl rfl rfl
  ⟨h.1, h.2.2.2.1⟩

end TwiModule


end SimulIDE
